import Mathlib

/-!
# BaseDB: the query matcher, the write handlers, sorting and pagination

A shallow embedding of the document query engine of BaseDB (`matchesQuery`,
`matchesOperators`, `compareValues`, `toFloat64`, `inArray`, `matchesRegex`), of its
query validation (`validateOperators`, `validateOperatorValue`), of the metadata stamp
(`models.AddMetadata`), of the insert and update handlers and of the sorting and
pagination of the read handlers (`sortResults`, `isTimeField`, `isTimeValue`,
`parseTime`, `find`, `findManyDocuments`) of `handlers/collection_handlers.go`,
together with the properties of the specification that concern them.

Modelling conventions.

* A Go `interface{}` holding a decoded JSON value is a `Value`: `nil`, `bool`,
  `float64`, `string`, `[]interface{}` or `map[string]interface{}`.  Documents and
  queries are only ever produced by `encoding/json` (or, for the GET form of
  `find`, from URL parameters, which are strings), so no other dynamic type occurs;
  the `float32`, `int` and `int64` arms of `toFloat64` are therefore unreachable
  and have no counterpart here.
* A Go map is an association list; `m[k]` is `mapGet m k` and `for k, v := range m`
  visits the entries in list order.  Go leaves the iteration order unspecified, so
  results that are claimed for a map are proved for every ordering of its entries.
* The Go standard library is not part of the repository.  The pieces of it the
  code calls (`float64` comparison and conversion, `strconv.ParseFloat`,
  the `%v` rendering of a `float64`, `regexp`, the conversion `int64(f)`, package
  `time` and `sort.Slice`) are the fields of `GoLib`; every general theorem holds
  for every `GoLib`.  `fragLib` is a concrete instance used to evaluate the code
  on concrete documents.
* Go's `int` is 64 bits wide; `strconv.Atoi` and `strconv.ParseInt` are modelled
  in full, and the sum `skipCount + limitCount` wraps around.
-/

namespace BaseDB

/-! ## Values -/

/-- A decoded JSON value, as stored in a Go `interface{}`; `F` is the carrier of
`float64`. -/
inductive Value (F : Type) : Type where
  | null : Value F
  | bool (b : Bool) : Value F
  | num (x : F) : Value F
  | str (s : String) : Value F
  | arr (items : List (Value F)) : Value F
  | obj (fields : List (String × Value F)) : Value F

/-- A Go `map[string]interface{}`: the entries of the map. -/
abbrev GoMap (F : Type) : Type := List (String × Value F)

/-- The type `models.Document`, declared as `map[string]interface{}`. -/
abbrev Document (F : Type) : Type := GoMap F

/-- Map indexing `v, ok := m[k]`: `some v` when `ok`, `none` otherwise. -/
def mapGet {F : Type} : GoMap F → String → Option (Value F)
  | [], _ => none
  | (k, v) :: rest, key => if k = key then some v else mapGet rest key

/-- Whether a value has dynamic type `map[string]interface{}`. -/
def Value.isObj {F : Type} : Value F → Bool
  | .obj _ => true
  | _ => false

/-! ## The standard-library interface -/

/-- The requirement of package `sort` on a `less` function, for the elements of a
list: `less` is irreflexive and transitive, and so is incomparability (stated as:
an element that sorts before another sorts before, or a third one sorts before, each
other element). -/
def StrictWeakOn {α : Type} (less : α → α → Bool) (l : List α) : Prop :=
  (∀ a ∈ l, less a a = false) ∧
  (∀ a ∈ l, ∀ b ∈ l, ∀ c ∈ l, less a b = true → less b c = true → less a c = true) ∧
  (∀ a ∈ l, ∀ b ∈ l, ∀ c ∈ l, less a c = true → less a b = true ∨ less b c = true)

/-- The operations of the Go standard library used by the matcher.  The three-valued
result of `strings.Compare` is converted with `float64(...)` and compared with the
constant `0`; the fields `gt_ofInt` to `le_ofInt` record that this conversion is exact
on `-1`, `0`, `1` and that `float64` comparison agrees with integer comparison there.
The fields `lt_not_ge` and `le_not_gt` record that, on `float64`, `a < b` excludes
`a >= b` and `a <= b` excludes `a > b` (which holds for NaN operands too, all four
comparisons being false).  The remaining fields record that `Before` orders instants
strictly, `After` being its converse, and the contract of `sort.Slice`. -/
structure GoLib where
  /-- Carrier of `float64`. -/
  F : Type
  /-- Rendering `fmt.Sprintf("%v", x)` of `x : float64`. -/
  fmtFloat : F → String
  /-- Result of `strconv.ParseFloat(s, 64)`: `some f` when `err == nil`. -/
  parseFloat : String → Option F
  /-- Conversion `float64(n)` of an `int`. -/
  ofInt : Int → F
  /-- Comparison `a > b` on `float64`. -/
  gt : F → F → Bool
  /-- Comparison `a >= b` on `float64`. -/
  ge : F → F → Bool
  /-- Comparison `a < b` on `float64`. -/
  lt : F → F → Bool
  /-- Comparison `a <= b` on `float64`. -/
  le : F → F → Bool
  /-- Whether `regexp.Compile(p)` returns `err == nil`. -/
  regexpCompiles : String → Bool
  /-- Result of `MatchString(s)` on the compiled pattern `p`. -/
  regexpMatchString : String → String → Bool
  /-- Conversion `int64(x)` of a `float64`. -/
  toInt64 : F → Int
  /-- Carrier of `time.Time`. -/
  Time : Type
  /-- Value `time.Unix(sec, 0)`. -/
  timeUnix : Int → Time
  /-- Result of `time.Parse(layout, value)`: `some t` when `err == nil`. -/
  timeParse : String → String → Option Time
  /-- Method `t.Before(u)`. -/
  timeBefore : Time → Time → Bool
  /-- Method `t.After(u)`. -/
  timeAfter : Time → Time → Bool
  /-- Function `sort.Slice` on a slice with elements in `α`, with `less` given on
  the elements it is applied to. -/
  sortSlice : (α : Type) → (α → α → Bool) → List α → List α
  /-- Exactness of `float64(c) > 0` for the results of `strings.Compare`. -/
  gt_ofInt : ∀ c : Int, -1 ≤ c → c ≤ 1 → gt (ofInt c) (ofInt 0) = decide (0 < c)
  /-- Exactness of `float64(c) >= 0` for the results of `strings.Compare`. -/
  ge_ofInt : ∀ c : Int, -1 ≤ c → c ≤ 1 → ge (ofInt c) (ofInt 0) = decide (0 ≤ c)
  /-- Exactness of `float64(c) < 0` for the results of `strings.Compare`. -/
  lt_ofInt : ∀ c : Int, -1 ≤ c → c ≤ 1 → lt (ofInt c) (ofInt 0) = decide (c < 0)
  /-- Exactness of `float64(c) <= 0` for the results of `strings.Compare`. -/
  le_ofInt : ∀ c : Int, -1 ≤ c → c ≤ 1 → le (ofInt c) (ofInt 0) = decide (c ≤ 0)
  /-- On `float64`, `a < b` excludes `a >= b`. -/
  lt_not_ge : ∀ a b : F, lt a b = true → ge a b = false
  /-- On `float64`, `a <= b` excludes `a > b`. -/
  le_not_gt : ∀ a b : F, le a b = true → gt a b = false
  /-- An instant is after another exactly when that one is before it. -/
  timeAfter_eq : ∀ t u : Time, timeAfter t u = timeBefore u t
  /-- No instant is before itself. -/
  timeBefore_irrefl : ∀ t : Time, timeBefore t t = false
  /-- The order of instants is transitive. -/
  timeBefore_trans : ∀ t u v : Time,
    timeBefore t u = true → timeBefore u v = true → timeBefore t v = true
  /-- An instant before another is before, or a third one is before, each other instant. -/
  timeBefore_between : ∀ t u v : Time,
    timeBefore t v = true → timeBefore t u = true ∨ timeBefore u v = true
  /-- The result of `sort.Slice` is a rearrangement of the slice. -/
  sortSlice_perm : ∀ (α : Type) (less : α → α → Bool) (l : List α),
    (sortSlice α less l).Perm l
  /-- The result of `sort.Slice` is sorted when `less` meets the requirement of
  package `sort` on the elements of the slice: no element sorts before an earlier one. -/
  sortSlice_sorted : ∀ (α : Type) (less : α → α → Bool) (l : List α),
    StrictWeakOn less l → (sortSlice α less l).Pairwise (fun a b => less b a = false)

/-! ## Text rendering and comparison -/

/-- Lexicographic three-way comparison of two character sequences by code point
(which orders strings exactly as the byte-wise comparison of their UTF-8
encodings does). -/
def compareChars : List Char → List Char → Int
  | [], [] => 0
  | [], _ :: _ => -1
  | _ :: _, [] => 1
  | a :: as, b :: bs =>
    if a.toNat < b.toNat then -1
    else if b.toNat < a.toNat then 1
    else compareChars as bs

/-- The function `strings.Compare`: `0` if `a == b`, `-1` if `a < b`, `+1` if `a > b`. -/
def stringsCompare (a b : String) : Int := compareChars a.data b.data

/-- Whether the first sequence is an initial segment of the second. -/
def startsWith : List Char → List Char → Bool
  | [], _ => true
  | _ :: _, [] => false
  | a :: as, b :: bs => a = b && startsWith as bs

/-- The number denoted by a sequence of decimal digits. -/
def digitsVal (cs : List Char) : Nat :=
  cs.foldl (fun n c => 10 * n + (c.toNat - 48)) 0

/-- The function `strings.HasPrefix`: whether `s` begins with `start`. -/
def stringsHasPrefix (s start : String) : Bool := startsWith start.data s.data

/-- Insertion of a rendered map entry into a list ordered by key. -/
def insertByKey (e : String × String) : List (String × String) → List (String × String)
  | [] => [e]
  | x :: xs => if stringsCompare e.1 x.1 < 0 then e :: x :: xs else x :: insertByKey e xs

/-- Rendered map entries in increasing key order (package `fmt` prints maps sorted by key). -/
def sortByKey : List (String × String) → List (String × String)
  | [] => []
  | e :: es => insertByKey e (sortByKey es)

mutual
/-- The text rendering `fmt.Sprintf("%v", v)`. -/
def sprint (L : GoLib) : Value L.F → String
  | .null => "<nil>"
  | .bool b => if b then "true" else "false"
  | .num x => L.fmtFloat x
  | .str s => s
  | .arr items => "[" ++ " ".intercalate (sprintItems L items) ++ "]"
  | .obj fields =>
    "map[" ++ " ".intercalate ((sortByKey (sprintFields L fields)).map
      (fun e => e.1 ++ ":" ++ e.2)) ++ "]"
/-- The renderings of the elements of a slice. -/
def sprintItems (L : GoLib) : List (Value L.F) → List String
  | [] => []
  | v :: vs => sprint L v :: sprintItems L vs
/-- The entries of a map with rendered values. -/
def sprintFields (L : GoLib) : List (String × Value L.F) → List (String × String)
  | [] => []
  | (k, v) :: rest => (k, sprint L v) :: sprintFields L rest
end

/-! ## The matcher -/

/-- The function `toFloat64`: the `float64` a value converts to, if any. -/
def toFloat64 (L : GoLib) : Value L.F → Option L.F
  | .num x => some x
  | .str s => L.parseFloat s
  | _ => none

/-- The function `compareValues`. -/
def compareValues (L : GoLib) (docValue queryValue : Value L.F)
    (compareFunc : L.F → L.F → Bool) : Bool :=
  match toFloat64 L docValue, toFloat64 L queryValue with
  | some docFloat, some queryFloat => compareFunc docFloat queryFloat
  | _, _ =>
    let docStr := sprint L docValue
    let queryStr := sprint L queryValue
    compareFunc (L.ofInt (stringsCompare docStr queryStr)) (L.ofInt 0)

/-- The loop of `inArray` over the elements of the operand. -/
def inArrayLoop (L : GoLib) (docValue : Value L.F) : List (Value L.F) → Bool
  | [] => false
  | item :: rest =>
    if sprint L docValue = sprint L item then true else inArrayLoop L docValue rest

/-- The function `inArray`. -/
def inArray (L : GoLib) (docValue queryValue : Value L.F) : Bool :=
  match queryValue with
  | .arr queryArray => inArrayLoop L docValue queryArray
  | _ => false

/-- The function `matchesRegex`. -/
def matchesRegex (L : GoLib) (docValue queryValue : Value L.F) : Bool :=
  let docStr := sprint L docValue
  match queryValue with
  | .str regexStr =>
    if L.regexpCompiles regexStr then L.regexpMatchString regexStr docStr else false
  | _ => false

/-- One iteration of the operator loop of `matchesOperators`, for a field that is
present (`exists` is `true`) with value `docValue`: `false` when the body executes
`return false`, `true` when it falls through to the next operator. -/
def operatorHolds (L : GoLib) (docValue : Value L.F) (operator : String)
    (value : Value L.F) : Bool :=
  if operator = "$eq" then
    if sprint L docValue = sprint L value then false else true
  else if operator = "$ne" then
    if sprint L docValue ≠ sprint L value then false else true
  else if operator = "$gt" then
    if !compareValues L docValue value L.gt then false else true
  else if operator = "$gte" then
    if !compareValues L docValue value L.ge then false else true
  else if operator = "$lt" then
    if !compareValues L docValue value L.lt then false else true
  else if operator = "$lte" then
    if !compareValues L docValue value L.le then false else true
  else if operator = "$in" then
    if !inArray L docValue value then false else true
  else if operator = "$nin" then
    if inArray L docValue value then false else true
  else if operator = "$exists" then
    match value with
    | .bool existsBool => if existsBool ≠ true then false else true
    | _ => true
  else if operator = "$regex" then
    if !matchesRegex L docValue value then false else true
  else true

/-- The operator loop of `matchesOperators`: the first failing operator returns
`false`, and the loop running to its end returns `true`. -/
def operatorsLoop (L : GoLib) (docValue : Value L.F) : GoMap L.F → Bool
  | [] => true
  | (operator, value) :: rest =>
    if operatorHolds L docValue operator value then operatorsLoop L docValue rest
    else false

/-- The function `matchesOperators`. -/
def matchesOperators (L : GoLib) (doc : Document L.F) (field : String)
    (operators : GoMap L.F) : Bool :=
  match mapGet doc field with
  | none =>
    match mapGet operators "$exists" with
    | some (.bool existsBool) => if !existsBool then true else false
    | _ => false
  | some docValue => operatorsLoop L docValue operators

/-- One iteration of the loop of `matchesQuery`: `false` when the body executes
`return false`. -/
def fieldHolds (L : GoLib) (doc : Document L.F) (field : String)
    (condition : Value L.F) : Bool :=
  match condition with
  | .obj cond => matchesOperators L doc field cond
  | _ =>
    match mapGet doc field with
    | none => false
    | some docValue => if sprint L docValue ≠ sprint L condition then false else true

/-- The function `matchesQuery`. -/
def matchesQuery (L : GoLib) (doc : Document L.F) : GoMap L.F → Bool
  | [] => true
  | (field, condition) :: rest =>
    if fieldHolds L doc field condition then matchesQuery L doc rest else false

/-- The filter loop of `find`: the documents of the snapshot that match the query,
in snapshot order. -/
def filterDocs (L : GoLib) (data : List (Document L.F)) (query : GoMap L.F) :
    List (Document L.F) :=
  data.filter (fun doc => matchesQuery L doc query)

/-! ## Query validation -/

/-- Map indexing in its single-value form `m[k]`: the zero value `nil` for a missing key. -/
def mapIndex {F : Type} (m : GoMap F) (key : String) : Value F :=
  match mapGet m key with
  | some v => v
  | none => .null

/-- Whether an interface value is `nil`. -/
def Value.isNil {F : Type} : Value F → Bool
  | .null => true
  | _ => false

/-- Whether a value has dynamic type `[]interface{}`. -/
def Value.isArr {F : Type} : Value F → Bool
  | .arr _ => true
  | _ => false

/-- Whether a value has dynamic type `bool`. -/
def Value.isBool {F : Type} : Value F → Bool
  | .bool _ => true
  | _ => false

/-- Whether a value has dynamic type `string`. -/
def Value.isStr {F : Type} : Value F → Bool
  | .str _ => true
  | _ => false

/-- The keys of the table `allowedOperators` of `validateOperators`. -/
def allowedOperators : List String :=
  ["$eq", "$ne", "$gt", "$gte", "$lt", "$lte", "$in", "$nin", "$exists", "$regex"]

/-- The function `validateOperatorValue`: `false` when it reports an error. -/
def validateOperatorValue (L : GoLib) (operator : String) (value : Value L.F) : Bool :=
  if operator = "$in" ∨ operator = "$nin" then
    match value with
    | .arr _ => true
    | _ => false
  else if operator = "$exists" then
    match value with
    | .bool _ => true
    | _ => false
  else if operator = "$regex" then
    match value with
    | .str regexStr => if L.regexpCompiles regexStr then true else false
    | _ => false
  else if operator = "$gt" ∨ operator = "$gte" ∨ operator = "$lt" ∨ operator = "$lte" then
    match value with
    | .obj _ => false
    | .arr _ => false
    | _ => true
  else true

/-- The loop `for op := range condMap` of `validateOperators`; `condMap` is the whole
operator-object (indexed by `condMap[op]`) and the list is what remains to be visited. -/
def validateOps (L : GoLib) (condMap : GoMap L.F) : GoMap L.F → Bool
  | [] => true
  | (op, _) :: rest =>
    if stringsHasPrefix op "$" then
      if !allowedOperators.contains op then false
      else if !validateOperatorValue L op (mapIndex condMap op) then false
      else validateOps L condMap rest
    else validateOps L condMap rest

/-- The check of `$gt` against `$lt` in `validateOperators`: `true` when it reports
a conflict. -/
def conflictGtLt (L : GoLib) (condMap : GoMap L.F) : Bool :=
  if !(mapIndex condMap "$gt").isNil && !(mapIndex condMap "$lt").isNil then
    match toFloat64 L (mapIndex condMap "$gt"), toFloat64 L (mapIndex condMap "$lt") with
    | some gtVal, some ltVal => L.ge gtVal ltVal
    | _, _ => false
  else false

/-- The check of `$gte` against `$lte` in `validateOperators`: `true` when it reports
a conflict. -/
def conflictGteLte (L : GoLib) (condMap : GoMap L.F) : Bool :=
  if !(mapIndex condMap "$gte").isNil && !(mapIndex condMap "$lte").isNil then
    match toFloat64 L (mapIndex condMap "$gte"), toFloat64 L (mapIndex condMap "$lte") with
    | some gteVal, some lteVal => L.gt gteVal lteVal
    | _, _ => false
  else false

/-- The body of the loop of `validateOperators` for a condition that is an
operator-object: `false` when the body executes `return false`. -/
def validateCondMap (L : GoLib) (condMap : GoMap L.F) : Bool :=
  if !validateOps L condMap condMap then false
  else if conflictGtLt L condMap then false
  else if conflictGteLte L condMap then false
  else true

/-- The function `validateOperators`: `true` when the query is accepted, `false`
when an error (always with status `400`) has been written to the response. -/
def validateOperators (L : GoLib) : GoMap L.F → Bool
  | [] => true
  | (_, condition) :: rest =>
    match condition with
    | .obj condMap =>
      if validateCondMap L condMap then validateOperators L rest else false
    | _ => validateOperators L rest

/-! ## Metadata and mutations

A handler is modelled from the point where its request has been decoded and the
collection file has been read, both without error, up to its response; writing the
file is assumed to succeed.  `stored` is the content of the collection file after the
request.  The clock and the identifier generator are read through `clock` and `gen`,
the results of the successive calls made while the request is handled.

A document of a request body is a JSON object.  (The body `null` decodes to a nil map;
the first assignment to it panics and the request ends without a write.)  A collection
file that decodes to a nil slice is treated as the empty sequence: the update handlers
answer `404` in both cases and the insert handlers replace nil by the empty slice. -/

/-- Map assignment `m[k] = v`. -/
def mapSet {F : Type} : GoMap F → String → Value F → GoMap F
  | [], key, v => [(key, v)]
  | (k, x) :: rest, key, v =>
    if k = key then (k, v) :: rest else (k, x) :: mapSet rest key v

/-- The loop `for k, v := range src` with body `dst[k] = v`. -/
def mapCopyInto {F : Type} (dst : GoMap F) : GoMap F → GoMap F
  | [] => dst
  | (k, v) :: rest => mapCopyInto (mapSet dst k v) rest

/-- The function `models.AddMetadata`; `newId` is the result of `uuid.New().String()`
(read only when the document has no `id`) and `now` that of `GetCurrentTimestamp()`. -/
def AddMetadata {F : Type} (newId now : String) (doc : Document F) : Document F :=
  let doc1 :=
    match mapGet doc "id" with
    | none => mapSet doc "id" (.str newId)
    | some _ => doc
  let doc2 :=
    match mapGet doc1 "created_at" with
    | none => mapSet doc1 "created_at" (.str now)
    | some _ => doc1
  mapSet doc2 "updated_at" (.str now)

/-- The constant `http.StatusBadRequest`. -/
def StatusBadRequest : Nat := 400

/-- The constant `http.StatusNotFound`. -/
def StatusNotFound : Nat := 404

/-- What a handler writes to the response: an error with its status, or the payload of
a success (one document, or a count with a list of documents). -/
inductive Response (F : Type) : Type where
  | error (status : Nat) : Response F
  | document (data : Document F) : Response F
  | documents (count : Nat) (docs : List (Document F)) : Response F

/-- The response of a handler with the content of the collection file after it. -/
structure Outcome (F : Type) : Type where
  /-- What was written to the response. -/
  response : Response F
  /-- Content of the collection file after the request. -/
  stored : List (Document F)

/-- The function `insertOneDocument`, from the decoded body on. -/
def insertOneDocument {F : Type} (gen clock : Nat → String) (newData : Document F)
    (data : List (Document F)) : Outcome F :=
  let newData := AddMetadata (gen 0) (clock 0) newData
  { response := .document newData, stored := data ++ [newData] }

/-- The loop of `insertManyDocuments` that stamps the new documents in order; `i` and
`t` count the calls already made to the generator and to the clock. -/
def addMetadataAll {F : Type} (gen clock : Nat → String) :
    Nat → Nat → List (Document F) → List (Document F)
  | _, _, [] => []
  | i, t, doc :: rest =>
    AddMetadata (gen i) (clock t) doc ::
      addMetadataAll gen clock (if (mapGet doc "id").isSome then i else i + 1) (t + 1) rest

/-- The function `insertManyDocuments`, from the decoded body on. -/
def insertManyDocuments {F : Type} (gen clock : Nat → String)
    (newDocuments data : List (Document F)) : Outcome F :=
  let newDocuments := addMetadataAll gen clock 0 0 newDocuments
  { response := .documents newDocuments.length newDocuments,
    stored := data ++ newDocuments }

/-- The test `id, ok := doc["id"]; ok && id == documentID` of `updateOneDocument`:
the interface value equals the string exactly when it holds that string. -/
def idMatches {F : Type} (doc : Document F) (documentID : String) : Bool :=
  match mapGet doc "id" with
  | some (.str s) => s = documentID
  | _ => false

/-- The document that `updateOneDocument` stores in the slot of `doc`. -/
def replaceDocument {F : Type} (documentID now : String) (updateData doc : Document F) :
    Document F :=
  let updateData := mapSet updateData "id" (.str documentID)
  let updateData :=
    match mapGet doc "created_at" with
    | some createdAt => mapSet updateData "created_at" createdAt
    | none => updateData
  mapSet updateData "updated_at" (.str now)

/-- The search loop of `updateOneDocument`: the updated sequence and the stored
document when a document is found, `none` when `documentFound` stays false. -/
def updateOneLoop {F : Type} (documentID now : String) (updateData : Document F) :
    List (Document F) → Option (List (Document F) × Document F)
  | [] => none
  | doc :: rest =>
    if idMatches doc documentID then
      some (replaceDocument documentID now updateData doc :: rest,
        replaceDocument documentID now updateData doc)
    else
      match updateOneLoop documentID now updateData rest with
      | some r => some (doc :: r.1, r.2)
      | none => none

/-- The function `updateOneDocument`, from the `id` parameter and the decoded body on. -/
def updateOneDocument {F : Type} (clock : Nat → String) (documentID : String)
    (updateData : Document F) (data : List (Document F)) : Outcome F :=
  if documentID = "" then { response := .error StatusBadRequest, stored := data }
  else
    match updateOneLoop documentID (clock 0) updateData data with
    | none => { response := .error StatusNotFound, stored := data }
    | some r => { response := .document r.2, stored := r.1 }

/-- The document that `updateManyDocuments` stores in the slot of a matching `doc`. -/
def mergeDocument {F : Type} (now : String) (doc update : Document F) : Document F :=
  let updatedDoc := mapCopyInto [] doc
  let updatedDoc := mapCopyInto updatedDoc update
  let updatedDoc := mapSet updatedDoc "id" (mapIndex doc "id")
  let updatedDoc :=
    match mapGet doc "created_at" with
    | some createdAt => mapSet updatedDoc "created_at" createdAt
    | none => updatedDoc
  mapSet updatedDoc "updated_at" (.str now)

/-- The state of the loop of `updateManyDocuments`. -/
structure UpdateMany (F : Type) : Type where
  /-- The sequence `data` with the matching slots replaced. -/
  data : List (Document F)
  /-- The counter `updatedCount`. -/
  updatedCount : Nat
  /-- The list `updatedDocs`. -/
  updatedDocs : List (Document F)

/-- The loop of `updateManyDocuments`; `t` counts the calls already made to the clock. -/
def updateManyLoop (L : GoLib) (clock : Nat → String) (query : GoMap L.F)
    (update : Document L.F) : Nat → List (Document L.F) → UpdateMany L.F
  | _, [] => { data := [], updatedCount := 0, updatedDocs := [] }
  | t, doc :: rest =>
    if matchesQuery L doc query then
      let updatedDoc := mergeDocument (clock t) doc update
      let r := updateManyLoop L clock query update (t + 1) rest
      { data := updatedDoc :: r.data, updatedCount := r.updatedCount + 1,
        updatedDocs := updatedDoc :: r.updatedDocs }
    else
      let r := updateManyLoop L clock query update t rest
      { data := doc :: r.data, updatedCount := r.updatedCount,
        updatedDocs := r.updatedDocs }

/-- The function `updateManyDocuments`, from the decoded body on; `query` is `none`
when the body has no `query` (the field `requestBody.Query` is `nil`). -/
def updateManyDocuments (L : GoLib) (clock : Nat → String) (query : Option (GoMap L.F))
    (update : Document L.F) (data : List (Document L.F)) : Outcome L.F :=
  match query with
  | none => { response := .error StatusBadRequest, stored := data }
  | some q =>
    let r := updateManyLoop L clock q update 0 data
    if r.updatedCount = 0 then { response := .error StatusNotFound, stored := data }
    else { response := .documents r.updatedCount r.updatedDocs, stored := r.data }

/-- The identifiers of the documents of a snapshot, in order. -/
def idsOf {F : Type} (data : List (Document F)) : List (Option (Value F)) :=
  data.map (fun doc => mapGet doc "id")

/-- The keys of a map, in list order. -/
def keysOf {F : Type} (m : GoMap F) : List String := m.map Prod.fst

/-- The identifiers that the documents of a request body carry themselves. -/
def suppliedIds {F : Type} (docs : List (Document F)) : List (Value F) :=
  docs.filterMap (fun doc => mapGet doc "id")

/-- The invariant of identifier uniqueness: every document of the snapshot has an
`id` and no two documents have the same one. -/
def DistinctIds {F : Type} (data : List (Document F)) : Prop :=
  none ∉ idsOf data ∧ (idsOf data).Nodup

/-! ## Sorting and pagination

`sort.Slice` is the field `sortSlice` of the library, known through its contract.
Go's `int` is taken to be 64 bits wide.  A handler that panics (a slice expression
out of range) has no response: `none`. -/

/-- The pattern `isoPattern` of `isTimeValue`. -/
def isoPattern : String :=
  "^\\d\x7b4\x7d-\\d\x7b2\x7d-\\d\x7b2\x7dT\\d\x7b2\x7d:\\d\x7b2\x7d:\\d\x7b2\x7d(?:\\.\\d+)?(?:Z|[+-]\\d\x7b2\x7d:?\\d\x7b2\x7d)?$"

/-- The list `datePatterns` of `isTimeValue`. -/
def datePatterns : List String :=
  ["^\\d\x7b4\x7d-\\d\x7b2\x7d-\\d\x7b2\x7d$",
   "^\\d\x7b2\x7d/\\d\x7b2\x7d/\\d\x7b4\x7d$",
   "^\\d\x7b2\x7d\\.\\d\x7b2\x7d\\.\\d\x7b4\x7d$",
   "^\\d\x7b4\x7d-\\d\x7b2\x7d-\\d\x7b2\x7d \\d\x7b2\x7d:\\d\x7b2\x7d:\\d\x7b2\x7d$"]

/-- The layout `time.RFC3339`. -/
def layoutRFC3339 : String := "2006-01-02T15:04:05Z07:00"

/-- The layouts that `parseTime` tries, in order. -/
def timeLayouts : List String :=
  [layoutRFC3339, "2006-01-02T15:04:05Z", "2006-01-02", "02/01/2006", "01/02/2006",
   "02.01.2006", "2006-01-02 15:04:05"]

/-- The function `strings.HasSuffix`: whether `s` ends with `ending`. -/
def stringsHasSuffix (s ending : String) : Bool :=
  startsWith ending.data.reverse s.data.reverse

/-- The function `isTimeField`. -/
def isTimeField (field : String) : Bool :=
  ["created_at", "updated_at", "timestamp", "date", "time"].any
    (fun tf => field = tf || stringsHasSuffix field ("_" ++ tf))

/-- The function `isTimeValue`. -/
def isTimeValue (L : GoLib) : Value L.F → Bool
  | .num _ => true
  | .str strVal =>
    if L.regexpMatchString isoPattern strVal then true
    else datePatterns.any (fun pattern => L.regexpMatchString pattern strVal)
  | _ => false

/-- The largest value of an `int`. -/
def maxInt : Int := 2 ^ 63 - 1

/-- The smallest value of an `int`. -/
def minInt : Int := -(2 ^ 63)

/-- The result of an `int` operation whose exact value is `n`: `n` reduced into the
range of `int` (two's complement). -/
def wrapInt (n : Int) : Int := (n + 2 ^ 63) % 2 ^ 64 - 2 ^ 63

/-- A decimal numeral with an optional sign, as `strconv` reads it in base 10. -/
def parseDecimalInt (s : String) : Option Int :=
  let digits :=
    match s.data with
    | '-' :: rest => rest
    | '+' :: rest => rest
    | cs => cs
  if digits.isEmpty || !digits.all Char.isDigit then none
  else
    match s.data with
    | '-' :: _ => some (-(digitsVal digits : Int))
    | _ => some (digitsVal digits : Int)

/-- The function `strconv.ParseInt(s, 10, 64)`: the value returned and whether
`err == nil`; a syntax error returns `0`, a range error the nearest bound. -/
def parseInt (s : String) : Int × Bool :=
  match parseDecimalInt s with
  | none => (0, false)
  | some n =>
    if n > maxInt then (maxInt, false)
    else if n < minInt then (minInt, false)
    else (n, true)

/-- The function `strconv.Atoi`: `ParseInt(s, 10, 0)` converted to `int`. -/
def atoi (s : String) : Int × Bool := parseInt s

/-- The loop of `parseTime` over the layouts. -/
def parseTimeLayouts (L : GoLib) (strVal : String) : List String → Option L.Time
  | [] => none
  | format :: rest =>
    match L.timeParse format strVal with
    | some t => some t
    | none => parseTimeLayouts L strVal rest

/-- The function `parseTime`: `some t` when it returns `(t, true)`. -/
def parseTime (L : GoLib) : Value L.F → Option L.Time
  | .num ts => some (L.timeUnix (L.toInt64 ts))
  | .str strVal =>
    match parseTimeLayouts L strVal timeLayouts with
    | some t => some t
    | none =>
      match parseInt strVal with
      | (i, true) => some (L.timeUnix i)
      | _ => none
  | _ => none

/-- The comparison of two values by their time instants in the `less` function of
`sortResults`: `some r` when the function returns `r` there, `none` when it goes on. -/
def lessByTime (L : GoLib) (field order : String) (vi vj : Value L.F) : Option Bool :=
  if isTimeField field || isTimeValue L vi || isTimeValue L vj then
    match parseTime L vi, parseTime L vj with
    | some ti, some tj =>
      if order = "desc" then some (L.timeAfter ti tj) else some (L.timeBefore ti tj)
    | _, _ => none
  else none

/-- The final comparison of the `less` function of `sortResults`, on the renderings. -/
def lessByText (L : GoLib) (order : String) (vi vj : Value L.F) : Bool :=
  let si := sprint L vi
  let sj := sprint L vj
  if order = "desc" then decide (0 < stringsCompare si sj)
  else decide (stringsCompare si sj < 0)

/-- The type switch of the `less` function of `sortResults` followed by the final
comparison that it falls to when the two values are not of the same handled type. -/
def lessByType (L : GoLib) (order : String) (vi vj : Value L.F) : Bool :=
  match vi, vj with
  | .str si, .str sj =>
    if order = "desc" then decide (0 < stringsCompare si sj)
    else decide (stringsCompare si sj < 0)
  | .num fi, .num fj =>
    if order = "desc" then L.gt fi fj else L.lt fi fj
  | .bool bi, .bool bj =>
    if order = "desc" then !bi && bj else bi && !bj
  | _, _ => lessByText L order vi vj

/-- The `less` function that `sortResults` passes to `sort.Slice`, on the documents at
the two indices. -/
def sortLess (L : GoLib) (field order : String) (di dj : Document L.F) : Bool :=
  match mapGet di field with
  | none => false
  | some vi =>
    match mapGet dj field with
    | none => true
    | some vj =>
      match lessByTime L field order vi vj with
      | some r => r
      | none => lessByType L order vi vj

/-- The function `sortResults`. -/
def sortResults (L : GoLib) (docs : List (Document L.F)) (field order : String) :
    List (Document L.F) :=
  L.sortSlice (Document L.F) (sortLess L field order) docs

/-- The slice expression `s[low:high]` on a slice whose capacity is its length:
`none` when it panics. -/
def sliceRange {α : Type} (s : List α) (low high : Int) : Option (List α) :=
  if 0 ≤ low ∧ low ≤ high ∧ high ≤ (s.length : Int) then
    some ((s.drop low.toNat).take (high - low).toNat)
  else none

/-- The variable `skipCount` of the pagination step. -/
def skipCountOf (skip : String) (len : Int) : Int :=
  if skip ≠ "" then
    if (atoi skip).1 > len then len else (atoi skip).1
  else 0

/-- The variable `limitCount` of the pagination step. -/
def limitCountOf (limit : String) (len : Int) : Int :=
  if limit ≠ "" then
    if (atoi limit).2 = true ∧ (atoi limit).1 > 0 then (atoi limit).1 else len
  else len

/-- The variable `end` of the pagination step. -/
def endOf (skipCount limitCount len : Int) : Int :=
  if wrapInt (skipCount + limitCount) > len then len
  else wrapInt (skipCount + limitCount)

/-- The pagination step of `find` and of `findManyDocuments` (the two are the same
text): the page, or `none` when the slice expression panics. -/
def paginate {α : Type} (skip limit : String) (results : List α) : Option (List α) :=
  let len : Int := results.length
  let skipCount := skipCountOf skip len
  let limitCount := limitCountOf limit len
  let last := endOf skipCount limitCount len
  if skipCount < len then sliceRange results skipCount last else some []

/-- The function `find`, from the query (decoded from the body, or built from the URL
parameters) and the control parameters (empty when absent) on. -/
def find (L : GoLib) (query : GoMap L.F) (sortField sortOrder limit skip : String)
    (data : List (Document L.F)) : Option (Response L.F) :=
  if !validateOperators L query then some (.error StatusBadRequest)
  else
    let results := filterDocs L data query
    let results :=
      if sortField ≠ "" then sortResults L results sortField sortOrder else results
    match paginate skip limit results with
    | some page => some (.documents page.length page)
    | none => none

/-- The inner loop of the filter of `findManyDocuments` over the URL parameters left
after the control parameters have been deleted. -/
def matchesParams (L : GoLib) (doc : Document L.F) : List (String × List String) → Bool
  | [] => true
  | (key, values) :: rest =>
    match mapGet doc key with
    | some docValue =>
      match values with
      | first :: _ =>
        if sprint L docValue ≠ first then false else matchesParams L doc rest
      | [] => matchesParams L doc rest
    | none => false

/-- The function `findManyDocuments`, from the URL parameters on. -/
def findManyDocuments (L : GoLib) (query : List (String × List String))
    (sortField sortOrder limit skip : String) (data : List (Document L.F)) :
    Option (Response L.F) :=
  let results := data.filter (fun doc => matchesParams L doc query)
  let results :=
    if sortField ≠ "" then sortResults L results sortField sortOrder else results
  match paginate skip limit results with
  | some page => some (.documents page.length page)
  | none => none

/-- The instant that the text stored under `key` denotes as an RFC3339 timestamp. -/
def instantAt (L : GoLib) (doc : Document L.F) (key : String) : Option L.Time :=
  match mapGet doc key with
  | some (.str s) => L.timeParse layoutRFC3339 s
  | _ => none

/-- The invariant `created_at <= updated_at`: both fields denote instants and the
second is not before the first. -/
def CreatedNotAfterUpdated (L : GoLib) (doc : Document L.F) : Prop :=
  ∃ tc tu, instantAt L doc "created_at" = some tc ∧
    instantAt L doc "updated_at" = some tu ∧ L.timeBefore tu tc = false

/-- The page as the specification words it: drop the first `min(s, |R|)` documents of
`R`, then keep the first `l` of the rest, or all of the rest when there is no limit. -/
def specPage {α : Type} (s : Nat) (limit : Option Nat) (R : List α) : List α :=
  match limit with
  | some l => (R.drop (min s R.length)).take l
  | none => R.drop (min s R.length)

/-- The limit as the specification words it: the value of the parameter when it parses
as a positive integer, and no limit otherwise (absent, unparsable, zero or negative). -/
def specLimit (limit : String) : Option Nat :=
  if (atoi limit).2 = true ∧ 0 < (atoi limit).1 then some (atoi limit).1.toNat else none

/-! ## A concrete instance of the library interface

`fragLib` implements `GoLib` on finite decimals.  A `Dec` with mantissa `m` and
scale `s` stands for the `float64` nearest to `m / 10^s`.  On values with at most
15 significant digits and magnitude in `[10^-4, 10^6)` (or zero) this agrees with
Go: distinct such decimals are distinct `float64` values in the same order, and
`%v` prints such a value in positional notation with the shortest digit string.
`parseDec` accepts an optional sign followed by decimal digits with an optional
point; exponents, hexadecimal numerals, infinities and NaN are outside the fragment.

Regular expressions are plain alphanumeric words, which match where they occur, and
the five patterns of `isTimeValue`, recognised by hand.  `int64(f)` truncates towards
zero.  An instant is its number of seconds from 1970-01-01T00:00:00Z, and
`time.Parse` accepts only texts of the form `YYYY-MM-DDTHH:MM:SSZ` (what
`GetCurrentTimestamp` produces) under the two layouts with a literal `T`; texts that
Go would accept under another layout, with a zone offset or with a fraction of a
second are outside the fragment.  `sort.Slice` is the insertion sort that package
`sort` runs on slices of at most 12 elements (Go 1.19 and later; earlier versions
run it alone on slices of at most 6 elements).  The instance is used only to evaluate
the code on concrete inputs inside this fragment. -/

/-- A finite decimal `m / 10^s`. -/
structure Dec where
  /-- Mantissa. -/
  m : Int
  /-- Number of digits after the decimal point. -/
  s : Nat

/-- Comparison `a < b` of two decimals. -/
def Dec.lt (a b : Dec) : Bool := decide (a.m * 10 ^ b.s < b.m * 10 ^ a.s)

/-- Comparison `a <= b` of two decimals. -/
def Dec.le (a b : Dec) : Bool := decide (a.m * 10 ^ b.s ≤ b.m * 10 ^ a.s)

/-- Removal of trailing zeros after the decimal point. -/
def Dec.normalize : Int → Nat → Int × Nat
  | m, 0 => (m, 0)
  | m, s + 1 => if m % 10 = 0 then Dec.normalize (m / 10) s else (m, s + 1)

/-- Positional rendering of a decimal: sign, integer digits and, when the value is
not an integer, a point followed by the fractional digits. -/
def Dec.render (d : Dec) : String :=
  let n := Dec.normalize d.m d.s
  let a := n.1.natAbs
  let sign := if n.1 < 0 then "-" else ""
  if n.2 = 0 then sign ++ Nat.repr a
  else
    let frac := (Nat.repr (a % 10 ^ n.2)).data
    sign ++ Nat.repr (a / 10 ^ n.2) ++ "." ++
      String.mk (List.replicate (n.2 - frac.length) '0' ++ frac)

/-- An unsigned decimal numeral: digits with at most one point and at least one digit. -/
def parseUnsigned (cs : List Char) : Option Dec :=
  let ip := cs.takeWhile (fun c => c ≠ '.')
  match cs.dropWhile (fun c => c ≠ '.') with
  | [] => if ip.all Char.isDigit && !ip.isEmpty then some ⟨digitsVal ip, 0⟩ else none
  | _ :: fp =>
    if ip.all Char.isDigit && fp.all Char.isDigit && !(ip.isEmpty && fp.isEmpty) then
      some ⟨digitsVal (ip ++ fp), fp.length⟩
    else none

/-- A decimal numeral with an optional sign. -/
def parseDec (s : String) : Option Dec :=
  match s.data with
  | '-' :: cs => (parseUnsigned cs).map (fun d => ⟨-d.m, d.s⟩)
  | '+' :: cs => parseUnsigned cs
  | cs => parseUnsigned cs

/-- Whether the first sequence occurs contiguously in the second. -/
def occursIn (p : List Char) : List Char → Bool
  | [] => p.isEmpty
  | c :: cs => startsWith p (c :: cs) || occursIn p cs

/-- Whether a text has a fixed shape: `none` stands for one decimal digit and
`some c` for the character `c`. -/
def matchesShape : List (Option Char) → List Char → Bool
  | [], [] => true
  | none :: shape, c :: cs => c.isDigit && matchesShape shape cs
  | some x :: shape, c :: cs => c = x && matchesShape shape cs
  | _, _ => false

/-- The shape `dddd-dd-dd`. -/
def shapeDate : List (Option Char) :=
  [none, none, none, none, some '-', none, none, some '-', none, none]

/-- The shape `dd:dd:dd`. -/
def shapeClock : List (Option Char) :=
  [none, none, some ':', none, none, some ':', none, none]

/-- What `isoPattern` allows after the seconds: an optional fraction (a point and at
least one digit), then an optional zone (`Z`, or a sign, two digits, an optional
colon and two digits), then the end of the text. -/
def matchesIsoTail (cs : List Char) : Bool :=
  let afterFraction :=
    match cs with
    | '.' :: d :: rest => if d.isDigit then rest.dropWhile Char.isDigit else cs
    | _ => cs
  match afterFraction with
  | [] => true
  | ['Z'] => true
  | sign :: rest =>
    (sign = '+' || sign = '-') &&
      (matchesShape [none, none, some ':', none, none] rest ||
        matchesShape [none, none, none, none] rest)

/-- The regular expressions of `isTimeValue`, by hand; any other pattern is taken as a
plain word and matches where it occurs. -/
def fragMatchString (pattern s : String) : Bool :=
  if pattern = isoPattern then
    matchesShape (shapeDate ++ [some 'T'] ++ shapeClock) (s.data.take 19) &&
      matchesIsoTail (s.data.drop 19)
  else if pattern = "^\\d\x7b4\x7d-\\d\x7b2\x7d-\\d\x7b2\x7d$" then
    matchesShape shapeDate s.data
  else if pattern = "^\\d\x7b2\x7d/\\d\x7b2\x7d/\\d\x7b4\x7d$" then
    matchesShape [none, none, some '/', none, none, some '/', none, none, none, none] s.data
  else if pattern = "^\\d\x7b2\x7d\\.\\d\x7b2\x7d\\.\\d\x7b4\x7d$" then
    matchesShape [none, none, some '.', none, none, some '.', none, none, none, none] s.data
  else if pattern =
      "^\\d\x7b4\x7d-\\d\x7b2\x7d-\\d\x7b2\x7d \\d\x7b2\x7d:\\d\x7b2\x7d:\\d\x7b2\x7d$" then
    matchesShape (shapeDate ++ [some ' '] ++ shapeClock) s.data
  else occursIn pattern.data s.data

/-- The number written by two decimal digits. -/
def twoDigits (a b : Char) : Nat := (a.toNat - 48) * 10 + (b.toNat - 48)

/-- The number of days of a month of the Gregorian calendar. -/
def daysInMonth (year month : Nat) : Nat :=
  if month = 2 then
    if year % 4 = 0 ∧ (year % 100 ≠ 0 ∨ year % 400 = 0) then 29 else 28
  else if month = 4 ∨ month = 6 ∨ month = 9 ∨ month = 11 then 30
  else 31

/-- The number of days from 1970-01-01 to a date of the Gregorian calendar. -/
def daysFromEpoch (year month day : Nat) : Int :=
  let y := year + 400 - (if month ≤ 2 then 1 else 0)
  let mp := (month + 9) % 12
  let doy := (153 * mp + 2) / 5 + day - 1
  ((365 * y + y / 4 - y / 100 + y / 400 + doy : Nat) : Int) - 865565

/-- The instant, in seconds from 1970-01-01T00:00:00Z, written by a text of the shape
`dddd-dd-ddTdd:dd:ddZ` with fields in range. -/
def parseStampUTC (cs : List Char) : Option Int :=
  match cs with
  | [y1, y2, y3, y4, _, m1, m2, _, d1, d2, _, h1, h2, _, n1, n2, _, s1, s2, _] =>
    let year := twoDigits y1 y2 * 100 + twoDigits y3 y4
    let month := twoDigits m1 m2
    let day := twoDigits d1 d2
    let hour := twoDigits h1 h2
    let minute := twoDigits n1 n2
    let second := twoDigits s1 s2
    if matchesShape (shapeDate ++ [some 'T'] ++ shapeClock ++ [some 'Z']) cs ∧
        1 ≤ month ∧ month ≤ 12 ∧ 1 ≤ day ∧ day ≤ daysInMonth year month ∧
        hour < 24 ∧ minute < 60 ∧ second < 60 then
      some (daysFromEpoch year month day * 86400 +
        ((hour * 3600 + minute * 60 + second : Nat) : Int))
    else none
  | _ => none

/-- The function `time.Parse` on the fragment: the two layouts with a literal `T` and
a final `Z` or zone accept a UTC stamp; nothing else is accepted. -/
def fragTimeParse (layout value : String) : Option Int :=
  if layout = layoutRFC3339 ∨ layout = "2006-01-02T15:04:05Z" then parseStampUTC value.data
  else none

/-- One pass of the inner loop of the insertion sort of package `sort`: `x` moves
towards the front while it sorts before its neighbour; the sorted run is given last
element first. -/
def insertBack {α : Type} (less : α → α → Bool) (x : α) : List α → List α
  | [] => [x]
  | y :: ys => if less x y then y :: insertBack less x ys else x :: y :: ys

/-- The outer loop of the insertion sort of package `sort`; `done` is the sorted run,
last element first. -/
def insertionLoop {α : Type} (less : α → α → Bool) : List α → List α → List α
  | done, [] => done.reverse
  | done, x :: rest => insertionLoop less (insertBack less x done) rest

/-- The insertion sort that `sort.Slice` runs on a slice of at most 12 elements. -/
def insertionSort (α : Type) (less : α → α → Bool) (l : List α) : List α :=
  insertionLoop less [] l

/-- The library on the decimal fragment. -/
def fragLib : GoLib where
  F := Dec
  fmtFloat := Dec.render
  parseFloat := parseDec
  ofInt := fun n => ⟨n, 0⟩
  gt := fun a b => Dec.lt b a
  ge := fun a b => Dec.le b a
  lt := Dec.lt
  le := Dec.le
  regexpCompiles := fun p =>
    p.data.all Char.isAlphanum || p = isoPattern || datePatterns.contains p
  regexpMatchString := fragMatchString
  toInt64 := fun d => Int.tdiv d.m (10 ^ d.s)
  Time := Int
  timeUnix := fun sec => sec
  timeParse := fragTimeParse
  timeBefore := fun t u => decide (t < u)
  timeAfter := fun t u => decide (u < t)
  sortSlice := insertionSort
  gt_ofInt := by intro c _ _; simp [Dec.lt]
  ge_ofInt := by intro c _ _; simp [Dec.le]
  lt_ofInt := by intro c _ _; simp [Dec.lt]
  le_ofInt := by intro c _ _; simp [Dec.le]
  lt_not_ge := by
    intro a b h
    simp only [Dec.lt, Dec.le, decide_eq_true_eq, decide_eq_false_iff_not, not_le] at h ⊢
    exact h
  le_not_gt := by
    intro a b h
    simp only [Dec.lt, Dec.le, decide_eq_true_eq, decide_eq_false_iff_not, not_lt] at h ⊢
    exact h
  timeAfter_eq := by intro t u; rfl
  timeBefore_irrefl := by intro t; simp
  timeBefore_trans := by
    intro t u v h1 h2
    simp only [decide_eq_true_eq] at h1 h2 ⊢
    omega
  timeBefore_between := by
    intro t u v h
    simp only [decide_eq_true_eq] at h ⊢
    omega
  sortSlice_perm := by
    intro α less l
    have hins : ∀ (x : α) (r : List α), (insertBack less x r).Perm (x :: r) := by
      intro x r
      induction r with
      | nil => exact List.Perm.refl _
      | cons y ys ih =>
        cases h : less x y
        · simp [insertBack, h]
        · simp only [insertBack, h, if_true]
          exact (List.Perm.cons y ih).trans (List.Perm.swap x y ys)
    have hloop : ∀ (rest done : List α),
        (insertionLoop less done rest).Perm (done ++ rest) := by
      intro rest
      induction rest with
      | nil =>
        intro done
        simp [insertionLoop]
      | cons x rest ih =>
        intro done
        refine (ih (insertBack less x done)).trans ?_
        refine ((hins x done).append_right rest).trans ?_
        have hmid : (done ++ x :: rest).Perm (x :: (done ++ rest)) := List.perm_middle
        simpa using hmid.symm
    simpa [insertionSort] using hloop l []
  sortSlice_sorted := by
    intro α less l hsw
    obtain ⟨hirr, htr, hbt⟩ := hsw
    have hmem : ∀ (x : α) (r : List α) (a : α),
        a ∈ insertBack less x r ↔ a = x ∨ a ∈ r := by
      intro x r
      induction r with
      | nil => intro a; simp [insertBack]
      | cons y ys ih =>
        intro a
        cases h : less x y
        · simp [insertBack, h]
        · simp only [insertBack, h, if_true, List.mem_cons, ih]
          constructor
          · rintro (h1 | h1 | h1)
            · exact Or.inr (Or.inl h1)
            · exact Or.inl h1
            · exact Or.inr (Or.inr h1)
          · rintro (h1 | h1 | h1)
            · exact Or.inr (Or.inl h1)
            · exact Or.inl h1
            · exact Or.inr (Or.inr h1)
    have hins : ∀ (x : α) (r : List α), x ∈ l → (∀ a ∈ r, a ∈ l) →
        r.Pairwise (fun a b => less a b = false) →
        (insertBack less x r).Pairwise (fun a b => less a b = false) := by
      intro x r hx
      induction r with
      | nil => intro _ _; simp [insertBack]
      | cons y ys ih =>
        intro hr hp
        have hy : y ∈ l := hr y (List.mem_cons_self _ _)
        have hys : ∀ a ∈ ys, a ∈ l := fun a ha => hr a (List.mem_cons_of_mem _ ha)
        obtain ⟨hy1, hp1⟩ := List.pairwise_cons.mp hp
        cases h : less x y
        · simp only [insertBack, h, Bool.false_eq_true, if_false]
          refine List.pairwise_cons.mpr ⟨?_, hp⟩
          intro a ha
          rcases List.mem_cons.mp ha with rfl | ha
          · exact h
          · cases hxa : less x a
            · rfl
            · rcases hbt x hx y hy a (hys a ha) hxa with h2 | h2
              · rw [h] at h2; exact absurd h2 (by simp)
              · rw [hy1 a ha] at h2; exact absurd h2 (by simp)
        · simp only [insertBack, h, if_true]
          refine List.pairwise_cons.mpr ⟨?_, ih hys hp1⟩
          intro a ha
          rcases (hmem x ys a).mp ha with rfl | ha
          · cases hyx : less y a
            · rfl
            · have := htr a hx y hy a hx h hyx
              rw [hirr a hx] at this
              exact absurd this (by simp)
          · exact hy1 a ha
    have hloop : ∀ (rest done : List α), (∀ a ∈ done, a ∈ l) → (∀ a ∈ rest, a ∈ l) →
        done.Pairwise (fun a b => less a b = false) →
        (insertionLoop less done rest).Pairwise (fun a b => less b a = false) := by
      intro rest
      induction rest with
      | nil =>
        intro done _ _ hp
        simp only [insertionLoop]
        exact List.pairwise_reverse.mpr hp
      | cons x rest ih =>
        intro done hd hr hp
        have hx : x ∈ l := hr x (List.mem_cons_self _ _)
        refine ih (insertBack less x done) ?_ (fun a ha => hr a (List.mem_cons_of_mem _ ha))
          (hins x done hx hd hp)
        intro a ha
        rcases (hmem x done a).mp ha with rfl | ha
        · exact hx
        · exact hd a ha
    exact hloop l [] (by simp) (fun a ha => ha) List.Pairwise.nil

/-- Numerals denote integer-valued numbers of the fragment. -/
instance (n : Nat) : OfNat fragLib.F n := ⟨(⟨n, 0⟩ : Dec)⟩

/-- A generator of identifiers that never repeats, used to evaluate the handlers on
concrete inputs: the `k`-th call returns `k + 1` letters `g`. -/
def sampleGen (k : Nat) : String := String.mk (List.replicate (k + 1) 'g')

/-- A clock used to evaluate the handlers on concrete inputs. -/
def sampleClock (_ : Nat) : String := "2024-05-01T10:00:00Z"

/-- Ten documents `n: 0` to `n: 9`, used to evaluate the pagination step. -/
def sampleDocs : List (Document fragLib.F) :=
  (List.range 10).map (fun n => [("n", .num ⟨(n : Int), 0⟩)])

/-! ## Auxiliary facts about the loops -/

/-- The operator loop succeeds exactly when every iteration falls through. -/
theorem operatorsLoop_eq_all (L : GoLib) (docValue : Value L.F) (operators : GoMap L.F) :
    operatorsLoop L docValue operators =
      operators.all (fun e => operatorHolds L docValue e.1 e.2) := by
  induction operators with
  | nil => rfl
  | cons e rest ih =>
    obtain ⟨operator, value⟩ := e
    cases h : operatorHolds L docValue operator value <;>
      simp [operatorsLoop, h, ih]

/-- The query loop succeeds exactly when every iteration falls through. -/
theorem matchesQuery_eq_all (L : GoLib) (doc : Document L.F) (query : GoMap L.F) :
    matchesQuery L doc query = query.all (fun e => fieldHolds L doc e.1 e.2) := by
  induction query with
  | nil => rfl
  | cons e rest ih =>
    obtain ⟨field, condition⟩ := e
    cases h : fieldHolds L doc field condition <;>
      simp [matchesQuery, h, ih]

/-- A one-field query is decided by its single iteration. -/
theorem matchesQuery_single (L : GoLib) (doc : Document L.F) (field : String)
    (condition : Value L.F) :
    matchesQuery L doc [(field, condition)] = fieldHolds L doc field condition := by
  cases h : fieldHolds L doc field condition <;> simp [matchesQuery, h]

/-- A one-operator object on a present field is decided by its single iteration. -/
theorem matchesOperators_single (L : GoLib) (doc : Document L.F) (field : String)
    (docValue : Value L.F) (h : mapGet doc field = some docValue) (operator : String)
    (value : Value L.F) :
    matchesOperators L doc field [(operator, value)] =
      operatorHolds L docValue operator value := by
  cases hv : operatorHolds L docValue operator value <;>
    simp [matchesOperators, operatorsLoop, h, hv]

/-- The membership loop finds an element exactly when one has the rendering of the
document value. -/
theorem inArrayLoop_iff (L : GoLib) (docValue : Value L.F) (items : List (Value L.F)) :
    inArrayLoop L docValue items = true ↔
      ∃ item ∈ items, sprint L item = sprint L docValue := by
  induction items with
  | nil => simp [inArrayLoop]
  | cons item rest ih =>
    by_cases h : sprint L docValue = sprint L item
    · simp [inArrayLoop, h]
    · have h2 : ¬ sprint L item = sprint L docValue := fun e => h e.symm
      simp [inArrayLoop, h, h2, ih]

/-- The result of the three-way comparison is one of `-1`, `0`, `1`. -/
theorem compareChars_range (a b : List Char) :
    -1 ≤ compareChars a b ∧ compareChars a b ≤ 1 := by
  induction a generalizing b with
  | nil => cases b <;> simp [compareChars]
  | cons x xs ih =>
    cases b with
    | nil => simp [compareChars]
    | cons y ys =>
      simp only [compareChars]
      split
      · simp
      · split
        · simp
        · exact ih ys

/-- The result of `strings.Compare` is one of `-1`, `0`, `1`. -/
theorem stringsCompare_range (a b : String) :
    -1 ≤ stringsCompare a b ∧ stringsCompare a b ≤ 1 :=
  compareChars_range a.data b.data

/-- The iterations of the comparison operators are the calls of `compareValues`. -/
theorem operatorHolds_compare (L : GoLib) (d q : Value L.F) :
    operatorHolds L d "$gt" q = compareValues L d q L.gt ∧
    operatorHolds L d "$gte" q = compareValues L d q L.ge ∧
    operatorHolds L d "$lt" q = compareValues L d q L.lt ∧
    operatorHolds L d "$lte" q = compareValues L d q L.le := by
  refine ⟨?_, ?_, ?_, ?_⟩
  · cases h : compareValues L d q L.gt <;> simp [operatorHolds, h]
  · cases h : compareValues L d q L.ge <;> simp [operatorHolds, h]
  · cases h : compareValues L d q L.lt <;> simp [operatorHolds, h]
  · cases h : compareValues L d q L.le <;> simp [operatorHolds, h]

/-- Indexing fails exactly when no entry has the key. -/
theorem mapGet_eq_none_iff {F : Type} (m : GoMap F) (key : String) :
    mapGet m key = none ↔ ∀ e ∈ m, e.1 ≠ key := by
  induction m with
  | nil => simp [mapGet]
  | cons e rest ih =>
    obtain ⟨k, v⟩ := e
    by_cases h : k = key
    · simp [mapGet, h]
    · simp [mapGet, h, ih]

/-- The operator loop does not depend on the order in which the operators are visited. -/
theorem operatorsLoop_perm (L : GoLib) (docValue : Value L.F) (ops ops2 : GoMap L.F)
    (h : ops.Perm ops2) : operatorsLoop L docValue ops = operatorsLoop L docValue ops2 := by
  rw [operatorsLoop_eq_all, operatorsLoop_eq_all, Bool.eq_iff_iff]
  simp only [List.all_eq_true]
  exact ⟨fun hall e he => hall e (h.mem_iff.mpr he), fun hall e he => hall e (h.mem_iff.mp he)⟩

/-- When both values convert, `compareValues` compares the numbers. -/
theorem compareValues_numeric (L : GoLib) (d q : Value L.F) (a b : L.F)
    (ha : toFloat64 L d = some a) (hb : toFloat64 L q = some b)
    (compareFunc : L.F → L.F → Bool) :
    compareValues L d q compareFunc = compareFunc a b := by
  simp [compareValues, ha, hb]

/-- When one of the values does not convert, `compareValues` compares the result of
`strings.Compare` on the renderings with zero. -/
theorem compareValues_textual (L : GoLib) (d q : Value L.F)
    (h : toFloat64 L d = none ∨ toFloat64 L q = none)
    (compareFunc : L.F → L.F → Bool) :
    compareValues L d q compareFunc =
      compareFunc (L.ofInt (stringsCompare (sprint L d) (sprint L q))) (L.ofInt 0) := by
  unfold compareValues
  rcases h with h | h
  · simp [h]
  · cases hd : toFloat64 L d <;> simp [h]

/-! ## Range queries (C1) -/

/-- C1, as stated, fails: with the query `age: $gte 18, $lte 65` the filter keeps the
document whose `age` is the text `40yrs`, although that value is neither a number nor
text that parses as one. -/
theorem c1_text_in_range_is_kept :
    filterDocs fragLib [[("age", .str "40yrs")], [("age", .num 70)]]
        [("age", .obj [("$gte", .num 18), ("$lte", .num 65)])]
      = [[("age", .str "40yrs")]] ∧
    toFloat64 fragLib (.str "40yrs") = none :=
  ⟨rfl, rfl⟩

/-- C1, amended: for every collection and bounds `lo`, `hi`, the filter with the query
`age: $gte lo, $lte hi` (operators visited in either order) keeps a document exactly
when it has an `age` field whose value either converts to a number `n` with
`lo <= n <= hi`, or does not convert and has a text rendering that `strings.Compare`
places at or after the rendering of `lo` and at or before the rendering of `hi`;
a document without `age` is never kept. -/
theorem c1_range_filter (L : GoLib) (data : List (Document L.F)) (lo hi : L.F)
    (ops : GoMap L.F) (hops : ops.Perm [("$gte", .num lo), ("$lte", .num hi)])
    (doc : Document L.F) :
    (doc ∈ filterDocs L data [("age", .obj ops)] ↔
      doc ∈ data ∧ ∃ v, mapGet doc "age" = some v ∧
        ((∃ n, toFloat64 L v = some n ∧ L.ge n lo = true ∧ L.le n hi = true) ∨
         (toFloat64 L v = none ∧
            0 ≤ stringsCompare (sprint L v) (L.fmtFloat lo) ∧
            stringsCompare (sprint L v) (L.fmtFloat hi) ≤ 0))) ∧
    (mapGet doc "age" = none → doc ∉ filterDocs L data [("age", .obj ops)]) := by
  have hnoex : mapGet ops "$exists" = none := by
    rw [mapGet_eq_none_iff]
    intro e he
    have := hops.mem_iff.mp he
    simp only [List.mem_cons, List.mem_singleton, List.not_mem_nil, or_false] at this
    rcases this with rfl | rfl
    · show "$gte" ≠ "$exists"
      decide
    · show "$lte" ≠ "$exists"
      decide
  have hmq : matchesQuery L doc [("age", .obj ops)] = matchesOperators L doc "age" ops := by
    rw [matchesQuery_single]; rfl
  have hmiss : mapGet doc "age" = none → matchesOperators L doc "age" ops = false := by
    intro h
    simp [matchesOperators, h, hnoex]
  refine ⟨?_, ?_⟩
  · simp only [filterDocs, List.mem_filter, hmq]
    refine and_congr_right (fun _ => ?_)
    cases hv : mapGet doc "age" with
    | none => simp [hmiss hv]
    | some v =>
      have hloop : matchesOperators L doc "age" ops =
          (compareValues L v (.num lo) L.ge && compareValues L v (.num hi) L.le) := by
        simp only [matchesOperators, hv]
        rw [operatorsLoop_perm L v _ _ hops, operatorsLoop_eq_all]
        simp [(operatorHolds_compare L v (.num lo)).2.1, (operatorHolds_compare L v (.num hi)).2.2.2]
      rw [hloop]
      cases hn : toFloat64 L v with
      | some n =>
        rw [compareValues_numeric L v (.num lo) n lo hn rfl,
          compareValues_numeric L v (.num hi) n hi hn rfl]
        simp [hn]
      | none =>
        rw [compareValues_textual L v (.num lo) (Or.inl hn),
          compareValues_textual L v (.num hi) (Or.inl hn)]
        have r1 := stringsCompare_range (sprint L v) (sprint L (.num lo))
        have r2 := stringsCompare_range (sprint L v) (sprint L (.num hi))
        rw [L.ge_ofInt _ r1.1 r1.2, L.le_ofInt _ r2.1 r2.2]
        simp [sprint, hn]
  · intro h hmem
    simp only [filterDocs, List.mem_filter, hmq, hmiss h] at hmem
    exact absurd hmem.2 (by simp)

/-- C1, amended, at a concrete collection: with the operators visited in the order
`$lte`, `$gte`, the document aged 40 is kept and the document without `age` is not. -/
theorem c1_range_filter_witness :
    List.Perm ([("$lte", .num 65), ("$gte", .num 18)] : GoMap fragLib.F)
      [("$gte", .num 18), ("$lte", .num 65)] ∧
    [("age", .num 40)] ∈
      filterDocs fragLib [[("age", .num 40)], [("name", .str "x")]]
        [("age", .obj [("$lte", .num 65), ("$gte", .num 18)])] ∧
    [("name", .str "x")] ∉
      filterDocs fragLib [[("age", .num 40)], [("name", .str "x")]]
        [("age", .obj [("$lte", .num 65), ("$gte", .num 18)])] :=
  ⟨List.Perm.swap _ _ _,
    (c1_range_filter fragLib [[("age", .num 40)], [("name", .str "x")]] 18 65
      [("$lte", .num 65), ("$gte", .num 18)] (List.Perm.swap _ _ _)
      [("age", .num 40)]).1.mpr
      ⟨List.mem_cons_self _ _, .num 40, rfl, Or.inl ⟨40, rfl, rfl, rfl⟩⟩,
    (c1_range_filter fragLib [[("age", .num 40)], [("name", .str "x")]] 18 65
      [("$lte", .num 65), ("$gte", .num 18)] (List.Perm.swap _ _ _)
      [("name", .str "x")]).2 rfl⟩

/-! ## Equality operators and literal match (C2, C3, C4) -/

/-- C2: on the document `name: x`, the operator-object `$eq: x` (operand with the same
text rendering as the field value) does not match, while `$eq: y` (a different
rendering) does: the `$eq` arm returns `false` exactly when the renderings are equal. -/
theorem c2_eq_fails_on_equal_rendering :
    sprint fragLib (.str "x") = sprint fragLib (.str "x") ∧
    matchesOperators fragLib [("name", .str "x")] "name" [("$eq", .str "x")] = false ∧
    matchesOperators fragLib [("name", .str "x")] "name" [("$eq", .str "y")] = true :=
  ⟨rfl, rfl, rfl⟩

/-- C3: on the document `name: x`, the operator-object `$ne: y` (operand with a
different text rendering) does not match, while `$ne: x` (the same rendering) does:
the `$ne` arm returns `false` exactly when the renderings differ. -/
theorem c3_ne_fails_on_different_rendering :
    sprint fragLib (.str "x") ≠ sprint fragLib (.str "y") ∧
    matchesOperators fragLib [("name", .str "x")] "name" [("$ne", .str "y")] = false ∧
    matchesOperators fragLib [("name", .str "x")] "name" [("$ne", .str "x")] = true :=
  ⟨by decide, rfl, rfl⟩

/-- C4: for a single-field query whose condition is a literal (not a mapping),
`matchesQuery` returns true exactly when the document has the field and the text
rendering of its value equals that of the literal; a document without the field does
not match; and a stored number matches the text literal that is its rendering. -/
theorem c4_literal_match (L : GoLib) (doc : Document L.F) (field : String)
    (condition : Value L.F) (hc : condition.isObj = false) :
    (matchesQuery L doc [(field, condition)] = true ↔
      ∃ docValue, mapGet doc field = some docValue ∧
        sprint L docValue = sprint L condition) ∧
    (mapGet doc field = none → matchesQuery L doc [(field, condition)] = false) ∧
    (∀ x : L.F, mapGet doc field = some (.num x) →
      matchesQuery L doc [(field, .str (L.fmtFloat x))] = true) := by
  have hlit : ∀ c : Value L.F, c.isObj = false →
      matchesQuery L doc [(field, c)] =
        (match mapGet doc field with
          | none => false
          | some docValue => if sprint L docValue ≠ sprint L c then false else true) := by
    intro c h
    rw [matchesQuery_single]
    cases c <;> first | rfl | simp [Value.isObj] at h
  refine ⟨?_, ?_, ?_⟩
  · rw [hlit condition hc]
    cases mapGet doc field with
    | none => simp
    | some docValue => simp
  · intro h
    rw [hlit condition hc, h]
  · intro x h
    rw [hlit (.str (L.fmtFloat x)) rfl, h]
    simp [sprint]

/-- C4 at a concrete document: the stored number 5 matches the text literal `5`. -/
theorem c4_literal_match_witness :
    (Value.str "5" : Value fragLib.F).isObj = false ∧
    matchesQuery fragLib [("n", .num 5)] [("n", .str "5")] = true :=
  ⟨rfl, (c4_literal_match fragLib [("n", .num 5)] "n" (.str "5") rfl).1.mpr
    ⟨.num 5, rfl, rfl⟩⟩

/-! ## Conjunction over fields and operators (C5, C6) -/

/-- C5: `matchesQuery` returns true exactly when every field of the query, taken alone
as a single-field query, matches the document; visiting the fields in another order
gives the same result; and the empty query matches every document. -/
theorem c5_query_conjunction (L : GoLib) (doc : Document L.F) (query : GoMap L.F) :
    (matchesQuery L doc query = true ↔
      ∀ e ∈ query, matchesQuery L doc [e] = true) ∧
    (∀ query2 : GoMap L.F, query.Perm query2 →
      matchesQuery L doc query2 = matchesQuery L doc query) ∧
    matchesQuery L doc [] = true := by
  refine ⟨?_, ?_, rfl⟩
  · rw [matchesQuery_eq_all, List.all_eq_true]
    refine forall_congr' (fun e => forall_congr' (fun _ => ?_))
    rw [matchesQuery_single]
  · intro query2 h
    rw [matchesQuery_eq_all, matchesQuery_eq_all, Bool.eq_iff_iff]
    simp only [List.all_eq_true]
    exact ⟨fun hall e he => hall e (h.mem_iff.mp he),
      fun hall e he => hall e (h.mem_iff.mpr he)⟩

/-- C5 at a concrete query with its two fields visited in the two possible orders. -/
theorem c5_query_conjunction_witness :
    List.Perm ([("a", .str "x"), ("b", .num 2)] : GoMap fragLib.F)
      [("b", .num 2), ("a", .str "x")] ∧
    matchesQuery fragLib [("a", .str "x"), ("b", .num 2)]
        [("b", .num 2), ("a", .str "x")] =
      matchesQuery fragLib [("a", .str "x"), ("b", .num 2)]
        [("a", .str "x"), ("b", .num 2)] :=
  ⟨List.Perm.swap _ _ _,
    (c5_query_conjunction fragLib [("a", .str "x"), ("b", .num 2)]
      [("a", .str "x"), ("b", .num 2)]).2.1 _ (List.Perm.swap _ _ _)⟩

/-- C6, as stated, fails: on a document lacking `age`, the operator-object
`$exists: false, $gt: 5` matches although `$gt: 5` alone does not. -/
theorem c6_absent_field_not_conjunctive :
    matchesOperators fragLib [("name", .str "x")] "age"
        [("$exists", .bool false), ("$gt", .num 5)] = true ∧
    matchesOperators fragLib [("name", .str "x")] "age" [("$gt", .num 5)] = false :=
  ⟨rfl, rfl⟩

/-- C6, amended: on a document that has the field, `matchesOperators` returns true
exactly when each operator of the object, taken alone as a one-operator object,
matches; on a document lacking the field it returns true exactly when the object
holds `$exists` with the boolean operand false, whatever its other operators. -/
theorem c6_operators_conjunction (L : GoLib) (doc : Document L.F) (field : String)
    (operators : GoMap L.F) :
    ((mapGet doc field).isSome = true →
      (matchesOperators L doc field operators = true ↔
        ∀ e ∈ operators, matchesOperators L doc field [e] = true)) ∧
    (mapGet doc field = none →
      (matchesOperators L doc field operators = true ↔
        mapGet operators "$exists" = some (.bool false))) := by
  refine ⟨?_, ?_⟩
  · intro h
    obtain ⟨docValue, hv⟩ := Option.isSome_iff_exists.mp h
    have hloop : matchesOperators L doc field operators =
        operatorsLoop L docValue operators := by
      simp [matchesOperators, hv]
    rw [hloop, operatorsLoop_eq_all, List.all_eq_true]
    refine forall_congr' (fun e => forall_congr' (fun _ => ?_))
    rw [matchesOperators_single L doc field docValue hv]
  · intro h
    simp only [matchesOperators, h]
    cases hex : mapGet operators "$exists" with
    | none => simp
    | some v =>
      cases v with
      | bool b => cases b <;> simp
      | _ => simp

/-- C6, amended, at concrete documents: with the field present both operators of
`$gte: 18, $lte: 65` are needed; with the field absent `$exists: false` decides. -/
theorem c6_operators_conjunction_witness :
    (mapGet ([("age", .num 40)] : Document fragLib.F) "age").isSome = true ∧
    mapGet ([("name", .str "x")] : Document fragLib.F) "age" = none ∧
    matchesOperators fragLib [("age", .num 40)] "age"
      [("$gte", .num 18), ("$lte", .num 65)] = true ∧
    matchesOperators fragLib [("name", .str "x")] "age"
      [("$exists", .bool false), ("$gt", .num 5)] = true :=
  ⟨rfl, rfl,
    ((c6_operators_conjunction fragLib [("age", .num 40)] "age"
      [("$gte", .num 18), ("$lte", .num 65)]).1 rfl).mpr
      (by intro e he
          simp only [List.mem_cons, List.mem_singleton, List.not_mem_nil, or_false] at he
          rcases he with rfl | rfl <;> rfl),
    ((c6_operators_conjunction fragLib [("name", .str "x")] "age"
      [("$exists", .bool false), ("$gt", .num 5)]).2 rfl).mpr rfl⟩

/-! ## Presence of the field (C7, C8) -/

/-- C7: on a document that lacks the queried field, `matchesOperators` returns true
exactly when the operator-object holds `$exists` with the boolean operand false;
with any other operator-object the match fails. -/
theorem c7_absent_field (L : GoLib) (doc : Document L.F) (field : String)
    (operators : GoMap L.F) (h : mapGet doc field = none) :
    (matchesOperators L doc field operators = true ↔
      mapGet operators "$exists" = some (.bool false)) ∧
    (mapGet operators "$exists" ≠ some (.bool false) →
      matchesOperators L doc field operators = false) := by
  have key : matchesOperators L doc field operators = true ↔
      mapGet operators "$exists" = some (.bool false) := by
    simp only [matchesOperators, h]
    cases hex : mapGet operators "$exists" with
    | none => simp
    | some v =>
      cases v with
      | bool b => cases b <;> simp
      | _ => simp
  refine ⟨key, fun hne => ?_⟩
  cases hm : matchesOperators L doc field operators with
  | false => rfl
  | true => exact absurd (key.mp hm) hne

/-- C7 at a concrete document without `age`: `$exists: false` together with a
comparison matches, and `$exists: true` does not. -/
theorem c7_absent_field_witness :
    mapGet ([("name", .str "x")] : Document fragLib.F) "age" = none ∧
    matchesOperators fragLib [("name", .str "x")] "age"
      [("$lt", .num 3), ("$exists", .bool false)] = true ∧
    matchesOperators fragLib [("name", .str "x")] "age"
      [("$exists", .bool true)] = false :=
  ⟨rfl,
    (c7_absent_field fragLib [("name", .str "x")] "age"
      [("$lt", .num 3), ("$exists", .bool false)] rfl).1.mpr rfl,
    (c7_absent_field fragLib [("name", .str "x")] "age"
      [("$exists", .bool true)] rfl).2 (by simp [mapGet])⟩

/-- C8: the query with the single condition `$exists: b` on field `f` matches a
document exactly when the presence of `f` in the document equals `b`. -/
theorem c8_exists_operator (L : GoLib) (doc : Document L.F) (field : String) (b : Bool) :
    matchesQuery L doc [(field, .obj [("$exists", .bool b)])] = true ↔
      (mapGet doc field).isSome = b := by
  rw [matchesQuery_single]
  show matchesOperators L doc field [("$exists", .bool b)] = true ↔ _
  cases hv : mapGet doc field with
  | none => cases b <;> simp [matchesOperators, hv, mapGet]
  | some docValue =>
    cases b <;> simp [matchesOperators, hv, operatorsLoop, operatorHolds]

/-! ## Comparison operators (C9) -/

/-- C9: on a document whose field has value `d`, each of `$gt`, `$gte`, `$lt`, `$lte`
with operand `q` matches, when both `d` and `q` convert to numbers, exactly when the
numbers stand in the relation `>`, `>=`, `<`, `<=`; otherwise exactly when the result
`c` of `strings.Compare` on the two text renderings satisfies `c > 0`, `c >= 0`,
`c < 0`, `c <= 0`; and `c` is one of `-1`, `0`, `1`. -/
theorem c9_comparison_operators (L : GoLib) (doc : Document L.F) (field : String)
    (d q : Value L.F) (hd : mapGet doc field = some d) :
    (∀ a b : L.F, toFloat64 L d = some a → toFloat64 L q = some b →
      (matchesOperators L doc field [("$gt", q)] = true ↔ L.gt a b = true) ∧
      (matchesOperators L doc field [("$gte", q)] = true ↔ L.ge a b = true) ∧
      (matchesOperators L doc field [("$lt", q)] = true ↔ L.lt a b = true) ∧
      (matchesOperators L doc field [("$lte", q)] = true ↔ L.le a b = true)) ∧
    ((toFloat64 L d = none ∨ toFloat64 L q = none) →
      (matchesOperators L doc field [("$gt", q)] = true ↔
        0 < stringsCompare (sprint L d) (sprint L q)) ∧
      (matchesOperators L doc field [("$gte", q)] = true ↔
        0 ≤ stringsCompare (sprint L d) (sprint L q)) ∧
      (matchesOperators L doc field [("$lt", q)] = true ↔
        stringsCompare (sprint L d) (sprint L q) < 0) ∧
      (matchesOperators L doc field [("$lte", q)] = true ↔
        stringsCompare (sprint L d) (sprint L q) ≤ 0)) ∧
    (stringsCompare (sprint L d) (sprint L q) = -1 ∨
      stringsCompare (sprint L d) (sprint L q) = 0 ∨
      stringsCompare (sprint L d) (sprint L q) = 1) := by
  have hops := operatorHolds_compare L d q
  have r := stringsCompare_range (sprint L d) (sprint L q)
  refine ⟨?_, ?_, by omega⟩
  · intro a b ha hb
    simp only [matchesOperators_single L doc field d hd, hops.1, hops.2.1, hops.2.2.1,
      hops.2.2.2, compareValues_numeric L d q a b ha hb, iff_self, and_self]
  · intro h
    simp only [matchesOperators_single L doc field d hd, hops.1, hops.2.1, hops.2.2.1,
      hops.2.2.2, compareValues_textual L d q h, L.gt_ofInt _ r.1 r.2,
      L.ge_ofInt _ r.1 r.2, L.lt_ofInt _ r.1 r.2, L.le_ofInt _ r.1 r.2, decide_eq_true_eq,
      iff_self, and_self]

/-- C9 at concrete values: the text `10` is greater than the number 9 (numeric
comparison), and the text `abc` is greater than the number 9 by its rendering. -/
theorem c9_comparison_operators_witness :
    mapGet ([("n", .str "10")] : Document fragLib.F) "n" = some (.str "10") ∧
    matchesOperators fragLib [("n", .str "10")] "n" [("$gt", .num 9)] = true ∧
    mapGet ([("n", .str "abc")] : Document fragLib.F) "n" = some (.str "abc") ∧
    matchesOperators fragLib [("n", .str "abc")] "n" [("$gt", .num 9)] = true :=
  ⟨rfl,
    ((c9_comparison_operators fragLib [("n", .str "10")] "n" (.str "10") (.num 9) rfl).1
      ⟨10, 0⟩ 9 rfl rfl).1.mpr rfl,
    rfl,
    ((c9_comparison_operators fragLib [("n", .str "abc")] "n" (.str "abc") (.num 9) rfl).2.1
      (Or.inl rfl)).1.mpr (by decide)⟩

/-! ## Membership operators (C10) -/

/-- C10: on a document whose field has value `d` and for a list operand, `$in` matches
exactly when some element of the list has the text rendering of `d`, `$nin` matches
exactly when none has; so `$nin` is the negation of `$in`, and with the empty list
`$in` does not match and `$nin` matches. -/
theorem c10_in_nin (L : GoLib) (doc : Document L.F) (field : String) (d : Value L.F)
    (items : List (Value L.F)) (hd : mapGet doc field = some d) :
    (matchesOperators L doc field [("$in", .arr items)] = true ↔
      ∃ item ∈ items, sprint L item = sprint L d) ∧
    (matchesOperators L doc field [("$nin", .arr items)] = true ↔
      ∀ item ∈ items, sprint L item ≠ sprint L d) ∧
    (matchesOperators L doc field [("$nin", .arr items)] =
      !matchesOperators L doc field [("$in", .arr items)]) ∧
    matchesOperators L doc field [("$in", .arr [])] = false ∧
    matchesOperators L doc field [("$nin", .arr [])] = true := by
  have hin : ∀ xs : List (Value L.F),
      matchesOperators L doc field [("$in", .arr xs)] = inArrayLoop L d xs := by
    intro xs
    rw [matchesOperators_single L doc field d hd]
    cases h : inArrayLoop L d xs <;> simp [operatorHolds, inArray, h]
  have hnin : ∀ xs : List (Value L.F),
      matchesOperators L doc field [("$nin", .arr xs)] = !inArrayLoop L d xs := by
    intro xs
    rw [matchesOperators_single L doc field d hd]
    cases h : inArrayLoop L d xs <;> simp [operatorHolds, inArray, h]
  refine ⟨?_, ?_, ?_, ?_, ?_⟩
  · rw [hin, inArrayLoop_iff]
  · rw [hnin, Bool.not_eq_true', ← Bool.not_eq_true, inArrayLoop_iff]
    simp
  · rw [hin, hnin]
  · rw [hin]; rfl
  · rw [hnin]; rfl

/-- C10 at a concrete document: the stored number 5 is in the list `[x, 5]` whose
second element is the text `5`. -/
theorem c10_in_nin_witness :
    mapGet ([("n", .num 5)] : Document fragLib.F) "n" = some (.num 5) ∧
    matchesOperators fragLib [("n", .num 5)] "n"
      [("$in", .arr [.str "x", .str "5"])] = true ∧
    matchesOperators fragLib [("n", .num 5)] "n"
      [("$nin", .arr [.str "x", .str "5"])] = false :=
  ⟨rfl,
    (c10_in_nin fragLib [("n", .num 5)] "n" (.num 5) [.str "x", .str "5"] rfl).1.mpr
      ⟨.str "5", by simp, rfl⟩,
    by rw [(c10_in_nin fragLib [("n", .num 5)] "n" (.num 5) [.str "x", .str "5"] rfl).2.2.1]
       rfl⟩

/-! ## Auxiliary facts about maps and validation -/

/-- A successful lookup returns the value of an entry of the map. -/
theorem mapGet_some_mem {F : Type} (m : GoMap F) (key : String) (v : Value F)
    (h : mapGet m key = some v) : (key, v) ∈ m := by
  induction m with
  | nil => simp [mapGet] at h
  | cons e rest ih =>
    obtain ⟨k, x⟩ := e
    by_cases hk : k = key
    · simp only [mapGet, hk, if_true, Option.some.injEq] at h
      simp [hk, h]
    · simp only [mapGet, hk, if_false] at h
      exact List.mem_cons_of_mem _ (ih h)

/-- Lookup after an assignment to the same key. -/
theorem mapGet_mapSet_self {F : Type} (m : GoMap F) (key : String) (v : Value F) :
    mapGet (mapSet m key v) key = some v := by
  induction m with
  | nil => simp [mapSet, mapGet]
  | cons e rest ih =>
    obtain ⟨k, x⟩ := e
    by_cases hk : k = key
    · simp [mapSet, mapGet, hk]
    · simp [mapSet, mapGet, hk, ih]

/-- Lookup after an assignment to another key. -/
theorem mapGet_mapSet_ne {F : Type} (m : GoMap F) (key other : String) (v : Value F)
    (h : other ≠ key) : mapGet (mapSet m key v) other = mapGet m other := by
  induction m with
  | nil =>
    have h2 : ¬ key = other := fun e => h e.symm
    simp [mapSet, mapGet, h2]
  | cons e rest ih =>
    obtain ⟨k, x⟩ := e
    by_cases hk : k = key
    · have h2 : ¬ k = other := fun e => h (e.symm.trans hk)
      have h3 : ¬ key = other := fun e => h e.symm
      simp [mapSet, mapGet, hk, h3]
    · by_cases ho : k = other
      · subst ho
        simp [mapSet, mapGet, hk]
      · simp [mapSet, mapGet, hk, ho, ih]

/-- A list that is a rearrangement of two elements is one of the two orders. -/
theorem perm_pair_cases {α : Type} {l : List α} {a b : α} (h : l.Perm [a, b]) :
    l = [a, b] ∨ l = [b, a] := by
  have hl := h.length_eq
  match l, hl, h with
  | [x, y], _, h =>
    have hx : x ∈ [a, b] := h.mem_iff.mp (List.mem_cons_self _ _)
    simp only [List.mem_cons, List.mem_singleton, List.not_mem_nil, or_false] at hx
    rcases hx with rfl | rfl
    · have h1 := (List.perm_cons x).mp h
      rw [List.perm_singleton] at h1
      left
      rw [h1]
    · have h2 : [x, y].Perm [x, a] := h.trans (List.Perm.swap _ _ _)
      have h1 := (List.perm_cons x).mp h2
      rw [List.perm_singleton] at h1
      right
      rw [h1]

/-- The operator loop of `validateOperators` accepts exactly when every key that
begins with `$` is an allowed operator whose operand passes `validateOperatorValue`. -/
theorem validateOps_eq_all (L : GoLib) (condMap ops : GoMap L.F) :
    validateOps L condMap ops =
      ops.all (fun e => !stringsHasPrefix e.1 "$" ||
        (allowedOperators.contains e.1 &&
          validateOperatorValue L e.1 (mapIndex condMap e.1))) := by
  induction ops with
  | nil => rfl
  | cons e rest ih =>
    obtain ⟨op, x⟩ := e
    cases h1 : stringsHasPrefix op "$" <;>
      cases h2 : allowedOperators.contains op <;>
        cases h3 : validateOperatorValue L op (mapIndex condMap op) <;>
          simp [validateOps, h1, h2, h3, ih]

/-- The function `validateOperators` accepts exactly when every condition that is an
operator-object passes the body of its loop. -/
theorem validateOperators_true_iff (L : GoLib) (query : GoMap L.F) :
    validateOperators L query = true ↔
      ∀ field condMap, (field, Value.obj condMap) ∈ query →
        validateCondMap L condMap = true := by
  induction query with
  | nil => simp [validateOperators]
  | cons e rest ih =>
    obtain ⟨f, c⟩ := e
    cases c with
    | obj cm =>
      cases h : validateCondMap L cm
      · simp only [validateOperators, h]
        constructor
        · intro hf
          exact absurd hf (by simp)
        · intro hall
          have := hall f cm (List.mem_cons_self _ _)
          rw [h] at this
          exact absurd this (by simp)
      · simp only [validateOperators, h, if_true, ih]
        constructor
        · intro hall field condMap hmem
          rcases List.mem_cons.mp hmem with heq | hmem
          · have h1 : condMap = cm := by
              have := (Prod.mk.injEq _ _ _ _ ▸ heq : field = f ∧ Value.obj condMap = Value.obj cm).2
              exact Value.obj.inj this
            rw [h1]; exact h
          · exact hall field condMap hmem
        · intro hall field condMap hmem
          exact hall field condMap (List.mem_cons_of_mem _ hmem)
    | _ =>
      simp only [validateOperators, ih]
      constructor
      · intro hall field condMap hmem
        rcases List.mem_cons.mp hmem with heq | hmem
        · simp at heq
        · exact hall field condMap hmem
      · intro hall field condMap hmem
        exact hall field condMap (List.mem_cons_of_mem _ hmem)

/-- An accepted operator-object: each of its keys beginning with `$` is allowed and
its operand passes `validateOperatorValue`, and neither range check reports a conflict. -/
theorem validateCondMap_true_iff (L : GoLib) (condMap : GoMap L.F) :
    validateCondMap L condMap = true ↔
      (∀ op ∈ keysOf condMap, stringsHasPrefix op "$" = true →
        op ∈ allowedOperators ∧ validateOperatorValue L op (mapIndex condMap op) = true) ∧
      conflictGtLt L condMap = false ∧ conflictGteLte L condMap = false := by
  have hops : validateOps L condMap condMap = true ↔
      ∀ op ∈ keysOf condMap, stringsHasPrefix op "$" = true →
        op ∈ allowedOperators ∧ validateOperatorValue L op (mapIndex condMap op) = true := by
    rw [validateOps_eq_all, List.all_eq_true]
    constructor
    · intro hall op hop hd
      obtain ⟨e, he, rfl⟩ := List.mem_map.mp hop
      have := hall e he
      simpa [hd] using this
    · intro hall e he
      cases hd : stringsHasPrefix e.1 "$"
      · simp
      · have := hall e.1 (List.mem_map.mpr ⟨e, he, rfl⟩) hd
        simpa using this
  unfold validateCondMap
  cases h1 : validateOps L condMap condMap <;>
    cases h2 : conflictGtLt L condMap <;>
      cases h3 : conflictGteLte L condMap <;>
        simp [← hops, h1]

/-- A query with an operator-object that does not pass the body of the loop is rejected. -/
theorem validateOperators_false_of (L : GoLib) (query : GoMap L.F) (field : String)
    (condMap : GoMap L.F) (hq : (field, Value.obj condMap) ∈ query)
    (h : validateCondMap L condMap = false) : validateOperators L query = false := by
  cases hv : validateOperators L query with
  | false => rfl
  | true =>
    have := (validateOperators_true_iff L query).mp hv field condMap hq
    rw [h] at this
    exact absurd this (by simp)

/-! ## Validation (C11, C12, C13, C14) -/

/-- C11, as stated, fails: the operator-object with the key `gt` (no leading `$`),
which is not one of the ten operators, is accepted. -/
theorem c11_key_without_dollar_is_accepted :
    validateOperators fragLib [("age", .obj [("gt", .num 5)])] = true ∧
    "gt" ∉ allowedOperators :=
  ⟨rfl, by decide⟩

/-- C11, amended: if the operator-object of some field of the query contains a key
that begins with `$` and is not one of the ten operators, `validateOperators` rejects
the query. -/
theorem c11_unknown_operator (L : GoLib) (query : GoMap L.F) (field : String)
    (condMap : GoMap L.F) (op : String)
    (hq : (field, Value.obj condMap) ∈ query) (hop : op ∈ keysOf condMap)
    (hd : stringsHasPrefix op "$" = true) (hu : op ∉ allowedOperators) :
    validateOperators L query = false := by
  apply validateOperators_false_of L query field condMap hq
  cases hv : validateCondMap L condMap with
  | false => rfl
  | true =>
    exact absurd (((validateCondMap_true_iff L condMap).mp hv).1 op hop hd).1 hu

/-- C11, amended, at a concrete query: `$foo` next to a valid operator, in the second
field of the query. -/
theorem c11_unknown_operator_witness :
    (("age", Value.obj [("$gt", .num 1), ("$foo", .num 1)]) : String × Value fragLib.F) ∈
      [("name", .str "x"), ("age", .obj [("$gt", .num 1), ("$foo", .num 1)])] ∧
    "$foo" ∈ keysOf ([("$gt", .num 1), ("$foo", .num 1)] : GoMap fragLib.F) ∧
    stringsHasPrefix "$foo" "$" = true ∧
    "$foo" ∉ allowedOperators ∧
    validateOperators fragLib
      [("name", .str "x"), ("age", .obj [("$gt", .num 1), ("$foo", .num 1)])] = false :=
  ⟨List.mem_cons_of_mem _ (List.mem_cons_self _ _), by decide, by decide, by decide,
    c11_unknown_operator fragLib
      [("name", .str "x"), ("age", .obj [("$gt", .num 1), ("$foo", .num 1)])] "age"
      [("$gt", .num 1), ("$foo", .num 1)] "$foo"
      (List.mem_cons_of_mem _ (List.mem_cons_self _ _)) (by decide) (by decide) (by decide)⟩

/-- An operand that converts to a number is not `nil` and passes
`validateOperatorValue` for the four comparison operators. -/
theorem numeric_operand (L : GoLib) (v : Value L.F) (a : L.F) (h : toFloat64 L v = some a) :
    v.isNil = false ∧
    validateOperatorValue L "$gt" v = true ∧ validateOperatorValue L "$gte" v = true ∧
    validateOperatorValue L "$lt" v = true ∧ validateOperatorValue L "$lte" v = true := by
  cases v <;> simp [toFloat64] at h <;>
    simp [Value.isNil, validateOperatorValue]

/-- C12: a query in which some field gives `$gt: a` and `$lt: b` with numeric `a >= b`,
or `$gte: a` and `$lte: b` with numeric `a > b`, is rejected by `validateOperators`;
and the query whose single field gives just `$gt: a`, `$lt: b` with `a < b`, or just
`$gte: a`, `$lte: b` with `a <= b` (in either order of visit), is accepted. -/
theorem c12_range_conflict (L : GoLib) (va vb : Value L.F) (a b : L.F)
    (ha : toFloat64 L va = some a) (hb : toFloat64 L vb = some b) :
    (∀ (query : GoMap L.F) (field : String) (condMap : GoMap L.F),
      (field, Value.obj condMap) ∈ query →
      mapGet condMap "$gt" = some va → mapGet condMap "$lt" = some vb →
      L.ge a b = true → validateOperators L query = false) ∧
    (∀ (query : GoMap L.F) (field : String) (condMap : GoMap L.F),
      (field, Value.obj condMap) ∈ query →
      mapGet condMap "$gte" = some va → mapGet condMap "$lte" = some vb →
      L.gt a b = true → validateOperators L query = false) ∧
    (∀ (field : String) (condMap : GoMap L.F),
      condMap.Perm [("$gt", va), ("$lt", vb)] → L.lt a b = true →
      validateOperators L [(field, .obj condMap)] = true) ∧
    (∀ (field : String) (condMap : GoMap L.F),
      condMap.Perm [("$gte", va), ("$lte", vb)] → L.le a b = true →
      validateOperators L [(field, .obj condMap)] = true) := by
  have hna := (numeric_operand L va a ha).1
  have hnb := (numeric_operand L vb b hb).1
  have hva := (numeric_operand L va a ha).2
  have hvb := (numeric_operand L vb b hb).2
  have hp : stringsHasPrefix "$gt" "$" = true ∧ stringsHasPrefix "$gte" "$" = true ∧
      stringsHasPrefix "$lt" "$" = true ∧ stringsHasPrefix "$lte" "$" = true := by decide
  have hal : "$gt" ∈ allowedOperators ∧ "$gte" ∈ allowedOperators ∧
      "$lt" ∈ allowedOperators ∧ "$lte" ∈ allowedOperators := by decide
  refine ⟨?_, ?_, ?_, ?_⟩
  · intro query field condMap hq hgt hlt hge
    apply validateOperators_false_of L query field condMap hq
    have hc : conflictGtLt L condMap = true := by
      simp [conflictGtLt, mapIndex, hgt, hlt, hna, hnb, ha, hb, hge]
    cases hv : validateCondMap L condMap with
    | false => rfl
    | true =>
      have := ((validateCondMap_true_iff L condMap).mp hv).2.1
      rw [hc] at this
      exact absurd this (by simp)
  · intro query field condMap hq hgte hlte hgt
    apply validateOperators_false_of L query field condMap hq
    have hc : conflictGteLte L condMap = true := by
      simp [conflictGteLte, mapIndex, hgte, hlte, hna, hnb, ha, hb, hgt]
    cases hv : validateCondMap L condMap with
    | false => rfl
    | true =>
      have := ((validateCondMap_true_iff L condMap).mp hv).2.2
      rw [hc] at this
      exact absurd this (by simp)
  · intro field condMap hperm hlt
    have hge := L.lt_not_ge a b hlt
    rcases perm_pair_cases hperm with rfl | rfl <;>
      simp [validateOperators, validateCondMap, validateOps, conflictGtLt, conflictGteLte,
        mapIndex, mapGet, hp.1, hp.2.2.1, hal.1, hal.2.2.1, hva.1, hvb.2.2.1, ha, hb, hge,
        Value.isNil]
  · intro field condMap hperm hle
    have hgt := L.le_not_gt a b hle
    rcases perm_pair_cases hperm with rfl | rfl <;>
      simp [validateOperators, validateCondMap, validateOps, conflictGtLt, conflictGteLte,
        mapIndex, mapGet, hp.2.1, hp.2.2.2, hal.2.1, hal.2.2.2, hva.2.1, hvb.2.2.2, ha, hb,
        hgt, Value.isNil]

/-- C12 at concrete bounds: `$gt: 65, $lt: 18` is rejected, and `$lt: 65, $gt: 18`
(visited in that order) is accepted. -/
theorem c12_range_conflict_witness :
    toFloat64 fragLib (.num 65) = some 65 ∧ toFloat64 fragLib (.num 18) = some 18 ∧
    validateOperators fragLib [("age", .obj [("$gt", .num 65), ("$lt", .num 18)])] = false ∧
    validateOperators fragLib [("age", .obj [("$lt", .num 65), ("$gt", .num 18)])] = true :=
  ⟨rfl, rfl,
    (c12_range_conflict fragLib (.num 65) (.num 18) 65 18 rfl rfl).1
      [("age", .obj [("$gt", .num 65), ("$lt", .num 18)])] "age"
      [("$gt", .num 65), ("$lt", .num 18)] (List.mem_cons_self _ _) rfl rfl rfl,
    (c12_range_conflict fragLib (.num 18) (.num 65) 18 65 rfl rfl).2.2.1 "age"
      [("$lt", .num 65), ("$gt", .num 18)] (List.Perm.swap _ _ _) rfl⟩

/-- C13: the operator-objects `$gt: 65, $lte: 18` and `$gte: 65, $lt: 18`, whose lower
bound exceeds the upper bound, are accepted by `validateOperators`, while the pairs
`$gt: 65, $lt: 18` and `$gte: 65, $lte: 18` with the same bounds are rejected. -/
theorem c13_mixed_bounds_are_accepted :
    validateOperators fragLib [("age", .obj [("$gt", .num 65), ("$lte", .num 18)])] = true ∧
    validateOperators fragLib [("age", .obj [("$gte", .num 65), ("$lt", .num 18)])] = true ∧
    validateOperators fragLib [("age", .obj [("$gt", .num 65), ("$lt", .num 18)])] = false ∧
    validateOperators fragLib [("age", .obj [("$gte", .num 65), ("$lte", .num 18)])] = false :=
  ⟨rfl, rfl, rfl, rfl⟩

/-- What `validateOperatorValue` requires of the operand of each operator. -/
theorem validateOperatorValue_true_iff (L : GoLib) (op : String) (v : Value L.F) :
    validateOperatorValue L op v = true ↔
      ((op = "$in" ∨ op = "$nin") → v.isArr = true) ∧
      (op = "$exists" → v.isBool = true) ∧
      (op = "$regex" → ∃ regexStr, v = .str regexStr ∧ L.regexpCompiles regexStr = true) ∧
      ((op = "$gt" ∨ op = "$gte" ∨ op = "$lt" ∨ op = "$lte") →
        v.isArr = false ∧ v.isObj = false) := by
  unfold validateOperatorValue
  by_cases h1 : op = "$in" ∨ op = "$nin"
  · have e2 : op ≠ "$exists" := by rcases h1 with rfl | rfl <;> decide
    have e3 : op ≠ "$regex" := by rcases h1 with rfl | rfl <;> decide
    have e4 : ¬ (op = "$gt" ∨ op = "$gte" ∨ op = "$lt" ∨ op = "$lte") := by
      rcases h1 with rfl | rfl <;> decide
    rw [if_pos h1]
    cases v <;> simp [h1, e2, e3, e4, Value.isArr]
  · rw [if_neg h1]
    by_cases h2 : op = "$exists"
    · have e3 : op ≠ "$regex" := by rw [h2]; decide
      have e4 : ¬ (op = "$gt" ∨ op = "$gte" ∨ op = "$lt" ∨ op = "$lte") := by
        rw [h2]; decide
      rw [if_pos h2]
      cases v <;> simp [h1, h2, e3, e4, Value.isBool]
    · rw [if_neg h2]
      by_cases h3 : op = "$regex"
      · have e4 : ¬ (op = "$gt" ∨ op = "$gte" ∨ op = "$lt" ∨ op = "$lte") := by
          rw [h3]; decide
        rw [if_pos h3]
        cases v <;> simp [h1, h2, h3, e4]
      · rw [if_neg h3]
        by_cases h4 : op = "$gt" ∨ op = "$gte" ∨ op = "$lt" ∨ op = "$lte"
        · rw [if_pos h4]
          cases v <;> simp [h1, h2, h3, h4, Value.isArr, Value.isObj]
        · rw [if_neg h4]
          simp [h1, h2, h3, h4]

/-- C14: if `validateOperators` accepts a query then in every operator-object of the
query each `$in`/`$nin` operand is a list, each `$exists` operand is a boolean, each
`$regex` operand is text (that compiles), and no `$gt`/`$gte`/`$lt`/`$lte` operand is
a list or a mapping; and a query with an operand violating one of these is rejected. -/
theorem c14_operand_types (L : GoLib) (query : GoMap L.F) :
    (validateOperators L query = true →
      ∀ (field : String) (condMap : GoMap L.F) (op : String) (v : Value L.F),
        (field, Value.obj condMap) ∈ query → mapGet condMap op = some v →
        ((op = "$in" ∨ op = "$nin") → v.isArr = true) ∧
        (op = "$exists" → v.isBool = true) ∧
        (op = "$regex" → v.isStr = true ∧
          ∃ regexStr, v = .str regexStr ∧ L.regexpCompiles regexStr = true) ∧
        ((op = "$gt" ∨ op = "$gte" ∨ op = "$lt" ∨ op = "$lte") →
          v.isArr = false ∧ v.isObj = false)) ∧
    (∀ (field : String) (condMap : GoMap L.F) (op : String) (v : Value L.F),
      (field, Value.obj condMap) ∈ query → mapGet condMap op = some v →
      (((op = "$in" ∨ op = "$nin") ∧ v.isArr = false) ∨
       (op = "$exists" ∧ v.isBool = false) ∨
       (op = "$regex" ∧ v.isStr = false) ∨
       ((op = "$gt" ∨ op = "$gte" ∨ op = "$lt" ∨ op = "$lte") ∧
          (v.isArr = true ∨ v.isObj = true))) →
      validateOperators L query = false) := by
  have key : validateOperators L query = true →
      ∀ (field : String) (condMap : GoMap L.F) (op : String) (v : Value L.F),
        (field, Value.obj condMap) ∈ query → mapGet condMap op = some v →
        ((op = "$in" ∨ op = "$nin") → v.isArr = true) ∧
        (op = "$exists" → v.isBool = true) ∧
        (op = "$regex" → v.isStr = true ∧
          ∃ regexStr, v = .str regexStr ∧ L.regexpCompiles regexStr = true) ∧
        ((op = "$gt" ∨ op = "$gte" ∨ op = "$lt" ∨ op = "$lte") →
          v.isArr = false ∧ v.isObj = false) := by
    intro hv field condMap op v hq hget
    have hc := (validateOperators_true_iff L query).mp hv field condMap hq
    have hops := ((validateCondMap_true_iff L condMap).mp hc).1
    have hmem : op ∈ keysOf condMap :=
      List.mem_map.mpr ⟨(op, v), mapGet_some_mem condMap op v hget, rfl⟩
    have hidx : mapIndex condMap op = v := by simp [mapIndex, hget]
    have hval : ∀ (hd : stringsHasPrefix op "$" = true),
        validateOperatorValue L op v = true := by
      intro hd
      have := (hops op hmem hd).2
      rwa [hidx] at this
    refine ⟨?_, ?_, ?_, ?_⟩
    · intro h
      have hd : stringsHasPrefix op "$" = true := by rcases h with rfl | rfl <;> decide
      exact ((validateOperatorValue_true_iff L op v).mp (hval hd)).1 h
    · intro h
      have hd : stringsHasPrefix op "$" = true := by rw [h]; decide
      exact ((validateOperatorValue_true_iff L op v).mp (hval hd)).2.1 h
    · intro h
      have hd : stringsHasPrefix op "$" = true := by rw [h]; decide
      obtain ⟨r, hr, hcomp⟩ := ((validateOperatorValue_true_iff L op v).mp (hval hd)).2.2.1 h
      exact ⟨by rw [hr]; rfl, r, hr, hcomp⟩
    · intro h
      have hd : stringsHasPrefix op "$" = true := by
        rcases h with rfl | rfl | rfl | rfl <;> decide
      exact ((validateOperatorValue_true_iff L op v).mp (hval hd)).2.2.2 h
  refine ⟨key, ?_⟩
  intro field condMap op v hq hget hviol
  cases hv : validateOperators L query with
  | false => rfl
  | true =>
    have h := key hv field condMap op v hq hget
    rcases hviol with ⟨ho, hb⟩ | ⟨ho, hb⟩ | ⟨ho, hb⟩ | ⟨ho, hb⟩
    · rw [h.1 ho] at hb; exact absurd hb (by simp)
    · rw [h.2.1 ho] at hb; exact absurd hb (by simp)
    · rw [(h.2.2.1 ho).1] at hb; exact absurd hb (by simp)
    · rcases hb with hb | hb
      · rw [(h.2.2.2 ho).1] at hb; exact absurd hb (by simp)
      · rw [(h.2.2.2 ho).2] at hb; exact absurd hb (by simp)

/-- C14 at concrete queries: an accepted query with a list operand of `$in`, and a
rejected query whose `$exists` operand is the text `yes`. -/
theorem c14_operand_types_witness :
    validateOperators fragLib [("tag", .obj [("$in", .arr [.str "a", .num 1])])] = true ∧
    (Value.arr [.str "a", .num 1] : Value fragLib.F).isArr = true ∧
    validateOperators fragLib [("tag", .obj [("$exists", .str "yes")])] = false :=
  ⟨rfl,
    ((c14_operand_types fragLib [("tag", .obj [("$in", .arr [.str "a", .num 1])])]).1 rfl
      "tag" [("$in", .arr [.str "a", .num 1])] "$in" (.arr [.str "a", .num 1])
      (List.mem_cons_self _ _) rfl).1 (Or.inl rfl),
    (c14_operand_types fragLib [("tag", .obj [("$exists", .str "yes")])]).2
      "tag" [("$exists", .str "yes")] "$exists" (.str "yes")
      (List.mem_cons_self _ _) rfl (Or.inr (Or.inl ⟨rfl, rfl⟩))⟩

/-! ## Updates (C15, C16, C17) -/

/-- C15: the query `age: $foo 1` is rejected by `validateOperators`, yet
`updateManyDocuments` given that query answers with a success and rewrites the stored
document that has an `age` field. -/
theorem c15_update_many_does_not_validate :
    validateOperators fragLib [("age", .obj [("$foo", .num 1)])] = false ∧
    (updateManyDocuments fragLib (fun _ => "2024-05-01T10:00:00Z")
        (some [("age", .obj [("$foo", .num 1)])]) [("age", .num 31)]
        [[("id", .str "a1"), ("age", .num 30)]]).response =
      .documents 1
        [[("id", .str "a1"), ("age", .num 31), ("updated_at", .str "2024-05-01T10:00:00Z")]] ∧
    (updateManyDocuments fragLib (fun _ => "2024-05-01T10:00:00Z")
        (some [("age", .obj [("$foo", .num 1)])]) [("age", .num 31)]
        [[("id", .str "a1"), ("age", .num 30)]]).stored =
      [[("id", .str "a1"), ("age", .num 31), ("updated_at", .str "2024-05-01T10:00:00Z")]] :=
  ⟨rfl, rfl, rfl⟩

/-- The test of `updateOneDocument` succeeds exactly on a document whose `id` is the
text `documentID`. -/
theorem idMatches_iff {F : Type} (doc : Document F) (documentID : String) :
    idMatches doc documentID = true ↔ mapGet doc "id" = some (.str documentID) := by
  unfold idMatches
  cases h : mapGet doc "id" with
  | none => simp
  | some v => cases v <;> simp

/-- The search loop of `updateOneDocument` replaces the first document whose `id` is
`documentID` and leaves the others in place. -/
theorem updateOneLoop_found {F : Type} (documentID now : String) (updateData : Document F)
    (before after : List (Document F)) (doc : Document F)
    (hbefore : ∀ d ∈ before, mapGet d "id" ≠ some (.str documentID))
    (hdoc : mapGet doc "id" = some (.str documentID)) :
    updateOneLoop documentID now updateData (before ++ doc :: after) =
      some (before ++ replaceDocument documentID now updateData doc :: after,
        replaceDocument documentID now updateData doc) := by
  induction before with
  | nil =>
    have h := (idMatches_iff doc documentID).mpr hdoc
    simp [updateOneLoop, h]
  | cons d rest ih =>
    have hd : idMatches d documentID = false := by
      cases h : idMatches d documentID with
      | false => rfl
      | true =>
        exact absurd ((idMatches_iff d documentID).mp h) (hbefore d (List.mem_cons_self _ _))
    have ih2 := ih (fun x hx => hbefore x (List.mem_cons_of_mem _ hx))
    simp [updateOneLoop, hd, ih2]

/-- The search loop of `updateOneDocument` finds nothing when no document has the
identifier. -/
theorem updateOneLoop_not_found {F : Type} (documentID now : String)
    (updateData : Document F) (data : List (Document F))
    (h : ∀ d ∈ data, mapGet d "id" ≠ some (.str documentID)) :
    updateOneLoop documentID now updateData data = none := by
  induction data with
  | nil => rfl
  | cons d rest ih =>
    have hd : idMatches d documentID = false := by
      cases hm : idMatches d documentID with
      | false => rfl
      | true =>
        exact absurd ((idMatches_iff d documentID).mp hm) (h d (List.mem_cons_self _ _))
    have ih2 := ih (fun x hx => h x (List.mem_cons_of_mem _ hx))
    simp [updateOneLoop, hd, ih2]

/-- C16, as stated, fails at the empty identifier: a document whose `id` is the empty
text can be stored (`AddMetadata` keeps the `id` of the body), and `updateOneDocument`
with the empty identifier then answers `400` and replaces nothing, although the
snapshot contains a document whose `id` equals the identifier. -/
theorem c16_empty_identifier_replaces_nothing :
    (insertOneDocument sampleGen sampleClock
      ([("id", .str ""), ("n", .num 1)] : Document fragLib.F) []).stored =
      [[("id", .str ""), ("n", .num 1), ("created_at", .str "2024-05-01T10:00:00Z"),
        ("updated_at", .str "2024-05-01T10:00:00Z")]] ∧
    mapGet ([("id", .str ""), ("n", .num 1), ("created_at", .str "2024-05-01T10:00:00Z"),
        ("updated_at", .str "2024-05-01T10:00:00Z")] : Document fragLib.F) "id" =
      some (.str "") ∧
    (updateOneDocument sampleClock "" ([("n", .num 2)] : Document fragLib.F)
      [[("id", .str ""), ("n", .num 1), ("created_at", .str "2024-05-01T10:00:00Z"),
        ("updated_at", .str "2024-05-01T10:00:00Z")]]).response =
      .error StatusBadRequest ∧
    (updateOneDocument sampleClock "" ([("n", .num 2)] : Document fragLib.F)
      [[("id", .str ""), ("n", .num 1), ("created_at", .str "2024-05-01T10:00:00Z"),
        ("updated_at", .str "2024-05-01T10:00:00Z")]]).stored =
      [[("id", .str ""), ("n", .num 1), ("created_at", .str "2024-05-01T10:00:00Z"),
        ("updated_at", .str "2024-05-01T10:00:00Z")]] :=
  ⟨rfl, rfl, rfl, rfl⟩

/-- C16, amended: `updateOneDocument` with a non-empty identifier `x` and replacement
`r`, on a snapshot whose first document with `id` equal to the text `x` is `doc`,
stores in that slot, and leaves every other slot as it was, a document whose `id` is
`x`, whose
`created_at` is that of `doc` when `doc` has one (and that of `r` otherwise), whose
`updated_at` is the current timestamp, and whose other fields are exactly those of `r`. -/
theorem c16_update_one {F : Type} (clock : Nat → String) (x : String) (r : Document F)
    (before after : List (Document F)) (doc : Document F) (hx : x ≠ "")
    (hbefore : ∀ d ∈ before, mapGet d "id" ≠ some (.str x))
    (hdoc : mapGet doc "id" = some (.str x)) :
    (updateOneDocument clock x r (before ++ doc :: after)).stored =
      before ++ replaceDocument x (clock 0) r doc :: after ∧
    (updateOneDocument clock x r (before ++ doc :: after)).response =
      .document (replaceDocument x (clock 0) r doc) ∧
    mapGet (replaceDocument x (clock 0) r doc) "id" = some (.str x) ∧
    (∀ c, mapGet doc "created_at" = some c →
      mapGet (replaceDocument x (clock 0) r doc) "created_at" = some c) ∧
    (mapGet doc "created_at" = none →
      mapGet (replaceDocument x (clock 0) r doc) "created_at" = mapGet r "created_at") ∧
    mapGet (replaceDocument x (clock 0) r doc) "updated_at" = some (.str (clock 0)) ∧
    (∀ k, k ≠ "id" → k ≠ "created_at" → k ≠ "updated_at" →
      mapGet (replaceDocument x (clock 0) r doc) k = mapGet r k) := by
  have hloop := updateOneLoop_found x (clock 0) r before after doc hbefore hdoc
  have h1 : ("id" : String) ≠ "created_at" := by decide
  have h2 : ("id" : String) ≠ "updated_at" := by decide
  have h3 : ("created_at" : String) ≠ "updated_at" := by decide
  refine ⟨?_, ?_, ?_, ?_, ?_, ?_, ?_⟩
  · simp [updateOneDocument, hx, hloop]
  · simp [updateOneDocument, hx, hloop]
  · unfold replaceDocument
    rw [mapGet_mapSet_ne _ _ _ _ h2]
    cases hc : mapGet doc "created_at" with
    | none => exact mapGet_mapSet_self _ _ _
    | some c =>
      show mapGet (mapSet (mapSet r "id" (.str x)) "created_at" c) "id" = _
      rw [mapGet_mapSet_ne _ _ _ _ h1]
      exact mapGet_mapSet_self _ _ _
  · intro c hc
    unfold replaceDocument
    rw [mapGet_mapSet_ne _ _ _ _ h3, hc]
    exact mapGet_mapSet_self _ _ _
  · intro hc
    unfold replaceDocument
    rw [mapGet_mapSet_ne _ _ _ _ h3, hc]
    exact mapGet_mapSet_ne _ _ _ _ (Ne.symm h1)
  · unfold replaceDocument
    exact mapGet_mapSet_self _ _ _
  · intro k hk1 hk2 hk3
    unfold replaceDocument
    rw [mapGet_mapSet_ne _ _ _ _ hk3]
    cases hc : mapGet doc "created_at" with
    | none => exact mapGet_mapSet_ne _ _ _ _ hk1
    | some c =>
      show mapGet (mapSet (mapSet r "id" (.str x)) "created_at" c) k = _
      rw [mapGet_mapSet_ne _ _ _ _ hk2]
      exact mapGet_mapSet_ne _ _ _ _ hk1

/-- C16, amended, at a concrete snapshot of three documents, the second and third
carrying the identifier `b`: only the second slot changes, and the field `n` of the original is gone. -/
theorem c16_update_one_witness :
    ("b" : String) ≠ "" ∧
    (updateOneDocument (fun _ => "2024-05-01T10:00:00Z") "b"
        ([("created_at", .str "2030-01-01T00:00:00Z"), ("m", .num 2)] : Document fragLib.F)
        ([[("id", .str "a")]] ++
          [("id", .str "b"), ("created_at", .str "2024-01-01T00:00:00Z"), ("n", .num 1)] ::
          [[("id", .str "b")]])).stored =
      [[("id", .str "a")],
       [("created_at", .str "2024-01-01T00:00:00Z"), ("m", .num 2), ("id", .str "b"),
        ("updated_at", .str "2024-05-01T10:00:00Z")],
       [("id", .str "b")]] :=
  ⟨by decide,
    (c16_update_one (fun _ => "2024-05-01T10:00:00Z") "b"
      ([("created_at", .str "2030-01-01T00:00:00Z"), ("m", .num 2)] : Document fragLib.F)
      [[("id", .str "a")]] [[("id", .str "b")]]
      [("id", .str "b"), ("created_at", .str "2024-01-01T00:00:00Z"), ("n", .num 1)]
      (by decide)
      (by intro d hd
          rw [List.mem_singleton] at hd
          rw [hd]
          simp [mapGet])
      rfl).1⟩

/-- The counter of the loop of `updateManyDocuments` is the number of matching documents. -/
theorem updateManyLoop_count (L : GoLib) (clock : Nat → String) (query : GoMap L.F)
    (update : Document L.F) (t : Nat) (data : List (Document L.F)) :
    (updateManyLoop L clock query update t data).updatedCount =
      data.countP (fun d => matchesQuery L d query) := by
  induction data generalizing t with
  | nil => rfl
  | cons doc rest ih =>
    cases h : matchesQuery L doc query
    · simp [updateManyLoop, h, ih]
    · simp [updateManyLoop, h, ih]

/-- The loop of `updateManyDocuments` keeps every slot in place: a matching document
is replaced by its merge, stamped with the clock reading that follows those of the
matches before it, and any other document is left as it was. -/
theorem updateManyLoop_slot (L : GoLib) (clock : Nat → String) (query : GoMap L.F)
    (update : Document L.F) (t : Nat) (data : List (Document L.F)) (i : Nat)
    (d : Document L.F) (h : data[i]? = some d) :
    (updateManyLoop L clock query update t data).data[i]? =
      some (if matchesQuery L d query then
        mergeDocument
          (clock (t + (data.take i).countP (fun x => matchesQuery L x query))) d update
        else d) := by
  induction data generalizing t i with
  | nil => simp at h
  | cons doc rest ih =>
    cases i with
    | zero =>
      simp only [List.getElem?_cons_zero, Option.some.injEq] at h
      subst h
      cases hm : matchesQuery L doc query <;> simp [updateManyLoop, hm]
    | succ j =>
      simp only [List.getElem?_cons_succ] at h
      cases hm : matchesQuery L doc query
      · simp [updateManyLoop, hm, ih t j h]
      · simp only [updateManyLoop, hm, if_true, List.getElem?_cons_succ, ih (t + 1) j h,
          List.take_succ_cons, List.countP_cons_of_pos]
        have e : t + 1 + List.countP (fun x => matchesQuery L x query) (List.take j rest) =
            t + (List.countP (fun x => matchesQuery L x query) (List.take j rest) + 1) := by
          omega
        rw [e]

/-- C17, as stated, fails at the empty identifier: no document of the snapshot has the
empty text as its `id`, and `updateOneDocument` with the empty identifier answers
`400`, not `404` (the snapshot is left as it was). -/
theorem c17_empty_identifier_is_bad_request :
    (∀ d ∈ ([[("id", .str "a")]] : List (Document fragLib.F)),
      mapGet d "id" ≠ some (.str "")) ∧
    (updateOneDocument sampleClock "" ([("n", .num 2)] : Document fragLib.F)
      [[("id", .str "a")]]).response = .error StatusBadRequest ∧
    StatusBadRequest ≠ StatusNotFound ∧
    (updateOneDocument sampleClock "" ([("n", .num 2)] : Document fragLib.F)
      [[("id", .str "a")]]).stored = [[("id", .str "a")]] := by
  refine ⟨?_, rfl, by decide, rfl⟩
  intro d hd
  rw [List.mem_singleton] at hd
  rw [hd]
  simp [mapGet]

/-- C17, amended: an update that finds no target answers `404` and leaves the stored
snapshot as it was: `updateOneDocument` when no document has the given non-empty
identifier, and
`updateManyDocuments` when no document matches the query; and when some document
matches, `updateManyDocuments` answers with a success whose count is the number of
matching documents, which is positive. -/
theorem c17_update_without_target (L : GoLib) (clock : Nat → String) :
    (∀ (x : String) (r : Document L.F) (data : List (Document L.F)), x ≠ "" →
      (∀ d ∈ data, mapGet d "id" ≠ some (.str x)) →
      (updateOneDocument clock x r data).response = .error StatusNotFound ∧
      (updateOneDocument clock x r data).stored = data) ∧
    (∀ (q : GoMap L.F) (p : Document L.F) (data : List (Document L.F)),
      (∀ d ∈ data, matchesQuery L d q = false) →
      (updateManyDocuments L clock (some q) p data).response = .error StatusNotFound ∧
      (updateManyDocuments L clock (some q) p data).stored = data) ∧
    (∀ (q : GoMap L.F) (p : Document L.F) (data : List (Document L.F)),
      (∃ d ∈ data, matchesQuery L d q = true) →
      0 < data.countP (fun d => matchesQuery L d q) ∧
      ∃ docs, (updateManyDocuments L clock (some q) p data).response =
        .documents (data.countP (fun d => matchesQuery L d q)) docs) := by
  refine ⟨?_, ?_, ?_⟩
  · intro x r data hx hno
    simp [updateOneDocument, hx, updateOneLoop_not_found x (clock 0) r data hno]
  · intro q p data hno
    have hc : data.countP (fun d => matchesQuery L d q) = 0 := by
      rw [List.countP_eq_zero]
      intro d hd
      simp [hno d hd]
    simp [updateManyDocuments, updateManyLoop_count, hc]
  · intro q p data hex
    have hc : 0 < data.countP (fun d => matchesQuery L d q) := by
      rw [List.countP_pos_iff]
      obtain ⟨d, hd, hm⟩ := hex
      exact ⟨d, hd, hm⟩
    refine ⟨hc, (updateManyLoop L clock q p 0 data).updatedDocs, ?_⟩
    have hne : data.countP (fun d => matchesQuery L d q) ≠ 0 := by omega
    simp [updateManyDocuments, updateManyLoop_count, hne]

/-- C17, amended, at concrete snapshots: an unknown identifier, a query that matches
nothing,
and a query that matches two of three documents. -/
theorem c17_update_without_target_witness :
    ("zz" : String) ≠ "" ∧
    (updateOneDocument (fun _ => "2024-05-01T10:00:00Z") "zz" [("n", .num 1)]
      ([[("id", .str "a")], [("id", .num 7)]] : List (Document fragLib.F))).response =
        .error StatusNotFound ∧
    (updateManyDocuments fragLib (fun _ => "2024-05-01T10:00:00Z")
      (some [("n", .num 9)]) [("m", .num 1)]
      [[("id", .str "a"), ("n", .num 1)]]).stored = [[("id", .str "a"), ("n", .num 1)]] ∧
    0 < ([[("n", .num 1)], [("n", .num 2)], [("n", .str "1")]] :
      List (Document fragLib.F)).countP (fun d => matchesQuery fragLib d [("n", .num 1)]) :=
  ⟨by decide,
    ((c17_update_without_target fragLib (fun _ => "2024-05-01T10:00:00Z")).1 "zz"
      [("n", .num 1)] [[("id", .str "a")], [("id", .num 7)]] (by decide)
      (by intro d hd
          simp only [List.mem_cons, List.mem_singleton, List.not_mem_nil, or_false] at hd
          rcases hd with rfl | rfl <;> simp [mapGet])).1,
    ((c17_update_without_target fragLib (fun _ => "2024-05-01T10:00:00Z")).2.1
      [("n", .num 9)] [("m", .num 1)] [[("id", .str "a"), ("n", .num 1)]]
      (by intro d hd
          rw [List.mem_singleton] at hd
          rw [hd]
          rfl)).2,
    ((c17_update_without_target fragLib (fun _ => "2024-05-01T10:00:00Z")).2.2
      [("n", .num 1)] [] [[("n", .num 1)], [("n", .num 2)], [("n", .str "1")]]
      ⟨[("n", .num 1)], List.mem_cons_self _ _, rfl⟩).1⟩

/-! ## Merging and stamping (C18, C19) -/

/-- Lookup in the result of the copy loop, for a source with distinct keys: the value
of the source where it has the key, the value of the destination elsewhere. -/
theorem mapGet_mapCopyInto {F : Type} (dst src : GoMap F) (key : String)
    (h : (keysOf src).Nodup) :
    mapGet (mapCopyInto dst src) key =
      (match mapGet src key with
        | some v => some v
        | none => mapGet dst key) := by
  induction src generalizing dst with
  | nil => rfl
  | cons e rest ih =>
    obtain ⟨k, v⟩ := e
    have hn : k ∉ keysOf rest ∧ (keysOf rest).Nodup := by
      simpa [keysOf] using h
    have hrest := ih (mapSet dst k v) hn.2
    by_cases hk : k = key
    · subst hk
      have hnone : mapGet rest k = none := by
        rw [mapGet_eq_none_iff]
        intro e he heq
        exact hn.1 (List.mem_map.mpr ⟨e, he, heq⟩)
      simp only [mapCopyInto, hrest, hnone, mapGet, if_true]
      exact mapGet_mapSet_self _ _ _
    · have hk2 : key ≠ k := fun e => hk e.symm
      simp only [mapCopyInto, hrest, mapGet, hk, if_false]
      cases mapGet rest key with
      | some x => rfl
      | none => exact mapGet_mapSet_ne _ _ _ _ hk2

/-- The fields of the document stored by `updateManyDocuments` for a matching
document; the maps are assumed to have distinct keys where the copy loops matter. -/
theorem mergeDocument_fields {F : Type} (now : String) (d p : Document F) :
    ((keysOf p).Nodup → (keysOf d).Nodup →
      ∀ k, k ≠ "id" → k ≠ "created_at" → k ≠ "updated_at" →
        (∀ v, mapGet p k = some v → mapGet (mergeDocument now d p) k = some v) ∧
        (mapGet p k = none → mapGet (mergeDocument now d p) k = mapGet d k)) ∧
    (∀ v, mapGet d "id" = some v → mapGet (mergeDocument now d p) "id" = some v) ∧
    (∀ c, mapGet d "created_at" = some c →
      mapGet (mergeDocument now d p) "created_at" = some c) ∧
    ((keysOf p).Nodup → (keysOf d).Nodup → mapGet d "created_at" = none →
      mapGet (mergeDocument now d p) "created_at" = mapGet p "created_at") ∧
    mapGet (mergeDocument now d p) "updated_at" = some (.str now) := by
  have h1 : ("id" : String) ≠ "created_at" := by decide
  have h2 : ("id" : String) ≠ "updated_at" := by decide
  have h3 : ("created_at" : String) ≠ "updated_at" := by decide
  have hcopy : (keysOf p).Nodup → (keysOf d).Nodup → ∀ k,
      (∀ v, mapGet p k = some v →
        mapGet (mapCopyInto (mapCopyInto [] d) p) k = some v) ∧
      (mapGet p k = none →
        mapGet (mapCopyInto (mapCopyInto [] d) p) k = mapGet d k) := by
    intro hp hd k
    rw [mapGet_mapCopyInto _ p k hp, mapGet_mapCopyInto _ d k hd]
    refine ⟨fun v hv => ?_, fun hv => ?_⟩
    · rw [hv]
    · rw [hv]
      cases mapGet d k <;> rfl
  refine ⟨?_, ?_, ?_, ?_, ?_⟩
  · intro hp hd k hk1 hk2 hk3
    have hsame : mapGet (mergeDocument now d p) k =
        mapGet (mapCopyInto (mapCopyInto [] d) p) k := by
      unfold mergeDocument
      rw [mapGet_mapSet_ne _ _ _ _ hk3]
      cases hc : mapGet d "created_at" with
      | none =>
        show mapGet (mapSet _ "id" _) k = _
        rw [mapGet_mapSet_ne _ _ _ _ hk1]
      | some c =>
        show mapGet (mapSet (mapSet _ "id" _) "created_at" c) k = _
        rw [mapGet_mapSet_ne _ _ _ _ hk2, mapGet_mapSet_ne _ _ _ _ hk1]
    rw [hsame]
    exact hcopy hp hd k
  · intro v hv
    have hidx : mapIndex d "id" = v := by simp [mapIndex, hv]
    unfold mergeDocument
    rw [mapGet_mapSet_ne _ _ _ _ h2]
    cases hc : mapGet d "created_at" with
    | none =>
      show mapGet (mapSet _ "id" _) "id" = _
      rw [mapGet_mapSet_self, hidx]
    | some c =>
      show mapGet (mapSet (mapSet _ "id" _) "created_at" c) "id" = _
      rw [mapGet_mapSet_ne _ _ _ _ h1, mapGet_mapSet_self, hidx]
  · intro c hc
    unfold mergeDocument
    rw [mapGet_mapSet_ne _ _ _ _ h3, hc]
    exact mapGet_mapSet_self _ _ _
  · intro hp hd hc
    unfold mergeDocument
    rw [mapGet_mapSet_ne _ _ _ _ h3, hc]
    show mapGet (mapSet _ "id" _) "created_at" = _
    rw [mapGet_mapSet_ne _ _ _ _ (Ne.symm h1)]
    cases hpc : mapGet p "created_at" with
    | some v => exact (hcopy hp hd "created_at").1 v hpc
    | none => rw [(hcopy hp hd "created_at").2 hpc, hc]
  · unfold mergeDocument
    exact mapGet_mapSet_self _ _ _

/-- A document that has `created_at` keeps it through any sequence of merges. -/
theorem mergeDocument_created_at_iterated {F : Type} (c : Value F)
    (merges : List (String × Document F)) (d : Document F)
    (hc : mapGet d "created_at" = some c) :
    mapGet (merges.foldl (fun doc e => mergeDocument e.1 doc e.2) d) "created_at" =
      some c := by
  induction merges generalizing d with
  | nil => exact hc
  | cons e rest ih =>
    simp only [List.foldl_cons]
    exact ih (mergeDocument e.1 d e.2) ((mergeDocument_fields e.1 d e.2).2.2.1 c hc)

/-- C18, as stated, fails: a matching document without `created_at` takes the
`created_at` of the patch, so its `created_at` is not the one (none) it had. -/
theorem c18_patch_sets_missing_created_at :
    mapGet ([("id", .str "a1")] : Document fragLib.F) "created_at" = none ∧
    (updateManyDocuments fragLib (fun _ => "2024-05-01T10:00:00Z") (some [])
        [("created_at", .str "2030-01-01T00:00:00Z")] [[("id", .str "a1")]]).stored =
      [[("id", .str "a1"), ("created_at", .str "2030-01-01T00:00:00Z"),
        ("updated_at", .str "2024-05-01T10:00:00Z")]] :=
  ⟨rfl, rfl⟩

/-- C18, amended: `updateManyDocuments` with query `q` and patch `p` stores, in the
slot of every document `d` matching `q`, a document in which each field other than
`id`, `created_at`, `updated_at` has the value of `p` if `p` has the field and that of
`d` otherwise; `id` is that of `d` when `d` has one and `created_at` is that of `d`
when `d` has one, whatever `p` supplies; a `d` without `created_at` takes that of `p`;
`updated_at` is a reading of the clock.  Hence the `created_at` of a document that
has one is the same after any number of merges. -/
theorem c18_update_many_merge (L : GoLib) (clock : Nat → String) (q : GoMap L.F)
    (p : Document L.F) (data : List (Document L.F)) (i : Nat) (d : Document L.F)
    (hp : (keysOf p).Nodup) (hd : (keysOf d).Nodup)
    (hi : data[i]? = some d) (hm : matchesQuery L d q = true) :
    (∃ t, (updateManyDocuments L clock (some q) p data).stored[i]? =
        some (mergeDocument (clock t) d p)) ∧
    (∀ now : String,
      (∀ k, k ≠ "id" → k ≠ "created_at" → k ≠ "updated_at" →
        (∀ v, mapGet p k = some v → mapGet (mergeDocument now d p) k = some v) ∧
        (mapGet p k = none → mapGet (mergeDocument now d p) k = mapGet d k)) ∧
      (∀ v, mapGet d "id" = some v → mapGet (mergeDocument now d p) "id" = some v) ∧
      (∀ c, mapGet d "created_at" = some c →
        mapGet (mergeDocument now d p) "created_at" = some c) ∧
      (mapGet d "created_at" = none →
        mapGet (mergeDocument now d p) "created_at" = mapGet p "created_at") ∧
      mapGet (mergeDocument now d p) "updated_at" = some (.str now)) ∧
    (∀ c, mapGet d "created_at" = some c →
      ∀ merges : List (String × Document L.F),
        mapGet (merges.foldl (fun doc e => mergeDocument e.1 doc e.2) d) "created_at" =
          some c) := by
  refine ⟨?_, ?_, ?_⟩
  · refine ⟨0 + (data.take i).countP (fun x => matchesQuery L x q), ?_⟩
    have hmem : d ∈ data := List.getElem?_mem hi
    have hc : data.countP (fun d => matchesQuery L d q) ≠ 0 := by
      have : 0 < data.countP (fun d => matchesQuery L d q) :=
        List.countP_pos_iff.mpr ⟨d, hmem, hm⟩
      omega
    have hslot := updateManyLoop_slot L clock q p 0 data i d hi
    simp only [hm, if_true] at hslot
    simp only [updateManyDocuments, updateManyLoop_count, hc, if_false]
    exact hslot
  · intro now
    have h := mergeDocument_fields now d p
    exact ⟨h.1 hp hd, h.2.1, h.2.2.1, h.2.2.2.1 hp hd, h.2.2.2.2⟩
  · intro c hc merges
    exact mergeDocument_created_at_iterated c merges d hc

/-- C18, amended, at a concrete snapshot: the second document matches, takes `m` from
the patch, keeps `n`, and keeps its `id` and `created_at` against those of the patch. -/
theorem c18_update_many_merge_witness :
    (keysOf ([("m", .num 5), ("id", .str "zz"), ("created_at", .str "2030-01-01T00:00:00Z")] :
      Document fragLib.F)).Nodup ∧
    (keysOf ([("id", .str "b"), ("created_at", .str "2024-01-01T00:00:00Z"), ("n", .num 1)] :
      Document fragLib.F)).Nodup ∧
    (updateManyDocuments fragLib (fun _ => "2024-05-01T10:00:00Z") (some [("n", .num 1)])
        [("m", .num 5), ("id", .str "zz"), ("created_at", .str "2030-01-01T00:00:00Z")]
        [[("id", .str "a"), ("n", .num 2)],
         [("id", .str "b"), ("created_at", .str "2024-01-01T00:00:00Z"), ("n", .num 1)]]).stored =
      [[("id", .str "a"), ("n", .num 2)],
       [("id", .str "b"), ("created_at", .str "2024-01-01T00:00:00Z"), ("n", .num 1),
        ("m", .num 5), ("updated_at", .str "2024-05-01T10:00:00Z")]] ∧
    mapGet (mergeDocument "2024-05-01T10:00:00Z"
        ([("id", .str "b"), ("created_at", .str "2024-01-01T00:00:00Z"), ("n", .num 1)] :
          Document fragLib.F)
        [("m", .num 5), ("id", .str "zz"), ("created_at", .str "2030-01-01T00:00:00Z")])
      "created_at" = some (.str "2024-01-01T00:00:00Z") :=
  ⟨by decide, by decide, rfl,
    ((c18_update_many_merge fragLib (fun _ => "2024-05-01T10:00:00Z") [("n", .num 1)]
      [("m", .num 5), ("id", .str "zz"), ("created_at", .str "2030-01-01T00:00:00Z")]
      [[("id", .str "a"), ("n", .num 2)],
       [("id", .str "b"), ("created_at", .str "2024-01-01T00:00:00Z"), ("n", .num 1)]]
      1 [("id", .str "b"), ("created_at", .str "2024-01-01T00:00:00Z"), ("n", .num 1)]
      (by decide) (by decide) rfl rfl).2.1 "2024-05-01T10:00:00Z").2.2.1
      (.str "2024-01-01T00:00:00Z") rfl⟩

/-- C19: `AddMetadata` with generated identifier `g` and timestamp `t` returns a
document whose fields other than `id`, `created_at`, `updated_at` are those of the
input, whose `id` is that of the input if it had one and `g` otherwise, whose
`created_at` is that of the input if it had one and `t` otherwise, and whose
`updated_at` is `t`; in particular the result has an `id`. -/
theorem c19_add_metadata {F : Type} (g t : String) (doc : Document F) :
    (∀ k, k ≠ "id" → k ≠ "created_at" → k ≠ "updated_at" →
      mapGet (AddMetadata g t doc) k = mapGet doc k) ∧
    (∀ v, mapGet doc "id" = some v → mapGet (AddMetadata g t doc) "id" = some v) ∧
    (mapGet doc "id" = none → mapGet (AddMetadata g t doc) "id" = some (.str g)) ∧
    (∀ c, mapGet doc "created_at" = some c →
      mapGet (AddMetadata g t doc) "created_at" = some c) ∧
    (mapGet doc "created_at" = none →
      mapGet (AddMetadata g t doc) "created_at" = some (.str t)) ∧
    mapGet (AddMetadata g t doc) "updated_at" = some (.str t) ∧
    (mapGet (AddMetadata g t doc) "id").isSome = true := by
  have h1 : ("id" : String) ≠ "created_at" := by decide
  have h2 : ("id" : String) ≠ "updated_at" := by decide
  have h3 : ("created_at" : String) ≠ "updated_at" := by decide
  have hid : ∀ k, k ≠ "id" →
      mapGet (match mapGet doc "id" with
        | none => mapSet doc "id" (.str g)
        | some _ => doc) k = mapGet doc k := by
    intro k hk
    cases mapGet doc "id" with
    | none => exact mapGet_mapSet_ne _ _ _ _ hk
    | some v => rfl
  have hca : ∀ (m : Document F) (k : String), k ≠ "created_at" →
      mapGet (match mapGet m "created_at" with
        | none => mapSet m "created_at" (.str t)
        | some _ => m) k = mapGet m k := by
    intro m k hk
    cases mapGet m "created_at" with
    | none => exact mapGet_mapSet_ne _ _ _ _ hk
    | some v => rfl
  have hidv : ∀ v, mapGet doc "id" = some v → mapGet (AddMetadata g t doc) "id" = some v := by
    intro v hv
    unfold AddMetadata
    rw [mapGet_mapSet_ne _ _ _ _ h2, hca _ _ h1, hv]
    exact hv
  have hidn : mapGet doc "id" = none →
      mapGet (AddMetadata g t doc) "id" = some (.str g) := by
    intro hv
    unfold AddMetadata
    rw [mapGet_mapSet_ne _ _ _ _ h2, hca _ _ h1, hv]
    exact mapGet_mapSet_self _ _ _
  refine ⟨?_, hidv, hidn, ?_, ?_, ?_, ?_⟩
  · intro k hk1 hk2 hk3
    unfold AddMetadata
    rw [mapGet_mapSet_ne _ _ _ _ hk3, hca _ _ hk2, hid k hk1]
  · intro c hc
    unfold AddMetadata
    rw [mapGet_mapSet_ne _ _ _ _ h3]
    have hc1 : mapGet (match mapGet doc "id" with
        | none => mapSet doc "id" (.str g)
        | some _ => doc) "created_at" = some c := by
      rw [hid _ (Ne.symm h1)]; exact hc
    simp only [hc1]
  · intro hc
    unfold AddMetadata
    rw [mapGet_mapSet_ne _ _ _ _ h3]
    have hc1 : mapGet (match mapGet doc "id" with
        | none => mapSet doc "id" (.str g)
        | some _ => doc) "created_at" = none := by
      rw [hid _ (Ne.symm h1)]; exact hc
    simp only [hc1]
    exact mapGet_mapSet_self _ _ _
  · unfold AddMetadata
    exact mapGet_mapSet_self _ _ _
  · cases hv : mapGet doc "id" with
    | none => rw [hidn hv]; rfl
    | some v => rw [hidv v hv]; rfl

/-- C19 at a concrete document that carries its own `created_at` and `updated_at`
but no `id`. -/
theorem c19_add_metadata_witness :
    mapGet ([("n", .num 1), ("created_at", .str "2020-01-01T00:00:00Z"),
      ("updated_at", .str "2020-02-02T00:00:00Z")] : Document fragLib.F) "id" = none ∧
    AddMetadata "0b1e" "2024-05-01T10:00:00Z"
        ([("n", .num 1), ("created_at", .str "2020-01-01T00:00:00Z"),
          ("updated_at", .str "2020-02-02T00:00:00Z")] : Document fragLib.F) =
      [("n", .num 1), ("created_at", .str "2020-01-01T00:00:00Z"),
        ("updated_at", .str "2024-05-01T10:00:00Z"), ("id", .str "0b1e")] ∧
    mapGet (AddMetadata "0b1e" "2024-05-01T10:00:00Z"
        ([("n", .num 1), ("created_at", .str "2020-01-01T00:00:00Z"),
          ("updated_at", .str "2020-02-02T00:00:00Z")] : Document fragLib.F)) "id" =
      some (.str "0b1e") :=
  ⟨rfl, rfl,
    (c19_add_metadata "0b1e" "2024-05-01T10:00:00Z"
      ([("n", .num 1), ("created_at", .str "2020-01-01T00:00:00Z"),
        ("updated_at", .str "2020-02-02T00:00:00Z")] : Document fragLib.F)).2.2.1 rfl⟩

/-! ## Identifier uniqueness (C20) -/

/-- The document stored by `updateOneDocument` carries the identifier searched for. -/
theorem replaceDocument_id {F : Type} (x now : String) (r doc : Document F) :
    mapGet (replaceDocument x now r doc) "id" = some (.str x) := by
  have h1 : ("id" : String) ≠ "created_at" := by decide
  have h2 : ("id" : String) ≠ "updated_at" := by decide
  unfold replaceDocument
  rw [mapGet_mapSet_ne _ _ _ _ h2]
  cases hc : mapGet doc "created_at" with
  | none => exact mapGet_mapSet_self _ _ _
  | some c =>
    show mapGet (mapSet (mapSet r "id" (.str x)) "created_at" c) "id" = _
    rw [mapGet_mapSet_ne _ _ _ _ h1]
    exact mapGet_mapSet_self _ _ _

/-- The search loop of `updateOneDocument` does not change the identifiers. -/
theorem updateOneLoop_ids {F : Type} (x now : String) (r : Document F)
    (data : List (Document F)) (res : List (Document F) × Document F)
    (h : updateOneLoop x now r data = some res) : idsOf res.1 = idsOf data := by
  induction data generalizing res with
  | nil => simp [updateOneLoop] at h
  | cons doc rest ih =>
    cases hm : idMatches doc x with
    | true =>
      simp only [updateOneLoop, hm, if_true, Option.some.injEq] at h
      subst h
      simp [idsOf, replaceDocument_id, (idMatches_iff doc x).mp hm]
    | false =>
      cases hr : updateOneLoop x now r rest with
      | none => simp [updateOneLoop, hm, hr] at h
      | some r2 =>
        simp only [updateOneLoop, hm, hr, Bool.false_eq_true, if_false,
          Option.some.injEq] at h
        subst h
        have := ih r2 hr
        simp only [idsOf] at this
        simp [idsOf, this]

/-- The loop of `updateManyDocuments` does not change the identifiers of a snapshot
in which every document has one. -/
theorem updateManyLoop_ids (L : GoLib) (clock : Nat → String) (q : GoMap L.F)
    (p : Document L.F) (t : Nat) (data : List (Document L.F))
    (h : none ∉ idsOf data) :
    idsOf (updateManyLoop L clock q p t data).data = idsOf data := by
  induction data generalizing t with
  | nil => rfl
  | cons doc rest ih =>
    have hrest : none ∉ idsOf rest := by
      intro hn
      exact h (List.mem_cons_of_mem _ hn)
    cases hm : matchesQuery L doc q with
    | false =>
      have := ih t hrest
      simp only [idsOf] at this
      simp [updateManyLoop, hm, idsOf, this]
    | true =>
      have := ih (t + 1) hrest
      simp only [idsOf] at this
      cases hv : mapGet doc "id" with
      | none =>
        exact absurd (by simp [idsOf, hv]) h
      | some v =>
        have hid := (mergeDocument_fields (clock t) doc p).2.1 v hv
        simp [updateManyLoop, hm, idsOf, this, hid, hv]

/-- The identifier of a stamped document. -/
theorem addMetadata_id {F : Type} (g t : String) (doc : Document F) :
    (∀ v, mapGet doc "id" = some v → mapGet (AddMetadata g t doc) "id" = some v) ∧
    (mapGet doc "id" = none → mapGet (AddMetadata g t doc) "id" = some (.str g)) := by
  have h1 : ("id" : String) ≠ "created_at" := by decide
  have h2 : ("id" : String) ≠ "updated_at" := by decide
  have hca : ∀ (m : Document F),
      mapGet (match mapGet m "created_at" with
        | none => mapSet m "created_at" (.str t)
        | some _ => m) "id" = mapGet m "id" := by
    intro m
    cases mapGet m "created_at" with
    | none => exact mapGet_mapSet_ne _ _ _ _ h1
    | some v => rfl
  refine ⟨?_, ?_⟩
  · intro v hv
    unfold AddMetadata
    rw [mapGet_mapSet_ne _ _ _ _ h2, hca, hv]
    exact hv
  · intro hv
    unfold AddMetadata
    rw [mapGet_mapSet_ne _ _ _ _ h2, hca, hv]
    exact mapGet_mapSet_self _ _ _

/-- The identifier of each stamped document of a batch is one the body supplies or one
the generator returns at a call not made before. -/
theorem addMetadataAll_ids_mem {F : Type} (gen clock : Nat → String) (i t : Nat)
    (docs : List (Document F)) (o : Option (Value F))
    (h : o ∈ idsOf (addMetadataAll gen clock i t docs)) :
    (∃ v ∈ suppliedIds docs, o = some v) ∨ (∃ k, i ≤ k ∧ o = some (.str (gen k))) := by
  induction docs generalizing i t with
  | nil => simp [addMetadataAll, idsOf] at h
  | cons doc rest ih =>
    simp only [addMetadataAll, idsOf, List.map_cons, List.mem_cons] at h
    rcases h with h | h
    · cases hv : mapGet doc "id" with
      | some v =>
        left
        refine ⟨v, ?_, ?_⟩
        · simp [suppliedIds, List.filterMap_cons, hv]
        · rw [h]; exact (addMetadata_id (gen i) (clock t) doc).1 v hv
      | none =>
        right
        exact ⟨i, Nat.le_refl i, by rw [h]; exact (addMetadata_id (gen i) (clock t) doc).2 hv⟩
    · rcases ih _ _ h with ⟨v, hv, ho⟩ | ⟨k, hk, ho⟩
      · left
        refine ⟨v, ?_, ho⟩
        cases hd : mapGet doc "id" with
        | some w =>
          simp only [suppliedIds, List.filterMap_cons, hd]
          exact List.mem_cons_of_mem _ hv
        | none =>
          simp only [suppliedIds, List.filterMap_cons, hd]
          exact hv
      · right
        refine ⟨k, ?_, ho⟩
        cases hd : mapGet doc "id" with
        | some w => simpa [hd] using hk
        | none =>
          have : i + 1 ≤ k := by simpa [hd] using hk
          omega

/-- The stamped documents of a batch have pairwise distinct identifiers when the
generator never repeats and the supplied identifiers are pairwise distinct and never
generated. -/
theorem addMetadataAll_ids_nodup {F : Type} (gen clock : Nat → String)
    (hinj : Function.Injective gen) (i t : Nat) (docs : List (Document F))
    (hsup : (suppliedIds docs).Nodup)
    (hgen : ∀ k, Value.str (gen k) ∉ suppliedIds docs) :
    (idsOf (addMetadataAll gen clock i t docs)).Nodup := by
  induction docs generalizing i t with
  | nil => simp [addMetadataAll, idsOf]
  | cons doc rest ih =>
    simp only [addMetadataAll, idsOf, List.map_cons, List.nodup_cons]
    cases hv : mapGet doc "id" with
    | some v =>
      have hs : suppliedIds (doc :: rest) = v :: suppliedIds rest := by
        simp [suppliedIds, List.filterMap_cons, hv]
      rw [hs, List.nodup_cons] at hsup
      have hgen2 : ∀ k, Value.str (gen k) ∉ suppliedIds rest := by
        intro k hk
        exact hgen k (by rw [hs]; exact List.mem_cons_of_mem _ hk)
      refine ⟨?_, ih _ _ hsup.2 hgen2⟩
      rw [(addMetadata_id (gen i) (clock t) doc).1 v hv]
      intro hmem
      rcases addMetadataAll_ids_mem gen clock _ _ rest _ hmem with ⟨w, hw, ho⟩ | ⟨k, _, ho⟩
      · rw [Option.some.injEq] at ho
        rw [ho] at hsup
        exact hsup.1 hw
      · rw [Option.some.injEq] at ho
        exact hgen k (by rw [hs, ← ho]; exact List.mem_cons_self _ _)
    | none =>
      have hs : suppliedIds (doc :: rest) = suppliedIds rest := by
        simp [suppliedIds, List.filterMap_cons, hv]
      rw [hs] at hsup hgen
      refine ⟨?_, ih _ _ hsup hgen⟩
      rw [(addMetadata_id (gen i) (clock t) doc).2 hv]
      intro hmem
      rcases addMetadataAll_ids_mem gen clock _ _ rest _ hmem with ⟨w, hw, ho⟩ | ⟨k, hk, ho⟩
      · rw [Option.some.injEq] at ho
        exact hgen i (by rw [ho]; exact hw)
      · rw [Option.some.injEq, Value.str.injEq] at ho
        have := hinj ho
        simp at hk
        omega

/-- C20, as stated, fails: inserting a body that carries the `id` of a stored document
keeps that `id`, so the persisted snapshot has the same `id` twice. -/
theorem c20_insert_keeps_supplied_id :
    DistinctIds ([[("id", .str "a")]] : List (Document fragLib.F)) ∧
    ¬ DistinctIds (insertOneDocument sampleGen sampleClock [("id", .str "a")]
      ([[("id", .str "a")]] : List (Document fragLib.F))).stored := by
  refine ⟨?_, ?_⟩
  · simp [DistinctIds, idsOf, mapGet]
  · intro h
    have hids : idsOf (insertOneDocument sampleGen sampleClock [("id", .str "a")]
        ([[("id", .str "a")]] : List (Document fragLib.F))).stored =
        [some (.str "a"), some (.str "a")] := rfl
    rw [DistinctIds, hids] at h
    exact (List.nodup_cons.mp h.2).1 (List.mem_singleton.mpr rfl)

/-- C20, amended: from a snapshot in which every document has an `id` and the `id`s are
pairwise distinct, with a generator that never repeats and never returns an `id` of
the snapshot, the snapshot persisted by `updateOneDocument` and by
`updateManyDocuments`, for every request, has the same property; that persisted by
`insertManyDocuments` and by `insertOneDocument` has it provided the `id`s that the
body itself supplies are pairwise distinct, not in the snapshot and never generated. -/
theorem c20_distinct_ids (L : GoLib) (gen clock : Nat → String)
    (data : List (Document L.F)) (hdata : DistinctIds data)
    (hinj : Function.Injective gen)
    (hfresh : ∀ k, some (Value.str (gen k)) ∉ idsOf data) :
    (∀ (x : String) (r : Document L.F),
      DistinctIds (updateOneDocument clock x r data).stored) ∧
    (∀ (q : Option (GoMap L.F)) (p : Document L.F),
      DistinctIds (updateManyDocuments L clock q p data).stored) ∧
    (∀ newDocuments : List (Document L.F),
      (suppliedIds newDocuments).Nodup →
      (∀ v ∈ suppliedIds newDocuments, some v ∉ idsOf data) →
      (∀ k, Value.str (gen k) ∉ suppliedIds newDocuments) →
      DistinctIds (insertManyDocuments gen clock newDocuments data).stored) ∧
    (∀ newData : Document L.F,
      (∀ v, mapGet newData "id" = some v → some v ∉ idsOf data) →
      DistinctIds (insertOneDocument gen clock newData data).stored) := by
  have hsame : ∀ stored : List (Document L.F), idsOf stored = idsOf data →
      DistinctIds stored := by
    intro stored h
    unfold DistinctIds
    rw [h]
    exact hdata
  have happ : ∀ added : List (Document L.F), none ∉ idsOf added →
      (idsOf added).Nodup → (∀ o ∈ idsOf added, o ∉ idsOf data) →
      DistinctIds (data ++ added) := by
    intro added h1 h2 h3
    unfold DistinctIds
    have e : idsOf (data ++ added) = idsOf data ++ idsOf added := by
      simp [idsOf]
    rw [e]
    refine ⟨?_, ?_⟩
    · intro hn
      rcases List.mem_append.mp hn with hn | hn
      · exact hdata.1 hn
      · exact h1 hn
    · rw [List.nodup_append]
      refine ⟨hdata.2, h2, ?_⟩
      intro o ho1 ho2
      exact h3 o ho2 ho1
  refine ⟨?_, ?_, ?_, ?_⟩
  · intro x r
    unfold updateOneDocument
    by_cases hx : x = ""
    · rw [if_pos hx]; exact hdata
    · rw [if_neg hx]
      cases hl : updateOneLoop x (clock 0) r data with
      | none => exact hdata
      | some res => exact hsame _ (updateOneLoop_ids x (clock 0) r data res hl)
  · intro q p
    cases q with
    | none => exact hdata
    | some q =>
      simp only [updateManyDocuments]
      split
      · exact hdata
      · exact hsame _ (updateManyLoop_ids L clock q p 0 data hdata.1)
  · intro newDocuments hsup hnew hgen
    show DistinctIds (data ++ addMetadataAll gen clock 0 0 newDocuments)
    apply happ
    · intro hn
      rcases addMetadataAll_ids_mem gen clock 0 0 newDocuments none hn with
        ⟨v, _, ho⟩ | ⟨k, _, ho⟩
      · exact absurd ho (by simp)
      · exact absurd ho (by simp)
    · exact addMetadataAll_ids_nodup gen clock hinj 0 0 newDocuments hsup hgen
    · intro o ho
      rcases addMetadataAll_ids_mem gen clock 0 0 newDocuments o ho with
        ⟨v, hv, ho⟩ | ⟨k, _, ho⟩
      · rw [ho]; exact hnew v hv
      · rw [ho]; exact hfresh k
  · intro newData hnew
    show DistinctIds (data ++ [AddMetadata (gen 0) (clock 0) newData])
    have hid := addMetadata_id (gen 0) (clock 0) newData
    apply happ
    · intro hn
      simp only [idsOf, List.map_cons, List.map_nil, List.mem_singleton] at hn
      cases hv : mapGet newData "id" with
      | some v => rw [hid.1 v hv] at hn; exact absurd hn (by simp)
      | none => rw [hid.2 hv] at hn; exact absurd hn (by simp)
    · simp [idsOf]
    · intro o ho
      simp only [idsOf, List.map_cons, List.map_nil, List.mem_singleton] at ho
      cases hv : mapGet newData "id" with
      | some v =>
        rw [hid.1 v hv] at ho
        rw [ho]
        exact hnew v hv
      | none =>
        rw [hid.2 hv] at ho
        rw [ho]
        exact hfresh 0

/-- The sample generator never repeats. -/
theorem sampleGen_injective : Function.Injective sampleGen := by
  intro a b h
  have h2 := congrArg (fun s => s.data.length) h
  simpa [sampleGen] using h2

/-- C20, amended, at a concrete snapshot with the identifiers `a` and `b`: a batch of
two documents, one without `id` and one with the new `id` `c`, is inserted. -/
theorem c20_distinct_ids_witness :
    DistinctIds ([[("id", .str "a")], [("id", .str "b"), ("n", .num 1)]] :
      List (Document fragLib.F)) ∧
    Function.Injective sampleGen ∧
    DistinctIds (insertManyDocuments sampleGen sampleClock
      [[("n", .num 2)], [("id", .str "c")]]
      ([[("id", .str "a")], [("id", .str "b"), ("n", .num 1)]] :
        List (Document fragLib.F))).stored := by
  have hdata : DistinctIds ([[("id", .str "a")], [("id", .str "b"), ("n", .num 1)]] :
      List (Document fragLib.F)) := by
    simp [DistinctIds, idsOf, mapGet]
  have hne : ∀ (k : Nat) (c : Char), c ≠ 'g' →
      sampleGen k ≠ String.mk [c] := by
    intro k c hc h
    have h2 := congrArg String.data h
    simp only [sampleGen, List.replicate_succ, List.cons.injEq] at h2
    exact hc h2.1.symm
  refine ⟨hdata, sampleGen_injective, ?_⟩
  refine (c20_distinct_ids fragLib sampleGen sampleClock _ hdata sampleGen_injective ?_).2.2.1
    [[("n", .num 2)], [("id", .str "c")]] ?_ ?_ ?_
  · intro k hk
    simp only [idsOf, mapGet, List.map_cons, List.map_nil, List.mem_cons, List.mem_singleton,
      if_true, Option.some.injEq, Value.str.injEq, List.not_mem_nil, or_false] at hk
    rcases hk with hk | hk
    · exact hne k 'a' (by decide) hk
    · exact hne k 'b' (by decide) hk
  · simp [suppliedIds, mapGet]
  · intro v hv
    simp only [suppliedIds, mapGet, List.filterMap_cons, List.filterMap_nil] at hv
    simp at hv
    rw [hv]
    simp [idsOf, mapGet]
  · intro k hk
    simp only [suppliedIds, mapGet, List.filterMap_cons, List.filterMap_nil] at hk
    simp at hk
    exact hne k 'c' (by decide) hk

/-! ## The two equality operators compared (C28) -/

/-- C28, as stated, fails: on the document `name: x` the operator-objects `$eq: x` and
`$ne: x` give different results. -/
theorem c28_eq_and_ne_differ :
    matchesOperators fragLib [("name", .str "x")] "name" [("$eq", .str "x")] = false ∧
    matchesOperators fragLib [("name", .str "x")] "name" [("$ne", .str "x")] = true :=
  ⟨rfl, rfl⟩

/-- C28, amended: on a document that has the queried field, for every operand `v`, the
operator-objects `$eq: v` and `$ne: v` give opposite results in `matchesOperators`:
exactly one of the two matches. -/
theorem c28_eq_ne_opposite (L : GoLib) (doc : Document L.F) (field : String)
    (d v : Value L.F) (hd : mapGet doc field = some d) :
    matchesOperators L doc field [("$eq", v)] =
      !matchesOperators L doc field [("$ne", v)] := by
  rw [matchesOperators_single L doc field d hd, matchesOperators_single L doc field d hd]
  by_cases h : sprint L d = sprint L v
  · simp [operatorHolds, h]
  · simp [operatorHolds, h]

/-- C28, amended, at a concrete document, with an operand of another rendering. -/
theorem c28_eq_ne_opposite_witness :
    mapGet ([("name", .str "x")] : Document fragLib.F) "name" = some (.str "x") ∧
    matchesOperators fragLib [("name", .str "x")] "name" [("$eq", .str "y")] =
      !matchesOperators fragLib [("name", .str "x")] "name" [("$ne", .str "y")] :=
  ⟨rfl, c28_eq_ne_opposite fragLib [("name", .str "x")] "name" (.str "x") (.str "y") rfl⟩

/-! ## Writes keep the slots in place (C22) -/

/-- The stamping loop of `insertManyDocuments` keeps the number and the order of the
documents: the `j`-th result is the stamp of the `j`-th document, with the `j`-th
reading of the clock that follows. -/
theorem addMetadataAll_slot {F : Type} (gen clock : Nat → String) (i t : Nat)
    (docs : List (Document F)) :
    (addMetadataAll gen clock i t docs).length = docs.length ∧
    ∀ (j : Nat) (d : Document F), docs[j]? = some d →
      ∃ g, (addMetadataAll gen clock i t docs)[j]? =
        some (AddMetadata g (clock (t + j)) d) := by
  induction docs generalizing i t with
  | nil => simp [addMetadataAll]
  | cons doc rest ih =>
    refine ⟨by simp [addMetadataAll, (ih _ _).1], ?_⟩
    intro j d hj
    cases j with
    | zero =>
      simp only [List.getElem?_cons_zero, Option.some.injEq] at hj
      subst hj
      exact ⟨gen i, by simp [addMetadataAll]⟩
    | succ k =>
      simp only [List.getElem?_cons_succ] at hj
      obtain ⟨g, hg⟩ := (ih (if (mapGet doc "id").isSome then i else i + 1) (t + 1)).2 k d hj
      refine ⟨g, ?_⟩
      have e : t + 1 + k = t + (k + 1) := by omega
      simp only [addMetadataAll, List.getElem?_cons_succ, hg, e]

/-- The search loop of `updateOneDocument` keeps the length of the sequence and every
slot other than the first one whose document has the identifier. -/
theorem updateOneLoop_frame {F : Type} (x now : String) (r : Document F)
    (data : List (Document F)) (res : List (Document F) × Document F)
    (h : updateOneLoop x now r data = some res) :
    res.1.length = data.length ∧
    ∀ (i : Nat) (d : Document F), data[i]? = some d →
      (mapGet d "id" ≠ some (.str x) ∨
        ∃ j e, j < i ∧ data[j]? = some e ∧ mapGet e "id" = some (.str x)) →
      res.1[i]? = some d := by
  induction data generalizing res with
  | nil => simp [updateOneLoop] at h
  | cons doc rest ih =>
    cases hm : idMatches doc x with
    | true =>
      simp only [updateOneLoop, hm, if_true, Option.some.injEq] at h
      subst h
      refine ⟨by simp, ?_⟩
      intro i d hi hnot
      cases i with
      | zero =>
        simp only [List.getElem?_cons_zero, Option.some.injEq] at hi
        subst hi
        rcases hnot with hne | ⟨j, e, hj, _, _⟩
        · exact absurd ((idMatches_iff doc x).mp hm) hne
        · omega
      | succ k =>
        simpa using hi
    | false =>
      cases hr : updateOneLoop x now r rest with
      | none => simp [updateOneLoop, hm, hr] at h
      | some r2 =>
        simp only [updateOneLoop, hm, hr, Bool.false_eq_true, if_false,
          Option.some.injEq] at h
        subst h
        obtain ⟨hlen, hslot⟩ := ih r2 hr
        refine ⟨by simp [hlen], ?_⟩
        intro i d hi hnot
        cases i with
        | zero => simpa using hi
        | succ k =>
          simp only [List.getElem?_cons_succ] at hi ⊢
          apply hslot k d hi
          rcases hnot with hne | ⟨j, e, hj, he, hid⟩
          · exact Or.inl hne
          · cases j with
            | zero =>
              simp only [List.getElem?_cons_zero, Option.some.injEq] at he
              subst he
              have := (idMatches_iff doc x).mpr hid
              rw [hm] at this
              exact absurd this (by simp)
            | succ j2 =>
              simp only [List.getElem?_cons_succ] at he
              exact Or.inr ⟨j2, e, by omega, he, hid⟩

/-- The loop of `updateManyDocuments` keeps the length of the sequence. -/
theorem updateManyLoop_length (L : GoLib) (clock : Nat → String) (q : GoMap L.F)
    (p : Document L.F) (t : Nat) (data : List (Document L.F)) :
    (updateManyLoop L clock q p t data).data.length = data.length := by
  induction data generalizing t with
  | nil => rfl
  | cons doc rest ih =>
    cases hm : matchesQuery L doc q <;> simp [updateManyLoop, hm, ih]

/-- C22: every write keeps the existing slots in place.  `insertOneDocument` and
`insertManyDocuments` leave each stored document at its index and put the stamped new
documents after them, in the order of the body; `updateOneDocument` and
`updateManyDocuments` keep the length of the sequence and leave at its index every
document that is not an update target (for update-one: that has not the identifier,
or comes after a document that has it; for update-many: that does not match). -/
theorem c22_writes_keep_slots (L : GoLib) (gen clock : Nat → String)
    (data : List (Document L.F)) :
    (∀ newData : Document L.F,
      (insertOneDocument gen clock newData data).stored.length = data.length + 1 ∧
      (∀ (i : Nat) (d : Document L.F), data[i]? = some d →
        (insertOneDocument gen clock newData data).stored[i]? = some d) ∧
      (insertOneDocument gen clock newData data).stored[data.length]? =
        some (AddMetadata (gen 0) (clock 0) newData)) ∧
    (∀ newDocuments : List (Document L.F),
      (insertManyDocuments gen clock newDocuments data).stored.length =
        data.length + newDocuments.length ∧
      (∀ (i : Nat) (d : Document L.F), data[i]? = some d →
        (insertManyDocuments gen clock newDocuments data).stored[i]? = some d) ∧
      (∀ (j : Nat) (d : Document L.F), newDocuments[j]? = some d →
        ∃ g, (insertManyDocuments gen clock newDocuments data).stored[data.length + j]? =
          some (AddMetadata g (clock j) d))) ∧
    (∀ (x : String) (r : Document L.F),
      (updateOneDocument clock x r data).stored.length = data.length ∧
      (∀ (i : Nat) (d : Document L.F), data[i]? = some d →
        (mapGet d "id" ≠ some (.str x) ∨
          ∃ j e, j < i ∧ data[j]? = some e ∧ mapGet e "id" = some (.str x)) →
        (updateOneDocument clock x r data).stored[i]? = some d)) ∧
    (∀ (q : GoMap L.F) (p : Document L.F),
      (updateManyDocuments L clock (some q) p data).stored.length = data.length ∧
      (∀ (i : Nat) (d : Document L.F), data[i]? = some d →
        matchesQuery L d q = false →
        (updateManyDocuments L clock (some q) p data).stored[i]? = some d)) := by
  have hpre : ∀ (added : List (Document L.F)) (i : Nat) (d : Document L.F),
      data[i]? = some d → (data ++ added)[i]? = some d := by
    intro added i d hi
    have hlt : i < data.length := by
      rcases List.getElem?_eq_some.mp hi with ⟨h, _⟩
      exact h
    rw [List.getElem?_append_left hlt]
    exact hi
  refine ⟨?_, ?_, ?_, ?_⟩
  · intro newData
    refine ⟨by simp [insertOneDocument], ?_, ?_⟩
    · intro i d hi
      exact hpre _ i d hi
    · simp [insertOneDocument]
  · intro newDocuments
    have hs := addMetadataAll_slot gen clock 0 0 newDocuments
    refine ⟨by simp [insertManyDocuments, hs.1], ?_, ?_⟩
    · intro i d hi
      exact hpre _ i d hi
    · intro j d hj
      obtain ⟨g, hg⟩ := hs.2 j d hj
      refine ⟨g, ?_⟩
      show (data ++ addMetadataAll gen clock 0 0 newDocuments)[data.length + j]? = _
      rw [List.getElem?_append_right (by omega)]
      simpa using hg
  · intro x r
    unfold updateOneDocument
    by_cases hx : x = ""
    · rw [if_pos hx]
      exact ⟨rfl, fun i d hi _ => hi⟩
    · rw [if_neg hx]
      cases hl : updateOneLoop x (clock 0) r data with
      | none => exact ⟨rfl, fun i d hi _ => hi⟩
      | some res => exact updateOneLoop_frame x (clock 0) r data res hl
  · intro q p
    simp only [updateManyDocuments]
    split
    · exact ⟨rfl, fun i d hi _ => hi⟩
    · refine ⟨updateManyLoop_length L clock q p 0 data, ?_⟩
      intro i d hi hm
      have := updateManyLoop_slot L clock q p 0 data i d hi
      simpa [hm] using this

/-- C22 at a concrete snapshot of two documents: a batch of two is appended in order,
and an update of the identifier `b` leaves the first slot as it was. -/
theorem c22_writes_keep_slots_witness :
    (insertManyDocuments sampleGen sampleClock [[("n", .num 3)], [("n", .num 4)]]
      ([[("id", .str "a")], [("id", .str "b")]] : List (Document fragLib.F))).stored.length =
      2 + 2 ∧
    ([[("id", .str "a")], [("id", .str "b")]] : List (Document fragLib.F))[0]? =
      some [("id", .str "a")] ∧
    (updateOneDocument sampleClock "b" [("n", .num 5)]
      ([[("id", .str "a")], [("id", .str "b")]] : List (Document fragLib.F))).stored[0]? =
      some [("id", .str "a")] :=
  ⟨((c22_writes_keep_slots fragLib sampleGen sampleClock
      [[("id", .str "a")], [("id", .str "b")]]).2.1 [[("n", .num 3)], [("n", .num 4)]]).1,
    rfl,
    ((c22_writes_keep_slots fragLib sampleGen sampleClock
      [[("id", .str "a")], [("id", .str "b")]]).2.2.1 "b" [("n", .num 5)]).2 0
      [("id", .str "a")] rfl (Or.inl (by simp [mapGet]))⟩

/-! ## Pagination (C23, C29) -/

/-- An `int` operation whose exact value is in range returns that value. -/
theorem wrapInt_of_range (n : Int) (h1 : minInt ≤ n) (h2 : n ≤ maxInt) : wrapInt n = n := by
  simp only [wrapInt, minInt, maxInt] at *
  omega

/-- A slice expression with bounds in order and within the length does not panic. -/
theorem sliceRange_nat {α : Type} (R : List α) (a b : Nat) (h1 : a ≤ b)
    (h2 : b ≤ R.length) :
    sliceRange R (a : Int) (b : Int) = some ((R.drop a).take (b - a)) := by
  have e : ((b : Int) - (a : Int)).toNat = b - a := by omega
  have c : 0 ≤ (a : Int) ∧ (a : Int) ≤ (b : Int) ∧ (b : Int) ≤ (R.length : Int) := by omega
  simp [sliceRange, c, e]

/-- The result of `strconv.Atoi` on the empty text. -/
theorem atoi_empty : atoi "" = (0, false) := by decide

/-- The pagination step returns the page of the specification, for a skip that is not
negative and while `skipCount + limitCount` does not overflow. -/
theorem paginate_spec {α : Type} (R : List α) (skip limit : String)
    (hlen : 2 * (R.length : Int) ≤ maxInt)
    (hs : 0 ≤ (atoi skip).1)
    (hsum : (atoi limit).2 = true → 0 < (atoi limit).1 →
      (atoi skip).1 + (atoi limit).1 ≤ maxInt) :
    paginate skip limit R = some (specPage (atoi skip).1.toNat (specLimit limit) R) := by
  obtain ⟨s, hsn⟩ : ∃ s : Nat, (atoi skip).1 = (s : Int) := ⟨(atoi skip).1.toNat, by omega⟩
  have hsk : skipCountOf skip (R.length : Int) = ((min s R.length : Nat) : Int) := by
    unfold skipCountOf
    by_cases he : skip = ""
    · have : s = 0 := by
        have := hsn
        rw [he, atoi_empty] at this
        simp at this
        omega
      simp [he, this]
    · simp only [ne_eq, he, not_false_eq_true, if_true, hsn]
      split <;> omega
  have hmax : maxInt = 9223372036854775807 := by decide
  have hmin : minInt = -9223372036854775808 := by decide
  simp only [paginate, hsk, hsn, Int.toNat_ofNat]
  by_cases hl : (atoi limit).2 = true ∧ 0 < (atoi limit).1
  · obtain ⟨n, hn⟩ : ∃ n : Nat, (atoi limit).1 = (n : Int) :=
      ⟨(atoi limit).1.toNat, by omega⟩
    have hsum2 := hsum hl.1 hl.2
    have hne : limit ≠ "" := by
      intro he
      rw [he, atoi_empty] at hl
      simp at hl
    have hlim : limitCountOf limit (R.length : Int) = (n : Int) := by
      unfold limitCountOf
      rw [if_pos hne, if_pos (by exact ⟨hl.1, by omega⟩), hn]
    have hspec : specLimit limit = some n := by
      unfold specLimit
      rw [if_pos hl, hn, Int.toNat_ofNat]
    rw [hn] at hsum2 hl
    rw [hsn] at hsum2
    have hend : endOf ((min s R.length : Nat) : Int) (n : Int) (R.length : Int) =
        ((min (min s R.length + n) R.length : Nat) : Int) := by
      unfold endOf
      rw [wrapInt_of_range _ (by omega) (by omega)]
      split <;> omega
    rw [hlim, hend, hspec]
    simp only [specPage]
    by_cases hlt : min s R.length < R.length
    · have hlt2 : ((min s R.length : Nat) : Int) < (R.length : Int) := by omega
      rw [if_pos hlt2, sliceRange_nat R _ _ (by omega) (by omega)]
      refine congrArg some ?_
      rw [List.take_eq_take, List.length_drop]
      omega
    · have hlt2 : ¬ ((min s R.length : Nat) : Int) < (R.length : Int) := by omega
      have hk : min s R.length = R.length := by omega
      rw [if_neg hlt2, hk]
      simp
  · have hlim : limitCountOf limit (R.length : Int) = (R.length : Int) := by
      unfold limitCountOf
      by_cases hne : limit = ""
      · simp [hne]
      · rw [if_pos hne, if_neg (by intro h; exact hl ⟨h.1, by omega⟩)]
    have hspec : specLimit limit = none := by
      unfold specLimit
      rw [if_neg hl]
    have hend : endOf ((min s R.length : Nat) : Int) (R.length : Int) (R.length : Int) =
        (R.length : Int) := by
      unfold endOf
      rw [wrapInt_of_range _ (by omega) (by omega)]
      split <;> omega
    rw [hlim, hend, hspec]
    simp only [specPage]
    by_cases hlt : min s R.length < R.length
    · have hlt2 : ((min s R.length : Nat) : Int) < (R.length : Int) := by omega
      rw [if_pos hlt2, sliceRange_nat R _ _ (by omega) (by omega)]
      refine congrArg some ?_
      apply List.take_of_length_le
      rw [List.length_drop]
    · have hlt2 : ¬ ((min s R.length : Nat) : Int) < (R.length : Int) := by omega
      have hk : min s R.length = R.length := by omega
      rw [if_neg hlt2, hk]
      simp

/-- The result of `sortResults` has the length of its argument. -/
theorem sortResults_length (L : GoLib) (docs : List (Document L.F)) (field order : String) :
    (sortResults L docs field order).length = docs.length :=
  (L.sortSlice_perm _ _ docs).length_eq

/-- C23: for a skip parameter whose parsed value `s` is not negative and a limit
parameter whose parsed value, when positive, added to `s` stays within the range of
`int`, the pagination step applied to a result list `R` returns: `R` without its first
`min(s, |R|)` documents, cut to its first `L` documents when the limit parses as the
positive integer `L` and whole otherwise; and this is the page that `find` (on a query
that passes validation) and `findManyDocuments` return, `R` being the filtered and,
when a sort field is given, sorted documents. -/
theorem c23_pagination (L : GoLib) (skip limit : String)
    (hs : 0 ≤ (atoi skip).1)
    (hsum : (atoi limit).2 = true → 0 < (atoi limit).1 →
      (atoi skip).1 + (atoi limit).1 ≤ maxInt) :
    (∀ (α : Type) (R : List α), 2 * (R.length : Int) ≤ maxInt →
      paginate skip limit R =
        some (specPage (atoi skip).1.toNat (specLimit limit) R)) ∧
    (∀ (query : GoMap L.F) (sortField sortOrder : String) (data R : List (Document L.F)),
      2 * (data.length : Int) ≤ maxInt → validateOperators L query = true →
      R = (if sortField ≠ "" then
          sortResults L (filterDocs L data query) sortField sortOrder
        else filterDocs L data query) →
      find L query sortField sortOrder limit skip data =
        some (.documents (specPage (atoi skip).1.toNat (specLimit limit) R).length
          (specPage (atoi skip).1.toNat (specLimit limit) R))) ∧
    (∀ (query : List (String × List String)) (sortField sortOrder : String)
      (data R : List (Document L.F)),
      2 * (data.length : Int) ≤ maxInt →
      R = (if sortField ≠ "" then
          sortResults L (data.filter (fun doc => matchesParams L doc query))
            sortField sortOrder
        else data.filter (fun doc => matchesParams L doc query)) →
      findManyDocuments L query sortField sortOrder limit skip data =
        some (.documents (specPage (atoi skip).1.toNat (specLimit limit) R).length
          (specPage (atoi skip).1.toNat (specLimit limit) R))) := by
  refine ⟨?_, ?_, ?_⟩
  · intro α R hlen
    exact paginate_spec R skip limit hlen hs hsum
  · intro query sortField sortOrder data R hlen hv hR
    have hle : R.length ≤ data.length := by
      rw [hR]
      have hf : (filterDocs L data query).length ≤ data.length := by
        unfold filterDocs
        exact List.length_filter_le _ _
      split
      · rw [sortResults_length]; exact hf
      · exact hf
    have hp := paginate_spec R skip limit (by omega) hs hsum
    simp only [find, hv, Bool.not_true, Bool.false_eq_true, if_false, ← hR, hp]
  · intro query sortField sortOrder data R hlen hR
    have hle : R.length ≤ data.length := by
      rw [hR]
      have hf : (data.filter (fun doc => matchesParams L doc query)).length ≤ data.length :=
        List.length_filter_le _ _
      split
      · rw [sortResults_length]; exact hf
      · exact hf
    have hp := paginate_spec R skip limit (by omega) hs hsum
    simp only [findManyDocuments, ← hR, hp]

/-- C23 at ten matches: `skip=3` and `limit=4` return the 4th to the 7th, and
`skip=20` returns the empty list. -/
theorem c23_pagination_witness :
    (0 : Int) ≤ (atoi "3").1 ∧
    paginate "3" "4" sampleDocs =
      some [[("n", .num ⟨3, 0⟩)], [("n", .num ⟨4, 0⟩)], [("n", .num ⟨5, 0⟩)],
        [("n", .num ⟨6, 0⟩)]] ∧
    paginate "20" "" sampleDocs = some [] :=
  ⟨by decide,
    (c23_pagination fragLib "3" "4" (by decide) (by decide)).1 _ sampleDocs (by decide),
    (c23_pagination fragLib "20" "" (by decide) (by decide)).1 _ sampleDocs (by decide)⟩

/-- C29: with the skip parameter `-1` the start of the slice expression is `-1`, and
with skip `1` and limit `9223372036854775807` the sum overflows and the end of the
slice expression is the smallest `int`; in both cases the slice expression panics, in
`find` and in `findManyDocuments`. -/
theorem c29_slice_out_of_range :
    skipCountOf "-1" 10 = -1 ∧
    paginate "-1" "" sampleDocs = none ∧
    find fragLib [] "" "" "" "-1" sampleDocs = none ∧
    findManyDocuments fragLib [] "" "" "" "-1" sampleDocs = none ∧
    endOf (skipCountOf "1" 10) (limitCountOf "9223372036854775807" 10) 10 = minInt ∧
    paginate "1" "9223372036854775807" sampleDocs = none := by
  exact ⟨by decide, rfl, rfl, rfl, by decide, rfl⟩

/-! ## The comparator of `sortResults` (C24, C25, C26, C27) -/

/-- The `less` function on a first document that lacks the field. -/
theorem sortLess_missing_left (L : GoLib) (field order : String) (di dj : Document L.F)
    (h : mapGet di field = none) : sortLess L field order di dj = false := by
  simp [sortLess, h]

/-- The `less` function on a first document that has the field and a second that lacks
it. -/
theorem sortLess_missing_right (L : GoLib) (field order : String) (di dj : Document L.F)
    (hi : (mapGet di field).isSome = true) (hj : mapGet dj field = none) :
    sortLess L field order di dj = true := by
  obtain ⟨vi, hvi⟩ := Option.isSome_iff_exists.mp hi
  simp [sortLess, hvi, hj]

/-- The `less` function on two documents that have the field. -/
theorem sortLess_both (L : GoLib) (field order : String) (di dj : Document L.F)
    (vi vj : Value L.F) (hi : mapGet di field = some vi) (hj : mapGet dj field = some vj) :
    sortLess L field order di dj =
      (match lessByTime L field order vi vj with
        | some r => r
        | none => lessByType L order vi vj) := by
  simp [sortLess, hi, hj]

/-- Membership in the result of one pass of the insertion sort. -/
theorem mem_insertBack {α : Type} (less : α → α → Bool) (x : α) (r : List α) (a : α) :
    a ∈ insertBack less x r ↔ a = x ∨ a ∈ r := by
  induction r with
  | nil => simp [insertBack]
  | cons y ys ih =>
    cases h : less x y
    · simp [insertBack, h]
    · simp only [insertBack, h, if_true, List.mem_cons, ih]
      constructor
      · rintro (h1 | h1 | h1)
        · exact Or.inr (Or.inl h1)
        · exact Or.inl h1
        · exact Or.inr (Or.inr h1)
      · rintro (h1 | h1 | h1)
        · exact Or.inr (Or.inl h1)
        · exact Or.inl h1
        · exact Or.inr (Or.inr h1)

/-- One pass of the insertion sort keeps the elements of a class `top` together at the
end of the sorted run (the front of `done`), whatever `less` does elsewhere, when
`less` ranks no element of the class before anything and every other element before
those of the class. -/
theorem insertBack_top {α : Type} (less : α → α → Bool) (top : α → Bool)
    (h1 : ∀ a b, top a = true → less a b = false)
    (h2 : ∀ a b, top a = false → top b = true → less a b = true)
    (x : α) (done : List α)
    (hd : done.Pairwise (fun a b => top b = true → top a = true)) :
    (insertBack less x done).Pairwise (fun a b => top b = true → top a = true) := by
  induction done with
  | nil => simp [insertBack]
  | cons y ys ih =>
    rw [List.pairwise_cons] at hd
    obtain ⟨hy, hys⟩ := hd
    cases h : less x y
    · simp only [insertBack, h, Bool.false_eq_true, if_false]
      refine List.pairwise_cons.mpr ⟨?_, List.pairwise_cons.mpr ⟨hy, hys⟩⟩
      intro b hb hb2
      have hty : top y = true := by
        rcases List.mem_cons.mp hb with e | e
        · rw [← e]
          exact hb2
        · exact hy b e hb2
      cases hx : top x
      · rw [h2 x y hx hty] at h
        exact absurd h (by simp)
      · rfl
    · simp only [insertBack, h, if_true]
      refine List.pairwise_cons.mpr ⟨?_, ih hys⟩
      intro b hb hb2
      rcases (mem_insertBack less x ys b).mp hb with e | e
      · rw [e] at hb2
        rw [h1 x y hb2] at h
        exact absurd h (by simp)
      · exact hy b e hb2

/-- The insertion sort puts the elements of a class `top` last, whatever `less` does
elsewhere (it need not be transitive), when `less` ranks no element of the class
before anything and every other element before those of the class. -/
theorem insertionSort_top {α : Type} (less : α → α → Bool) (top : α → Bool)
    (h1 : ∀ a b, top a = true → less a b = false)
    (h2 : ∀ a b, top a = false → top b = true → less a b = true) (l : List α) :
    (insertionSort α less l).Pairwise (fun a b => top a = true → top b = true) := by
  have hloop : ∀ (rest done : List α),
      done.Pairwise (fun a b => top b = true → top a = true) →
      (insertionLoop less done rest).Pairwise (fun a b => top a = true → top b = true) := by
    intro rest
    induction rest with
    | nil =>
      intro done hd
      simp only [insertionLoop]
      exact List.pairwise_reverse.mpr hd
    | cons x rest ih =>
      intro done hd
      simp only [insertionLoop]
      exact ih _ (insertBack_top less top h1 h2 x done hd)
  exact hloop l [] List.Pairwise.nil

/-- C24: for every sort field and direction, the `less` function of `sortResults`
ranks a document that has the field before one that lacks it, and ranks a document
that lacks the field before no document.  So no document missing the field precedes a
document having it: in every sequence in which no document is ranked before its
predecessor; in the result of `sortResults` on every list on which `sort.Slice` runs
its insertion sort (in Go 1.19 and later, every list of at most 12 documents), also
when the function is not transitive on the values present; and in the result of
`sortResults` on every list on which the function meets the requirement of
`sort.Slice`. -/
theorem c24_missing_field_last (L : GoLib) (field order : String) :
    (∀ di dj : Document L.F, (mapGet di field).isSome = true → mapGet dj field = none →
      sortLess L field order di dj = true) ∧
    (∀ di dj : Document L.F, mapGet di field = none →
      sortLess L field order di dj = false) ∧
    (∀ sorted : List (Document L.F),
      sorted.Chain' (fun a b => sortLess L field order b a = false) →
      sorted.Pairwise (fun a b => mapGet a field = none → mapGet b field = none)) ∧
    (∀ docs : List (Document L.F),
      L.sortSlice (Document L.F) (sortLess L field order) docs =
        insertionSort (Document L.F) (sortLess L field order) docs →
      (sortResults L docs field order).Pairwise
        (fun a b => mapGet a field = none → mapGet b field = none)) ∧
    (∀ docs : List (Document L.F), StrictWeakOn (sortLess L field order) docs →
      (sortResults L docs field order).Pairwise
        (fun a b => mapGet a field = none → mapGet b field = none)) := by
  have hchain : ∀ sorted : List (Document L.F),
      sorted.Chain' (fun a b => sortLess L field order b a = false) →
      sorted.Pairwise (fun a b => mapGet a field = none → mapGet b field = none) := by
    intro sorted hc
    haveI : IsTrans (Document L.F)
        (fun a b => mapGet a field = none → mapGet b field = none) :=
      ⟨fun _ _ _ hab hbc ha => hbc (hab ha)⟩
    refine List.chain'_iff_pairwise.mp (hc.imp ?_)
    intro a b hba ha
    cases hb : mapGet b field with
    | none => rfl
    | some v =>
      have := sortLess_missing_right L field order b a (by simp [hb]) ha
      rw [hba] at this
      exact absurd this (by simp)
  refine ⟨?_, ?_, hchain, ?_, ?_⟩
  · intro di dj hi hj
    exact sortLess_missing_right L field order di dj hi hj
  · intro di dj hi
    exact sortLess_missing_left L field order di dj hi
  · intro docs hs
    unfold sortResults
    rw [hs]
    have h := insertionSort_top (sortLess L field order)
      (fun d => (mapGet d field).isNone)
      (fun a b ha => sortLess_missing_left L field order a b (by simpa using ha))
      (fun a b ha hb => sortLess_missing_right L field order a b
        (by cases hv : mapGet a field <;> simp [hv] at ha ⊢) (by simpa using hb))
      docs
    refine h.imp ?_
    intro a b hab ha
    have := hab (by simp [ha])
    simpa using this
  · intro docs hsw
    exact hchain _ (List.Pairwise.chain' (L.sortSlice_sorted _ _ docs hsw))

/-- C24 at concrete documents: a document with the field is ranked before one without
it, in both directions, and sorting a list that mixes a document without the field,
the text `1x` and the numbers 10 and 2, on which the function is not transitive, puts
the document without the field last. -/
theorem c24_missing_field_last_witness :
    (mapGet ([("n", .num 3)] : Document fragLib.F) "n").isSome = true ∧
    mapGet ([("m", .num 1)] : Document fragLib.F) "n" = none ∧
    sortLess fragLib "n" "desc" [("n", .num 3)] [("m", .num 1)] = true ∧
    sortLess fragLib "n" "asc" [("m", .num 1)] [("n", .num 3)] = false ∧
    sortResults fragLib
        [[("m", .num 1)], [("n", .str "1x")], [("n", .num 10)], [("n", .num 2)]]
        "n" "asc" =
      [[("n", .num 10)], [("n", .str "1x")], [("n", .num 2)], [("m", .num 1)]] ∧
    (sortResults fragLib
        [[("m", .num 1)], [("n", .str "1x")], [("n", .num 10)], [("n", .num 2)]]
        "n" "asc").Pairwise
      (fun a b => mapGet a "n" = none → mapGet b "n" = none) ∧
    ([[("n", .num 10)], [("n", .str "1x")], [("n", .num 2)], [("m", .num 1)]] :
      List (Document fragLib.F)).Pairwise
      (fun a b => mapGet a "n" = none → mapGet b "n" = none) :=
  ⟨rfl, rfl,
    (c24_missing_field_last fragLib "n" "desc").1 [("n", .num 3)] [("m", .num 1)] rfl rfl,
    (c24_missing_field_last fragLib "n" "asc").2.1 [("m", .num 1)] [("n", .num 3)] rfl,
    rfl,
    (c24_missing_field_last fragLib "n" "asc").2.2.2.1
      [[("m", .num 1)], [("n", .str "1x")], [("n", .num 10)], [("n", .num 2)]] rfl,
    (c24_missing_field_last fragLib "n" "asc").2.2.1
      [[("n", .num 10)], [("n", .str "1x")], [("n", .num 2)], [("m", .num 1)]]
      (List.chain'_cons.mpr ⟨rfl, List.chain'_cons.mpr ⟨rfl,
        List.chain'_cons.mpr ⟨rfl, List.chain'_singleton _⟩⟩⟩)⟩

/-- C25: for the numbers 1.2 and 1.7 the ascending `less` function of `sortResults`
ranks neither document before the other, both being compared as the instant
`time.Unix(1, 0)`, and sorting the documents `n: 1.7`, `n: 1.2` in ascending order by
`n` leaves them in that order; the numbers 1 and 2 are ranked as the claim says. -/
theorem c25_fractions_are_truncated :
    fragLib.lt ⟨12, 1⟩ ⟨17, 1⟩ = true ∧
    parseTime fragLib (.num ⟨12, 1⟩) = some (1 : Int) ∧
    parseTime fragLib (.num ⟨17, 1⟩) = some (1 : Int) ∧
    sortLess fragLib "n" "asc" [("n", .num ⟨12, 1⟩)] [("n", .num ⟨17, 1⟩)] = false ∧
    sortLess fragLib "n" "asc" [("n", .num ⟨17, 1⟩)] [("n", .num ⟨12, 1⟩)] = false ∧
    sortResults fragLib [[("n", .num ⟨17, 1⟩)], [("n", .num ⟨12, 1⟩)]] "n" "asc" =
      [[("n", .num ⟨17, 1⟩)], [("n", .num ⟨12, 1⟩)]] ∧
    sortLess fragLib "n" "asc" [("n", .num 1)] [("n", .num 2)] = true :=
  ⟨rfl, rfl, rfl, rfl, rfl, rfl, rfl⟩

/-- C26: on the booleans `false` and `true` the ascending `less` function of
`sortResults` ranks the document with `true` before the document with `false` and not
the other way round, the descending one ranks `false` before `true`, and sorting the
documents `flag: false`, `flag: true` in ascending order puts `true` first. -/
theorem c26_true_sorts_before_false :
    sortLess fragLib "flag" "asc" [("flag", .bool false)] [("flag", .bool true)] = false ∧
    sortLess fragLib "flag" "asc" [("flag", .bool true)] [("flag", .bool false)] = true ∧
    sortLess fragLib "flag" "desc" [("flag", .bool false)] [("flag", .bool true)] = true ∧
    sortLess fragLib "flag" "desc" [("flag", .bool true)] [("flag", .bool false)] = false ∧
    sortResults fragLib [[("flag", .bool false)], [("flag", .bool true)]] "flag" "asc" =
      [[("flag", .bool true)], [("flag", .bool false)]] :=
  ⟨rfl, rfl, rfl, rfl, rfl⟩

/-- The layouts start with `time.RFC3339`, so a text that this layout accepts is parsed
by `parseTime` as the instant it denotes. -/
theorem parseTime_rfc3339 (L : GoLib) (s : String) (t : L.Time)
    (h : L.timeParse layoutRFC3339 s = some t) : parseTime L (.str s) = some t := by
  simp [parseTime, timeLayouts, parseTimeLayouts, h]

/-- On two documents whose `updated_at` are RFC3339 timestamps, the descending `less`
function of `sortResults` is `After` on the two instants. -/
theorem sortLess_updated_at_desc (L : GoLib) (di dj : Document L.F) (ti tj : L.Time)
    (hi : instantAt L di "updated_at" = some ti)
    (hj : instantAt L dj "updated_at" = some tj) :
    sortLess L "updated_at" "desc" di dj = L.timeBefore tj ti := by
  have hfield : isTimeField "updated_at" = true := by decide
  have key : ∀ (d : Document L.F) (t : L.Time), instantAt L d "updated_at" = some t →
      ∃ s, mapGet d "updated_at" = some (.str s) ∧ parseTime L (.str s) = some t := by
    intro d t h
    unfold instantAt at h
    cases hv : mapGet d "updated_at" with
    | none => simp [hv] at h
    | some v =>
      cases v with
      | str s =>
        simp only [hv] at h
        exact ⟨s, rfl, parseTime_rfc3339 L s t h⟩
      | _ => simp [hv] at h
  obtain ⟨si, hsi, hpi⟩ := key di ti hi
  obtain ⟨sj, hsj, hpj⟩ := key dj tj hj
  rw [sortLess_both L "updated_at" "desc" di dj _ _ hsi hsj]
  simp [lessByTime, hfield, hpi, hpj, L.timeAfter_eq]

/-- C27: for every list of documents whose `updated_at` values are RFC3339 timestamps,
in the result of `sortResults` by `updated_at` with order `desc` the `updated_at`
instant of each document is not before that of any document after it. -/
theorem c27_desc_by_updated_at (L : GoLib) (docs : List (Document L.F))
    (h : ∀ d ∈ docs, ∃ t, instantAt L d "updated_at" = some t) :
    (sortResults L docs "updated_at" "desc").Pairwise
      (fun a b => ∀ ta tb, instantAt L a "updated_at" = some ta →
        instantAt L b "updated_at" = some tb → L.timeBefore ta tb = false) := by
  have hsw : StrictWeakOn (sortLess L "updated_at" "desc") docs := by
    refine ⟨?_, ?_, ?_⟩
    · intro a ha
      obtain ⟨ta, hta⟩ := h a ha
      rw [sortLess_updated_at_desc L a a ta ta hta hta]
      exact L.timeBefore_irrefl ta
    · intro a ha b hb c hc
      obtain ⟨ta, hta⟩ := h a ha
      obtain ⟨tb, htb⟩ := h b hb
      obtain ⟨tc, htc⟩ := h c hc
      rw [sortLess_updated_at_desc L a b ta tb hta htb,
        sortLess_updated_at_desc L b c tb tc htb htc,
        sortLess_updated_at_desc L a c ta tc hta htc]
      intro h1 h2
      exact L.timeBefore_trans tc tb ta h2 h1
    · intro a ha b hb c hc
      obtain ⟨ta, hta⟩ := h a ha
      obtain ⟨tb, htb⟩ := h b hb
      obtain ⟨tc, htc⟩ := h c hc
      rw [sortLess_updated_at_desc L a b ta tb hta htb,
        sortLess_updated_at_desc L b c tb tc htb htc,
        sortLess_updated_at_desc L a c ta tc hta htc]
      intro h1
      rcases L.timeBefore_between tc tb ta h1 with h2 | h2
      · exact Or.inr h2
      · exact Or.inl h2
  have hsorted := L.sortSlice_sorted _ (sortLess L "updated_at" "desc") docs hsw
  refine hsorted.imp ?_
  intro a b hba ta tb hta htb
  rw [sortLess_updated_at_desc L b a tb ta htb hta] at hba
  exact hba

/-- C27 at three stamped documents: the result is in the order of the instants,
latest first. -/
theorem c27_desc_by_updated_at_witness :
    sortResults fragLib
        [[("updated_at", .str "2024-05-01T10:00:00Z")],
         [("updated_at", .str "2024-05-03T08:30:00Z")],
         [("updated_at", .str "2023-12-31T23:59:59Z")]] "updated_at" "desc" =
      [[("updated_at", .str "2024-05-03T08:30:00Z")],
       [("updated_at", .str "2024-05-01T10:00:00Z")],
       [("updated_at", .str "2023-12-31T23:59:59Z")]] ∧
    (sortResults fragLib
        [[("updated_at", .str "2024-05-01T10:00:00Z")],
         [("updated_at", .str "2024-05-03T08:30:00Z")],
         [("updated_at", .str "2023-12-31T23:59:59Z")]] "updated_at" "desc").Pairwise
      (fun a b => ∀ ta tb, instantAt fragLib a "updated_at" = some ta →
        instantAt fragLib b "updated_at" = some tb → fragLib.timeBefore ta tb = false) :=
  ⟨rfl,
    c27_desc_by_updated_at fragLib _
      (by intro d hd
          simp only [List.mem_cons, List.mem_singleton, List.not_mem_nil, or_false] at hd
          rcases hd with rfl | rfl | rfl
          · exact ⟨(1714557600 : Int), rfl⟩
          · exact ⟨(1714725000 : Int), rfl⟩
          · exact ⟨(1704067199 : Int), rfl⟩)⟩

/-! ## Is the comparator an ordering? (C30) -/

/-- A text compares equal to itself. -/
theorem compareChars_self (a : List Char) : compareChars a a = 0 := by
  induction a with
  | nil => rfl
  | cons x xs ih => simp [compareChars, ih]

/-- Exchanging the two texts negates the result of the comparison. -/
theorem compareChars_swap (a b : List Char) : compareChars b a = -compareChars a b := by
  induction a generalizing b with
  | nil => cases b <;> simp [compareChars]
  | cons x xs ih =>
    cases b with
    | nil => simp [compareChars]
    | cons y ys =>
      simp only [compareChars]
      by_cases h1 : x.toNat < y.toNat
      · have h2 : ¬ y.toNat < x.toNat := by omega
        simp [h1, h2]
      · by_cases h2 : y.toNat < x.toNat
        · simp [h1, h2]
        · simp [h1, h2, ih ys]

/-- The order of texts is transitive. -/
theorem compareChars_trans (a b c : List Char) (h1 : compareChars a b < 0)
    (h2 : compareChars b c < 0) : compareChars a c < 0 := by
  induction a generalizing b c with
  | nil =>
    cases b with
    | nil => simp [compareChars] at h1
    | cons y ys =>
      cases c with
      | nil => simp [compareChars] at h2
      | cons z zs => simp [compareChars]
  | cons x xs ih =>
    cases b with
    | nil => simp [compareChars] at h1
    | cons y ys =>
      cases c with
      | nil => simp [compareChars] at h2
      | cons z zs =>
        simp only [compareChars] at h1 h2 ⊢
        by_cases hxy : x.toNat < y.toNat
        · by_cases hyz : y.toNat < z.toNat
          · have : x.toNat < z.toNat := by omega
            simp [this]
          · by_cases hzy : z.toNat < y.toNat
            · simp [hyz, hzy] at h2
            · have : x.toNat < z.toNat := by omega
              simp [this]
        · by_cases hyx : y.toNat < x.toNat
          · simp [hxy, hyx] at h1
          · simp only [hxy, hyx, if_false] at h1
            by_cases hyz : y.toNat < z.toNat
            · have : x.toNat < z.toNat := by omega
              simp [this]
            · by_cases hzy : z.toNat < y.toNat
              · simp [hyz, hzy] at h2
              · simp only [hyz, hzy, if_false] at h2
                have e1 : ¬ x.toNat < z.toNat := by omega
                have e2 : ¬ z.toNat < x.toNat := by omega
                simp only [e1, e2, if_false]
                exact ih ys zs h1 h2

/-- On two numbers the `less` function of `sortResults` compares the instants
`time.Unix(int64(x), 0)`. -/
theorem sortLess_numbers (L : GoLib) (field order : String) (di dj : Document L.F)
    (xi xj : L.F) (hi : mapGet di field = some (.num xi))
    (hj : mapGet dj field = some (.num xj)) :
    sortLess L field order di dj =
      (if order = "desc" then
        L.timeBefore (L.timeUnix (L.toInt64 xj)) (L.timeUnix (L.toInt64 xi))
      else L.timeBefore (L.timeUnix (L.toInt64 xi)) (L.timeUnix (L.toInt64 xj))) := by
  rw [sortLess_both L field order di dj _ _ hi hj]
  by_cases ho : order = "desc"
  · simp [lessByTime, isTimeValue, parseTime, ho, L.timeAfter_eq]
  · simp [lessByTime, isTimeValue, parseTime, ho]

/-- On two booleans the `less` function of `sortResults` is the boolean arm of its
type switch. -/
theorem sortLess_booleans (L : GoLib) (field order : String) (di dj : Document L.F)
    (bi bj : Bool) (hi : mapGet di field = some (.bool bi))
    (hj : mapGet dj field = some (.bool bj)) :
    sortLess L field order di dj =
      (if order = "desc" then !bi && bj else bi && !bj) := by
  rw [sortLess_both L field order di dj _ _ hi hj]
  have ht : lessByTime L field order (.bool bi) (.bool bj) = none := by
    unfold lessByTime
    split <;> simp [parseTime]
  simp [ht, lessByType]

/-- On two texts that `parseTime` does not accept the `less` function of `sortResults`
is the text arm of its type switch. -/
theorem sortLess_texts (L : GoLib) (field order : String) (di dj : Document L.F)
    (si sj : String) (hi : mapGet di field = some (.str si))
    (hj : mapGet dj field = some (.str sj))
    (hpi : parseTime L (.str si) = none) :
    sortLess L field order di dj =
      (if order = "desc" then decide (0 < stringsCompare si sj)
        else decide (stringsCompare si sj < 0)) := by
  rw [sortLess_both L field order di dj _ _ hi hj]
  have ht : lessByTime L field order (.str si) (.str sj) = none := by
    unfold lessByTime
    split <;> simp [hpi]
  simp [ht, lessByType]

/-- C30, as stated, fails: on the field `n`, ascending, the document with the number 2
is ranked before that with the number 10 (as instants), that one before the document
with the text `1x` (by rendering), and that one before the document with 2. -/
theorem c30_mixed_values_cycle :
    sortLess fragLib "n" "asc" [("n", .num 2)] [("n", .num 10)] = true ∧
    sortLess fragLib "n" "asc" [("n", .num 10)] [("n", .str "1x")] = true ∧
    sortLess fragLib "n" "asc" [("n", .str "1x")] [("n", .num 2)] = true :=
  ⟨rfl, rfl, rfl⟩

/-- C30, amended: for every sort field and direction the `less` function of
`sortResults` is irreflexive, and it is transitive on documents whose sort-field
values are all numbers, on documents whose values are all booleans, and on documents
whose values are all text that `parseTime` does not accept. -/
theorem c30_comparator_order (L : GoLib) (field order : String) :
    (∀ d : Document L.F, sortLess L field order d d = false) ∧
    (∀ (d1 d2 d3 : Document L.F) (x1 x2 x3 : L.F),
      mapGet d1 field = some (.num x1) → mapGet d2 field = some (.num x2) →
      mapGet d3 field = some (.num x3) →
      sortLess L field order d1 d2 = true → sortLess L field order d2 d3 = true →
      sortLess L field order d1 d3 = true) ∧
    (∀ (d1 d2 d3 : Document L.F) (b1 b2 b3 : Bool),
      mapGet d1 field = some (.bool b1) → mapGet d2 field = some (.bool b2) →
      mapGet d3 field = some (.bool b3) →
      sortLess L field order d1 d2 = true → sortLess L field order d2 d3 = true →
      sortLess L field order d1 d3 = true) ∧
    (∀ (d1 d2 d3 : Document L.F) (s1 s2 s3 : String),
      mapGet d1 field = some (.str s1) → mapGet d2 field = some (.str s2) →
      mapGet d3 field = some (.str s3) →
      parseTime L (.str s1) = none → parseTime L (.str s2) = none →
      parseTime L (.str s3) = none →
      sortLess L field order d1 d2 = true → sortLess L field order d2 d3 = true →
      sortLess L field order d1 d3 = true) := by
  refine ⟨?_, ?_, ?_, ?_⟩
  · intro d
    cases hv : mapGet d field with
    | none => exact sortLess_missing_left L field order d d hv
    | some v =>
      cases v with
      | num x =>
        rw [sortLess_numbers L field order d d x x hv hv]
        split <;> exact L.timeBefore_irrefl _
      | bool b =>
        rw [sortLess_booleans L field order d d b b hv hv]
        cases b <;> simp
      | str s =>
        rw [sortLess_both L field order d d _ _ hv hv]
        have hc : stringsCompare s s = 0 := compareChars_self s.data
        have ht : lessByTime L field order (.str s) (.str s) = none ∨
            lessByTime L field order (.str s) (.str s) = some false := by
          unfold lessByTime
          split
          · cases hp : parseTime L (.str s) with
            | none => exact Or.inl rfl
            | some t =>
              by_cases ho : order = "desc"
              · simp [ho, L.timeAfter_eq, L.timeBefore_irrefl]
              · simp [ho, L.timeBefore_irrefl]
          · exact Or.inl rfl
        rcases ht with ht | ht
        · simp [ht, lessByType, hc]
        · simp [ht]
      | null =>
        rw [sortLess_both L field order d d _ _ hv hv]
        have hc : stringsCompare (sprint L (.null : Value L.F)) (sprint L .null) = 0 :=
          compareChars_self _
        have ht : lessByTime L field order (.null : Value L.F) .null = none := by
          unfold lessByTime
          split <;> simp [parseTime]
        simp [ht, lessByType, lessByText, hc]
      | arr items =>
        rw [sortLess_both L field order d d _ _ hv hv]
        have hc : stringsCompare (sprint L (.arr items)) (sprint L (.arr items)) = 0 :=
          compareChars_self _
        have ht : lessByTime L field order (.arr items) (.arr items) = none := by
          unfold lessByTime
          split <;> simp [parseTime]
        simp [ht, lessByType, lessByText, hc]
      | obj fields =>
        rw [sortLess_both L field order d d _ _ hv hv]
        have hc : stringsCompare (sprint L (.obj fields)) (sprint L (.obj fields)) = 0 :=
          compareChars_self _
        have ht : lessByTime L field order (.obj fields) (.obj fields) = none := by
          unfold lessByTime
          split <;> simp [parseTime]
        simp [ht, lessByType, lessByText, hc]
  · intro d1 d2 d3 x1 x2 x3 h1 h2 h3
    rw [sortLess_numbers L field order d1 d2 x1 x2 h1 h2,
      sortLess_numbers L field order d2 d3 x2 x3 h2 h3,
      sortLess_numbers L field order d1 d3 x1 x3 h1 h3]
    by_cases ho : order = "desc"
    · simp only [ho, if_true]
      intro a b
      exact L.timeBefore_trans _ _ _ b a
    · simp only [ho, if_false]
      intro a b
      exact L.timeBefore_trans _ _ _ a b
  · intro d1 d2 d3 b1 b2 b3 h1 h2 h3
    rw [sortLess_booleans L field order d1 d2 b1 b2 h1 h2,
      sortLess_booleans L field order d2 d3 b2 b3 h2 h3,
      sortLess_booleans L field order d1 d3 b1 b3 h1 h3]
    by_cases ho : order = "desc"
    · simp only [ho, if_true]
      cases b1 <;> cases b2 <;> cases b3 <;> simp
    · simp only [ho, if_false]
      cases b1 <;> cases b2 <;> cases b3 <;> simp
  · intro d1 d2 d3 s1 s2 s3 h1 h2 h3 p1 p2 p3
    rw [sortLess_texts L field order d1 d2 s1 s2 h1 h2 p1,
      sortLess_texts L field order d2 d3 s2 s3 h2 h3 p2,
      sortLess_texts L field order d1 d3 s1 s3 h1 h3 p1]
    by_cases ho : order = "desc"
    · simp only [ho, if_true, decide_eq_true_eq]
      intro a b
      have a2 : compareChars s2.data s1.data < 0 := by
        rw [compareChars_swap s1.data s2.data]
        unfold stringsCompare at a
        omega
      have b2 : compareChars s3.data s2.data < 0 := by
        rw [compareChars_swap s2.data s3.data]
        unfold stringsCompare at b
        omega
      have c := compareChars_trans _ _ _ b2 a2
      rw [compareChars_swap s1.data s3.data] at c
      unfold stringsCompare
      omega
    · simp only [ho, if_false, decide_eq_true_eq]
      intro a b
      exact compareChars_trans _ _ _ a b

/-- C30, amended, at concrete documents: three numbers and three plain texts, in the
descending and the ascending direction. -/
theorem c30_comparator_order_witness :
    sortLess fragLib "n" "desc" [("n", .num 2)] [("n", .num 2)] = false ∧
    sortLess fragLib "n" "desc" [("n", .num 30)] [("n", .num 2)] = true ∧
    sortLess fragLib "n" "asc" [("n", .str "ab")] [("n", .str "b")] = true :=
  ⟨(c30_comparator_order fragLib "n" "desc").1 [("n", .num 2)],
    (c30_comparator_order fragLib "n" "desc").2.1 [("n", .num 30)] [("n", .num 10)]
      [("n", .num 2)] 30 10 2 rfl rfl rfl rfl rfl,
    (c30_comparator_order fragLib "n" "asc").2.2.2 [("n", .str "ab")] [("n", .str "abc")]
      [("n", .str "b")] "ab" "abc" "b" rfl rfl rfl rfl rfl rfl rfl rfl⟩

/-! ## Creation time and update time (C21) -/

/-- The stamps that `AddMetadata` gives a document without `created_at`: both are
the reading of the clock. -/
theorem addMetadata_stamps {F : Type} (g t : String) (doc : Document F)
    (h : mapGet doc "created_at" = none) :
    mapGet (AddMetadata g t doc) "created_at" = some (.str t) ∧
    mapGet (AddMetadata g t doc) "updated_at" = some (.str t) := by
  have h1 : ("created_at" : String) ≠ "id" := by decide
  have h3 : ("created_at" : String) ≠ "updated_at" := by decide
  refine ⟨?_, mapGet_mapSet_self _ _ _⟩
  unfold AddMetadata
  cases hid : mapGet doc "id" with
  | none =>
    have e : mapGet (mapSet doc "id" (.str g)) "created_at" = none := by
      rw [mapGet_mapSet_ne _ _ _ _ h1, h]
    simp only [e]
    rw [mapGet_mapSet_ne _ _ _ _ h3, mapGet_mapSet_self]
  | some v =>
    simp only [h]
    rw [mapGet_mapSet_ne _ _ _ _ h3, mapGet_mapSet_self]

/-- The stamps of the document that `updateOneDocument` stores in the slot of a
document with a `created_at`: that `created_at`, and the reading of the clock. -/
theorem replaceDocument_stamps {F : Type} (x now : String) (r doc : Document F)
    (c : Value F) (h : mapGet doc "created_at" = some c) :
    mapGet (replaceDocument x now r doc) "created_at" = some c ∧
    mapGet (replaceDocument x now r doc) "updated_at" = some (.str now) := by
  have h3 : ("created_at" : String) ≠ "updated_at" := by decide
  refine ⟨?_, mapGet_mapSet_self _ _ _⟩
  unfold replaceDocument
  simp only [h]
  rw [mapGet_mapSet_ne _ _ _ _ h3, mapGet_mapSet_self]

/-- The document returned by the search loop of `updateOneDocument` is the replacement
of a document of the sequence. -/
theorem updateOneLoop_mem {F : Type} (x now : String) (r : Document F)
    (data : List (Document F)) (res : List (Document F) × Document F)
    (h : updateOneLoop x now r data = some res) :
    ∃ doc, doc ∈ data ∧ res.2 = replaceDocument x now r doc := by
  induction data generalizing res with
  | nil => simp [updateOneLoop] at h
  | cons doc rest ih =>
    cases hm : idMatches doc x with
    | true =>
      simp only [updateOneLoop, hm, if_true, Option.some.injEq] at h
      subst h
      exact ⟨doc, List.mem_cons_self _ _, rfl⟩
    | false =>
      cases hr : updateOneLoop x now r rest with
      | none => simp [updateOneLoop, hm, hr] at h
      | some r2 =>
        simp only [updateOneLoop, hm, hr, Bool.false_eq_true, if_false,
          Option.some.injEq] at h
        obtain ⟨d, hd, he⟩ := ih r2 hr
        refine ⟨d, List.mem_cons_of_mem _ hd, ?_⟩
        rw [← h]
        exact he

/-- Every document in the list `updatedDocs` of `updateManyDocuments` is the merge of
a document of the sequence, stamped with a reading of the clock. -/
theorem updateManyLoop_docs (L : GoLib) (clock : Nat → String) (query : GoMap L.F)
    (update : Document L.F) (t : Nat) (data : List (Document L.F)) :
    ∀ w, w ∈ (updateManyLoop L clock query update t data).updatedDocs →
      ∃ d, d ∈ data ∧ ∃ k, w = mergeDocument (clock k) d update := by
  induction data generalizing t with
  | nil => simp [updateManyLoop]
  | cons doc rest ih =>
    intro w hw
    cases hm : matchesQuery L doc query with
    | true =>
      simp only [updateManyLoop, hm, if_true, List.mem_cons] at hw
      rcases hw with hw | hw
      · exact ⟨doc, List.mem_cons_self _ _, t, hw⟩
      · obtain ⟨d, hd, k, hk⟩ := ih (t + 1) w hw
        exact ⟨d, List.mem_cons_of_mem _ hd, k, hk⟩
    | false =>
      simp only [updateManyLoop, hm] at hw
      obtain ⟨d, hd, k, hk⟩ := ih t w hw
      exact ⟨d, List.mem_cons_of_mem _ hd, k, hk⟩

/-- Every document produced by the stamping loop of `insertManyDocuments` is the stamp
of a document of the body, with a reading of the clock. -/
theorem addMetadataAll_mem {F : Type} (gen clock : Nat → String) (i t : Nat)
    (docs : List (Document F)) :
    ∀ w, w ∈ addMetadataAll gen clock i t docs →
      ∃ d, d ∈ docs ∧ ∃ g k, w = AddMetadata g (clock k) d := by
  induction docs generalizing i t with
  | nil => simp [addMetadataAll]
  | cons doc rest ih =>
    intro w hw
    simp only [addMetadataAll, List.mem_cons] at hw
    rcases hw with hw | hw
    · exact ⟨doc, List.mem_cons_self _ _, gen i, t, hw⟩
    · obtain ⟨d, hd, g, k, hk⟩ := ih _ _ w hw
      exact ⟨d, List.mem_cons_of_mem _ hd, g, k, hk⟩

/-- A document whose `created_at` is that of a document created not after the reading
`now` of the clock, and whose `updated_at` is `now`, is created not after it is
updated. -/
theorem createdNotAfterUpdated_of (L : GoLib) (w d : Document L.F) (now : String)
    (tc tn : L.Time) (hc : mapGet w "created_at" = mapGet d "created_at")
    (hd : instantAt L d "created_at" = some tc)
    (hu : mapGet w "updated_at" = some (.str now))
    (hn : L.timeParse layoutRFC3339 now = some tn)
    (hb : L.timeBefore tn tc = false) : CreatedNotAfterUpdated L w := by
  refine ⟨tc, tn, ?_, ?_, hb⟩
  · unfold instantAt at hd ⊢
    rw [hc]
    exact hd
  · unfold instantAt
    rw [hu]
    exact hn

/-- A document with an instant under a key has a value under that key. -/
theorem instantAt_some (L : GoLib) (d : Document L.F) (key : String) (tc : L.Time)
    (h : instantAt L d key = some tc) : ∃ c, mapGet d key = some c := by
  unfold instantAt at h
  cases hv : mapGet d key with
  | none => simp [hv] at h
  | some c => exact ⟨c, rfl⟩

/-- C21, as stated, fails: `insertOneDocument` keeps the `created_at` of the body, so
the body with `created_at` in the year 2999, inserted when the clock reads
2024-05-01T10:00:00Z, is stored with a `created_at` instant (32472144000) later than
its `updated_at` instant (1714557600). -/
theorem c21_body_created_at_in_future :
    (insertOneDocument sampleGen sampleClock
      ([("created_at", .str "2999-01-01T00:00:00Z")] : Document fragLib.F) []).stored =
      [[("created_at", .str "2999-01-01T00:00:00Z"), ("id", .str "g"),
        ("updated_at", .str "2024-05-01T10:00:00Z")]] ∧
    instantAt fragLib
      ([("created_at", .str "2999-01-01T00:00:00Z"), ("id", .str "g"),
        ("updated_at", .str "2024-05-01T10:00:00Z")] : Document fragLib.F)
      "created_at" = some (32472144000 : Int) ∧
    instantAt fragLib
      ([("created_at", .str "2999-01-01T00:00:00Z"), ("id", .str "g"),
        ("updated_at", .str "2024-05-01T10:00:00Z")] : Document fragLib.F)
      "updated_at" = some (1714557600 : Int) ∧
    fragLib.timeBefore (1714557600 : Int) (32472144000 : Int) = true ∧
    ¬ CreatedNotAfterUpdated fragLib
      ([("created_at", .str "2999-01-01T00:00:00Z"), ("id", .str "g"),
        ("updated_at", .str "2024-05-01T10:00:00Z")] : Document fragLib.F) := by
  refine ⟨rfl, rfl, rfl, rfl, ?_⟩
  rintro ⟨tc, tu, hc, hu, hb⟩
  have e1 : instantAt fragLib
      ([("created_at", .str "2999-01-01T00:00:00Z"), ("id", .str "g"),
        ("updated_at", .str "2024-05-01T10:00:00Z")] : Document fragLib.F)
      "created_at" = some (32472144000 : Int) := rfl
  have e2 : instantAt fragLib
      ([("created_at", .str "2999-01-01T00:00:00Z"), ("id", .str "g"),
        ("updated_at", .str "2024-05-01T10:00:00Z")] : Document fragLib.F)
      "updated_at" = some (1714557600 : Int) := rfl
  rw [e1] at hc
  rw [e2] at hu
  cases hc
  cases hu
  exact absurd hb (by decide)

/-- C21, amended: with a clock whose readings are RFC3339 timestamps, every document
written by `insertOneDocument` and `insertManyDocuments` has `created_at` not after
`updated_at` when the documents of the body carry no `created_at`, and every document
written by `updateOneDocument` and `updateManyDocuments` has it when every stored
document has a `created_at` that is an RFC3339 instant not after any reading of the
clock. -/
theorem c21_created_not_after_updated (L : GoLib) (gen clock : Nat → String)
    (hclock : ∀ k, ∃ t, L.timeParse layoutRFC3339 (clock k) = some t) :
    (∀ (newData : Document L.F) (data : List (Document L.F)) (w : Document L.F),
      mapGet newData "created_at" = none →
      (insertOneDocument gen clock newData data).response = .document w →
      CreatedNotAfterUpdated L w) ∧
    (∀ (newDocuments data : List (Document L.F)) (n : Nat) (ws : List (Document L.F)),
      (∀ d, d ∈ newDocuments → mapGet d "created_at" = none) →
      (insertManyDocuments gen clock newDocuments data).response = .documents n ws →
      ∀ w, w ∈ ws → CreatedNotAfterUpdated L w) ∧
    (∀ (x : String) (r : Document L.F) (data : List (Document L.F)) (w : Document L.F),
      (∀ d, d ∈ data → ∃ tc, instantAt L d "created_at" = some tc ∧
        ∀ k t, L.timeParse layoutRFC3339 (clock k) = some t → L.timeBefore t tc = false) →
      (updateOneDocument clock x r data).response = .document w →
      CreatedNotAfterUpdated L w) ∧
    (∀ (q : Option (GoMap L.F)) (p : Document L.F) (data : List (Document L.F)) (n : Nat)
      (ws : List (Document L.F)),
      (∀ d, d ∈ data → ∃ tc, instantAt L d "created_at" = some tc ∧
        ∀ k t, L.timeParse layoutRFC3339 (clock k) = some t → L.timeBefore t tc = false) →
      (updateManyDocuments L clock q p data).response = .documents n ws →
      ∀ w, w ∈ ws → CreatedNotAfterUpdated L w) := by
  have hstamp : ∀ (g : String) (k : Nat) (d : Document L.F),
      mapGet d "created_at" = none →
      CreatedNotAfterUpdated L (AddMetadata g (clock k) d) := by
    intro g k d hd
    obtain ⟨t, ht⟩ := hclock k
    obtain ⟨hc, hu⟩ := addMetadata_stamps g (clock k) d hd
    refine ⟨t, t, ?_, ?_, L.timeBefore_irrefl t⟩
    · unfold instantAt
      rw [hc]
      exact ht
    · unfold instantAt
      rw [hu]
      exact ht
  refine ⟨?_, ?_, ?_, ?_⟩
  · intro newData data w hnew hresp
    simp only [insertOneDocument, Response.document.injEq] at hresp
    rw [← hresp]
    exact hstamp _ _ _ hnew
  · intro newDocuments data n ws hnew hresp
    simp only [insertManyDocuments, Response.documents.injEq] at hresp
    intro w hw
    rw [← hresp.2] at hw
    obtain ⟨d, hd, g, k, hk⟩ := addMetadataAll_mem gen clock 0 0 newDocuments w hw
    rw [hk]
    exact hstamp g k d (hnew d hd)
  · intro x r data w hstored hresp
    unfold updateOneDocument at hresp
    by_cases hx : x = ""
    · simp [hx] at hresp
    · simp only [hx, if_false] at hresp
      cases hr : updateOneLoop x (clock 0) r data with
      | none => simp [hr] at hresp
      | some res =>
        simp only [hr, Response.document.injEq] at hresp
        obtain ⟨doc, hdoc, he⟩ := updateOneLoop_mem x (clock 0) r data res hr
        obtain ⟨tc, htc, hle⟩ := hstored doc hdoc
        obtain ⟨c, hc⟩ := instantAt_some L doc "created_at" tc htc
        obtain ⟨tn, hn⟩ := hclock 0
        obtain ⟨h1, h2⟩ := replaceDocument_stamps x (clock 0) r doc c hc
        rw [← hresp, he]
        exact createdNotAfterUpdated_of L _ doc (clock 0) tc tn (by rw [h1, hc]) htc h2 hn
          (hle 0 tn hn)
  · intro q p data n ws hstored hresp
    cases q with
    | none => simp [updateManyDocuments] at hresp
    | some q =>
      simp only [updateManyDocuments] at hresp
      by_cases h0 : (updateManyLoop L clock q p 0 data).updatedCount = 0
      · simp [h0] at hresp
      · simp only [h0, if_false, Response.documents.injEq] at hresp
        intro w hw
        rw [← hresp.2] at hw
        obtain ⟨d, hd, k, hk⟩ := updateManyLoop_docs L clock q p 0 data w hw
        obtain ⟨tc, htc, hle⟩ := hstored d hd
        obtain ⟨c, hc⟩ := instantAt_some L d "created_at" tc htc
        obtain ⟨tn, hn⟩ := hclock k
        have h1 := (mergeDocument_fields (clock k) d p).2.2.1 c hc
        have h2 := (mergeDocument_fields (clock k) d p).2.2.2.2
        rw [hk]
        exact createdNotAfterUpdated_of L _ d (clock k) tc tn (by rw [h1, hc]) htc h2 hn
          (hle k tn hn)

/-- C21, amended, at a concrete request: a body without `created_at`, inserted when
the clock reads 2024-05-01T10:00:00Z. -/
theorem c21_created_not_after_updated_witness :
    (∀ k, ∃ t, fragLib.timeParse layoutRFC3339 (sampleClock k) = some t) ∧
    CreatedNotAfterUpdated fragLib
      ([("n", .num 1), ("id", .str "g"), ("created_at", .str "2024-05-01T10:00:00Z"),
        ("updated_at", .str "2024-05-01T10:00:00Z")] : Document fragLib.F) :=
  ⟨fun _ => ⟨(1714557600 : Int), rfl⟩,
    (c21_created_not_after_updated fragLib sampleGen sampleClock
      (fun _ => ⟨(1714557600 : Int), rfl⟩)).1 [("n", .num 1)] [] _ rfl rfl⟩

end BaseDB
